import Mathlib

/-!
go-graphkb: the SQL query translator (`internal/knowledge/query_sql.go`)

A shallow embedding of the boolean-tree algebra (`AndOrExpression`), of the SQL builder
(`buildSQLSelect`, `buildSingleSQLSelect`) and of `SQLQueryTranslator.Translate`, followed by
theorems about them.

Conventions of the embedding.
* Go `string` is `String`; `strings.Join` and `fmt.Sprintf` are spelled out with `++`.
* Go `int` is `Int` (the indices and limits involved are far from the 64-bit bounds).
* A Go function returning `(T, error)` returns `Except Failure T`: `Failure.error` is a non-nil
  `error` value, `Failure.panic` a run-time panic (slice index out of range).
* A `for` loop over a slice is a recursive function (or a `foldl`) threading the loop's variables.
-/

namespace strings

/-- Go `strings.Join(elems, sep)`: the first element, then `sep` and the next element for each of
the remaining ones; the empty string for no element. -/
def Join (elems : List String) (sep : String) : String :=
  match elems with
  | [] => ""
  | a :: rest => rest.foldl (fun b s => b ++ sep ++ s) a

end strings

namespace knowledge

/-- The two ways a Go call can fail to produce its value. -/
inductive Failure where
  | error (msg : String)
  | panic (msg : String)
  deriving DecidableEq, Repr

/-- Go `type AndOrExpression struct`: `And` is true for And and false for Or. -/
structure AndOrExpression where
  And : Bool
  Children : List AndOrExpression
  Expression : String
  deriving Repr

mutual
/-- Go `BuildAndOrExpression`. -/
def BuildAndOrExpression : AndOrExpression → Except Failure String
  | ⟨and, children, expression⟩ =>
    if expression ≠ "" then
      .ok expression
    else if and then
      match BuildAndOrExpression.children children [] with
      | .error err => .error err
      | .ok exprs =>
        if exprs.length > 1 then
          .ok ("(" ++ strings.Join exprs " AND " ++ ")")
        else
          .ok (strings.Join exprs " AND ")
    else if !and then
      match BuildAndOrExpression.children children [] with
      | .error err => .error err
      | .ok exprs =>
        if exprs.length > 1 then
          .ok ("(" ++ strings.Join exprs " OR " ++ ")")
        else
          .ok (strings.Join exprs " OR ")
    else
      .ok ""
/-- The loop `for i := range tree.Children` of `BuildAndOrExpression` (the same in both
branches), with its variable `exprs`. -/
def BuildAndOrExpression.children : List AndOrExpression → List String →
    Except Failure (List String)
  | [], exprs => .ok exprs
  | child :: rest, exprs =>
    match BuildAndOrExpression child with
    | .error err => .error err
    | .ok expr =>
      if expr ≠ "" then
        BuildAndOrExpression.children rest (exprs ++ [expr])
      else
        BuildAndOrExpression.children rest exprs
end

/-- Go `CrossProductExpressions`. -/
def CrossProductExpressions (and1 and2 : List AndOrExpression) : List AndOrExpression :=
  and1.foldl
    (fun outExpr a =>
      and2.foldl (fun outExpr b => outExpr ++ [AndOrExpression.mk true [a, b] ""]) outExpr)
    []

mutual
/-- Go `UnwindOrExpressions`. -/
def UnwindOrExpressions : AndOrExpression → Except Failure (List AndOrExpression)
  | ⟨and, children, expression⟩ =>
    if expression ≠ "" then
      .ok [AndOrExpression.mk true [⟨and, children, expression⟩] ""]
    else if !and then
      UnwindOrExpressions.orChildren children []
    else if and then
      UnwindOrExpressions.andChildren children []
    else
      .error (.error "Unable to detect kind of node")
/-- The loop of the Or branch of `UnwindOrExpressions`, with its variable `exprs`. -/
def UnwindOrExpressions.orChildren : List AndOrExpression → List AndOrExpression →
    Except Failure (List AndOrExpression)
  | [], exprs => .ok exprs
  | child :: rest, exprs =>
    match UnwindOrExpressions child with
    | .error err => .error err
    | .ok nestedExpressions =>
      UnwindOrExpressions.orChildren rest (exprs ++ nestedExpressions)
/-- The loop of the And branch of `UnwindOrExpressions`, with its variable `exprs`. -/
def UnwindOrExpressions.andChildren : List AndOrExpression → List AndOrExpression →
    Except Failure (List AndOrExpression)
  | [], exprs => .ok exprs
  | child :: rest, exprs =>
    match UnwindOrExpressions child with
    | .error err => .error err
    | .ok expr =>
      if exprs.length = 0 then
        UnwindOrExpressions.andChildren rest (exprs ++ expr)
      else
        UnwindOrExpressions.andChildren rest (CrossProductExpressions exprs expr)
end

/-- Go slice indexing `s[i]`, a run-time panic when `i` is out of range. -/
def index (s : List String) (i : Int) : Except Failure String :=
  if i < 0 then
    .error (.panic "index out of range")
  else
    match s[i.toNat]? with
    | some x => .ok x
    | none => .error (.panic "index out of range")

/-- Go `%d` of `fmt.Sprintf` on an `int`. -/
def fmtInt (n : Int) : String := toString n

/-- Go `type ExpressionType` with the three kinds `MariaDBCursor.Read` switches on. -/
inductive ExpressionType where
  | NodeExprType
  | EdgeExprType
  | PropertyExprType
  deriving DecidableEq, Repr

/-- Go `type Projection struct`. -/
structure Projection where
  Alias : String
  ExpressionType : ExpressionType
  deriving DecidableEq, Repr

/-- Go `type SQLTranslation struct`. -/
structure SQLTranslation where
  Query : String
  ProjectionTypes : List Projection
  deriving DecidableEq, Repr

/-- Go `(*SQLQueryTranslator).buildSingleSQLSelect` (the receiver is not used by the body). -/
def buildSingleSQLSelect (distinct : Bool) (projections : List String)
    (fromTables : List String) (whereExpressions : AndOrExpression) (groupBy : List Int)
    (limit : Int) (offset : Int) : Except Failure String := do
  let projectionsStr := ""
  let projectionsStr := if distinct then projectionsStr ++ "DISTINCT " else projectionsStr
  let projectionsStr := projectionsStr ++ strings.Join projections ", "
  let fromTablesStr := strings.Join fromTables ", "
  let sqlQuery := "SELECT " ++ projectionsStr ++ " FROM " ++ fromTablesStr
  let whereExprStr ← BuildAndOrExpression whereExpressions
  let sqlQuery := if whereExprStr ≠ "" then sqlQuery ++ ("\nWHERE " ++ whereExprStr) else sqlQuery
  let sqlQuery ←
    if groupBy.length > 0 then do
      let groupByProjection ← groupBy.mapM (index projections)
      pure (sqlQuery ++ ("\nGROUP BY " ++ strings.Join groupByProjection ", "))
    else
      pure sqlQuery
  let sqlQuery := if limit > 0 then sqlQuery ++ ("\nLIMIT " ++ fmtInt limit) else sqlQuery
  let sqlQuery := if offset > 0 then sqlQuery ++ ("\nOFFSET " ++ fmtInt offset) else sqlQuery
  pure sqlQuery

/-- Go `(*SQLQueryTranslator).buildSQLSelect` (neither the receiver nor `projectionTypes` is
used by the body). -/
def buildSQLSelect (distinct : Bool) (projections : List String)
    (_projectionTypes : List Projection) (fromTables : List String)
    (whereExpressions : AndOrExpression) (groupBy : List Int) (limit : Int) (offset : Int) :
    Except Failure String := do
  let andExpressions ← UnwindOrExpressions whereExpressions
  if andExpressions.length > 1 then
    let singleQueries ← andExpressions.mapM (fun where_ => do
      let singleQuery ← buildSingleSQLSelect false projections fromTables where_ [] 0 0
      pure ("(" ++ singleQuery ++ ")"))
    let sqlQuery :=
      if distinct then strings.Join singleQueries "\nUNION\n"
      else strings.Join singleQueries "\nUNION ALL\n"
    let sqlQuery ←
      if groupBy.length > 0 then do
        let groupByProjections ← groupBy.mapM (index projections)
        pure ("SELECT " ++ strings.Join projections ", " ++ " FROM\n(" ++ sqlQuery
          ++ ")\nGROUP BY " ++ strings.Join groupByProjections ",")
      else
        pure sqlQuery
    let sqlQuery := if limit > 0 then sqlQuery ++ ("\nLIMIT " ++ fmtInt limit) else sqlQuery
    let sqlQuery := if offset > 0 then sqlQuery ++ ("\nOFFSET " ++ fmtInt offset) else sqlQuery
    pure sqlQuery
  else
    let and := AndOrExpression.mk true andExpressions ""
    let singleQuery ←
      buildSingleSQLSelect distinct projections fromTables and groupBy limit offset
    pure singleQuery

/-! ### The query graph and the query IR

`query_graph.go` and the package `query` are not part of the sources at hand: the types below
carry the fields `Translate` reads, and the methods `Translate` calls are the fields of
`Collaborators`, so that every theorem about `Translate` holds for every behaviour of them. -/

/-- Modelled from the spec: the direction of a query-graph relation, `direction ∈ {Right, Left,
Either}` (the declaration of `Right`, `Left` and `Either` is in `query_graph.go`). -/
inductive RelationDirection where
  | Left
  | Right
  | Either
  deriving DecidableEq, Repr

/-- Modelled from the spec: a query-graph node, of which `Translate` reads `Labels`. -/
structure QueryNode where
  Labels : List String
  deriving DecidableEq, Repr

/-- Modelled from the spec: a query-graph relation, of which `Translate` reads `Labels`,
`LeftIdx`, `RightIdx` and `Direction`. -/
structure QueryRelation where
  Labels : List String
  LeftIdx : Int
  RightIdx : Int
  Direction : RelationDirection
  deriving DecidableEq, Repr

/-- Modelled from the spec: the kind of a variable, `kind ∈ {node, relation}`. -/
inductive VariableType where
  | NodeType
  | RelationType
  deriving DecidableEq, Repr

/-- Modelled from the spec: the result `(kind, index)` of `FindVariable`; `Translate` reads
`Index` only. -/
structure TypeAndIndex where
  VarType : VariableType
  Index : Int
  deriving DecidableEq, Repr

/-- Modelled from the spec: the query graph, of which `Translate` reads `Nodes` and `Relations`;
`VariablesIndex` binds variable names to node and relation slots. -/
structure QueryGraph where
  Nodes : List QueryNode
  Relations : List QueryRelation
  VariablesIndex : List (String × TypeAndIndex)
  deriving DecidableEq, Repr

/-- Go `type SQLQueryTranslator struct`. -/
structure SQLQueryTranslator where
  QueryGraph : QueryGraph
  deriving DecidableEq, Repr

/-- Modelled from the spec: one `(relationshipPattern, nodePattern)` pair of a chain. -/
structure QueryPatternElementChain (N R : Type) where
  RelationshipPattern : R
  QueryNodePattern : N

/-- Modelled from the spec: a pattern element, a first node and a chain. -/
structure QueryPatternElement (N R : Type) where
  QueryNodePattern : N
  QueryPatternElementChains : List (QueryPatternElementChain N R)

/-- Modelled from the spec: a MATCH clause with its optional WHERE. -/
structure QueryMatch (N R E : Type) where
  PatternElements : List (QueryPatternElement N R)
  Where : Option E

/-- Modelled from the spec: a projection item `(Expression, Alias)`. -/
structure QueryProjectionItem (E : Type) where
  Expression : E
  Alias : String

/-- Modelled from the spec: the projection body. -/
structure QueryProjectionBody (E : Type) where
  Distinct : Bool
  ProjectionItems : List (QueryProjectionItem E)
  Limit : Option E
  Skip : Option E

/-- Modelled from the spec: a single-part pattern query. -/
structure QuerySinglePartQuery (N R E : Type) where
  QueryMatches : List (QueryMatch N R E)
  ProjectionBody : QueryProjectionBody E

/-- Modelled from the spec: the input IR `query.QueryCypher`. -/
structure QueryCypher (N R E : Type) where
  QuerySinglePartQuery : QuerySinglePartQuery N R E

/-- What `ProjectionVisitor.ParseExpression` leaves in the visitor's fields. -/
structure ProjectionVisitorResult where
  Aggregation : Bool
  ExpressionType : ExpressionType
  deriving DecidableEq, Repr

/-- What `QueryWhereVisitor.ParseExpression` returns (`whereExpression`) and leaves in the
visitor's field `Variables`. -/
structure WhereVisitorResult where
  whereExpression : String
  Variables : List String
  deriving DecidableEq, Repr

/-- The methods `Translate` calls that live outside `query_sql.go`, over node patterns `N`,
relationship patterns `R` and expressions `E`. The query-graph methods return the updated graph
next to their Go results; the visitors read the graph and do not change it. -/
structure Collaborators (N R E : Type) where
  PushNode : QueryGraph → N → Except Failure (QueryGraph × Int)
  PushRelation : QueryGraph → R → Int → Int → Except Failure (QueryGraph × Int)
  FindVariable : QueryGraph → String → Except Failure TypeAndIndex
  FindNode : QueryGraph → Int → Except Failure QueryNode
  WhereVisitor : QueryGraph → E → Except Failure WhereVisitorResult
  ProjectionVisitor : QueryGraph → E → Except Failure ProjectionVisitorResult
  ExpressionBuilder : QueryGraph → E → Except Failure String
  LimitVisitor : E → Except Failure Int
  SkipVisitor : E → Except Failure Int

section Translate

variable {N R E : Type}

/-- The loop `for _, z := range y.QueryPatternElementChains` of `Translate`, with the graph and
`i1`. -/
def Translate.chains (c : Collaborators N R E) :
    List (QueryPatternElementChain N R) → QueryGraph → Int → Except Failure QueryGraph
  | [], graph, _ => .ok graph
  | z :: rest, graph, i1 => do
    let (graph, i2) ← c.PushNode graph z.QueryNodePattern
    let (graph, _) ← c.PushRelation graph z.RelationshipPattern i1 i2
    Translate.chains c rest graph i2

/-- The loop `for _, y := range x.PatternElements` of `Translate`. -/
def Translate.patternElements (c : Collaborators N R E) :
    List (QueryPatternElement N R) → QueryGraph → Except Failure QueryGraph
  | [], graph => .ok graph
  | y :: rest, graph => do
    let (graph, i1) ← c.PushNode graph y.QueryNodePattern
    let graph ← Translate.chains c y.QueryPatternElementChains graph i1
    Translate.patternElements c rest graph

/-- The loop `for _, v := range whereVisitor.Variables` of `Translate`; the map
`constrainedNodes` is the list of its keys. -/
def Translate.variables (c : Collaborators N R E) (graph : QueryGraph) :
    List String → List Int → Except Failure (List Int)
  | [], constrainedNodes => .ok constrainedNodes
  | v :: rest, constrainedNodes => do
    let typeAndIndex ← c.FindVariable graph v
    Translate.variables c graph rest (constrainedNodes ++ [typeAndIndex.Index])

/-- The loop `for _, x := range query.QuerySinglePartQuery.QueryMatches` of `Translate`, with
the graph, `constrainedNodes` and `filterExpressions.Children`. -/
def Translate.queryMatches (c : Collaborators N R E) :
    List (QueryMatch N R E) → QueryGraph → List Int → List AndOrExpression →
      Except Failure (QueryGraph × List Int × List AndOrExpression)
  | [], graph, constrainedNodes, filterChildren => .ok (graph, constrainedNodes, filterChildren)
  | x :: rest, graph, constrainedNodes, filterChildren => do
    let graph ← Translate.patternElements c x.PatternElements graph
    match x.Where with
    | some w =>
      let whereVisitor ← c.WhereVisitor graph w
      let constrainedNodes ← Translate.variables c graph whereVisitor.Variables constrainedNodes
      Translate.queryMatches c rest graph constrainedNodes
        (filterChildren ++ [AndOrExpression.mk false [] whereVisitor.whereExpression])
    | none => Translate.queryMatches c rest graph constrainedNodes filterChildren

/-- The variables of the projection loop of `Translate`. -/
structure ProjectionState where
  projections : List String
  projectionTypes : List Projection
  unaggregatedProjectionItems : List Int
  aggregationRequired : Bool
  deriving DecidableEq, Repr

/-- The loop `for i, p := range ...ProjectionBody.ProjectionItems` of `Translate`. -/
def Translate.projectionItems (c : Collaborators N R E) (graph : QueryGraph) :
    List (QueryProjectionItem E) → Nat → ProjectionState → Except Failure ProjectionState
  | [], _, st => .ok st
  | p :: rest, i, st => do
    let projectionVisitor ← c.ProjectionVisitor graph p.Expression
    let projection ← c.ExpressionBuilder graph p.Expression
    let unaggregatedProjectionItems :=
      if !projectionVisitor.Aggregation then st.unaggregatedProjectionItems ++ [(i : Int)]
      else st.unaggregatedProjectionItems
    let aggregationRequired :=
      if !projectionVisitor.Aggregation then st.aggregationRequired else true
    Translate.projectionItems c graph rest (i + 1)
      { projections := st.projections ++ [projection]
        projectionTypes := st.projectionTypes ++ [Projection.mk p.Alias projectionVisitor.ExpressionType]
        unaggregatedProjectionItems := unaggregatedProjectionItems
        aggregationRequired := aggregationRequired }

/-- The loop `for _, label := range n.Labels` building `typesConstraints.Children`. -/
def Translate.labels (alias_ : String) (labels : List String) : List AndOrExpression :=
  labels.foldl
    (fun children label =>
      children ++ [AndOrExpression.mk false [] (alias_ ++ ".type = '" ++ label ++ "'")])
    []

/-- The loop `for i, n := range sqt.QueryGraph.Nodes` of `Translate`, with `from` and
`andExpressions.Children`. -/
def Translate.nodes : List QueryNode → Nat → List String → List AndOrExpression →
    List String × List AndOrExpression
  | [], _, from_, andChildren => (from_, andChildren)
  | n :: rest, i, from_, andChildren =>
    let alias_ := "a" ++ toString i
    let from_ := from_ ++ ["assets " ++ alias_]
    let typesConstraints := AndOrExpression.mk false (Translate.labels alias_ n.Labels) ""
    let andChildren :=
      if typesConstraints.Children.length > 0 then andChildren ++ [typesConstraints]
      else andChildren
    Translate.nodes rest (i + 1) from_ andChildren

/-- The loop `for idx := range constrainedNodes` of `Translate`, with `nodesConstrained`. -/
def Translate.nodesConstrained (constrainedNodes : List Int) (r : QueryRelation) : Bool :=
  constrainedNodes.foldl
    (fun nodesConstrained idx =>
      let nodesConstrained := if idx = r.LeftIdx then true else nodesConstrained
      let nodesConstrained := if idx = r.RightIdx then true else nodesConstrained
      nodesConstrained)
    false

/-- The value of `oneDirectionOptimization` in the `Either` branch of `Translate`. -/
def Translate.oneDirectionOptimization (c : Collaborators N R E) (graph : QueryGraph)
    (constrainedNodes : List Int) (r : QueryRelation) : Except Failure Bool := do
  let oneDirectionOptimization := false
  if graph.Relations.length = 1 then
    let nodesConstrained := Translate.nodesConstrained constrainedNodes r
    let nodesConstrained ←
      if !nodesConstrained then do
        let n ← c.FindNode graph r.LeftIdx
        let nodesConstrained := if n.Labels.length > 0 then true else nodesConstrained
        let n ← c.FindNode graph r.RightIdx
        let nodesConstrained := if n.Labels.length > 0 then true else nodesConstrained
        pure nodesConstrained
      else
        pure nodesConstrained
    pure (!nodesConstrained)
  else
    pure oneDirectionOptimization

/-- The predicate `out` of `Translate` for the relation with alias `alias_`. -/
def Translate.out (alias_ : String) (r : QueryRelation) : AndOrExpression :=
  AndOrExpression.mk true
    [ AndOrExpression.mk false [] (alias_ ++ ".from_id = a" ++ fmtInt r.LeftIdx ++ ".id"),
      AndOrExpression.mk false [] (alias_ ++ ".to_id = a" ++ fmtInt r.RightIdx ++ ".id") ]
    ""

/-- The predicate `in` of `Translate` for the relation with alias `alias_`. -/
def Translate.in (alias_ : String) (r : QueryRelation) : AndOrExpression :=
  AndOrExpression.mk true
    [ AndOrExpression.mk false [] (alias_ ++ ".from_id = a" ++ fmtInt r.RightIdx ++ ".id"),
      AndOrExpression.mk false [] (alias_ ++ ".to_id = a" ++ fmtInt r.LeftIdx ++ ".id") ]
    ""

/-- The loop `for i, r := range sqt.QueryGraph.Relations` of `Translate`, with `from` and
`andExpressions.Children`. -/
def Translate.relations (c : Collaborators N R E) (graph : QueryGraph)
    (constrainedNodes : List Int) :
    List QueryRelation → Nat → List String → List AndOrExpression →
      Except Failure (List String × List AndOrExpression)
  | [], _, from_, andChildren => .ok (from_, andChildren)
  | r :: rest, i, from_, andChildren => do
    let alias_ := "r" ++ toString i
    let from_ := from_ ++ ["relations " ++ alias_]
    let typesConstraints := AndOrExpression.mk false (Translate.labels alias_ r.Labels) ""
    let andChildren :=
      if typesConstraints.Children.length > 0 then andChildren ++ [typesConstraints]
      else andChildren
    let out := Translate.out alias_ r
    let in_ := Translate.in alias_ r
    let andChildren ←
      match r.Direction with
      | .Right => pure (andChildren ++ [out])
      | .Left => pure (andChildren ++ [in_])
      | .Either => do
        let oneDirectionOptimization ←
          Translate.oneDirectionOptimization c graph constrainedNodes r
        if oneDirectionOptimization then
          pure (andChildren ++ [out])
        else
          pure (andChildren ++ [AndOrExpression.mk false [out, in_] ""])
    Translate.relations c graph constrainedNodes rest (i + 1) from_ andChildren

/-- The value of `limit` in `Translate`. -/
def Translate.limit (c : Collaborators N R E) (body : QueryProjectionBody E) :
    Except Failure Int :=
  match body.Limit with
  | some l => c.LimitVisitor l
  | none => .ok 0

/-- The value of `offset` in `Translate`. -/
def Translate.offset (c : Collaborators N R E) (body : QueryProjectionBody E) (limit : Int) :
    Except Failure Int :=
  match body.Skip with
  | some s =>
    if limit = 0 then
      .error (.error "SKIP must be used in combination with limit")
    else
      c.SkipVisitor s
  | none => .ok 0

/-- Go `(*SQLQueryTranslator).Translate`. The result is the returned translation; the graph of
the receiver is threaded through the loops. -/
def Translate (c : Collaborators N R E) (sqt : SQLQueryTranslator) (query : QueryCypher N R E) :
    Except Failure SQLTranslation := do
  let (graph, constrainedNodes, filterChildren) ←
    Translate.queryMatches c query.QuerySinglePartQuery.QueryMatches sqt.QueryGraph [] []
  let st ←
    Translate.projectionItems c graph query.QuerySinglePartQuery.ProjectionBody.ProjectionItems 0
      { projections := [], projectionTypes := [], unaggregatedProjectionItems := [],
        aggregationRequired := false }
  let unaggregatedProjectionItems :=
    if !st.aggregationRequired then [] else st.unaggregatedProjectionItems
  let (from_, andChildren) := Translate.nodes graph.Nodes 0 [] []
  let (from_, andChildren) ←
    Translate.relations c graph constrainedNodes graph.Relations 0 from_ andChildren
  let limit ← Translate.limit c query.QuerySinglePartQuery.ProjectionBody
  let offset ← Translate.offset c query.QuerySinglePartQuery.ProjectionBody limit
  let andChildren :=
    if filterChildren.length > 0 then andChildren ++ [AndOrExpression.mk true filterChildren ""]
    else andChildren
  let sqlQuery ←
    buildSQLSelect query.QuerySinglePartQuery.ProjectionBody.Distinct st.projections
      st.projectionTypes from_ (AndOrExpression.mk true andChildren "") unaggregatedProjectionItems
      limit offset
  pure { Query := sqlQuery, ProjectionTypes := st.projectionTypes }

end Translate

/-! ### Reference definitions for the boolean-tree algebra -/

mutual
/-- The renderer `render` as the specification words it: a node with a non-empty expression
renders to it; otherwise the non-empty renderings of the children are joined with ` AND ` or
` OR `, in parentheses when there are two or more, bare when there is one, and the result is
empty when there is none. -/
def render : AndOrExpression → String
  | ⟨and, children, expression⟩ =>
    if expression ≠ "" then
      expression
    else
      match render.children children with
      | [] => ""
      | [single] => single
      | parts => "(" ++ (if and then " AND " else " OR ").intercalate parts ++ ")"
/-- The non-empty renderings of a list of children, in order. -/
def render.children : List AndOrExpression → List String
  | [] => []
  | child :: rest =>
    if render child ≠ "" then render child :: render.children rest else render.children rest
end

/-- A propositional formula over leaf expressions, as the renderer writes it. -/
inductive Formula where
  | atom (expression : String)
  | conj (operands : List Formula)
  | disj (operands : List Formula)

mutual
/-- The text of a formula: an atom is its expression, a conjunction or disjunction is its
operands joined by ` AND ` or ` OR ` inside parentheses. -/
def Formula.print : Formula → String
  | .atom expression => expression
  | .conj operands => "(" ++ " AND ".intercalate (Formula.printAll operands) ++ ")"
  | .disj operands => "(" ++ " OR ".intercalate (Formula.printAll operands) ++ ")"
/-- The texts of a list of formulas. -/
def Formula.printAll : List Formula → List String
  | [] => []
  | f :: rest => Formula.print f :: Formula.printAll rest
end

mutual
/-- The truth value of a formula under a truth assignment `v` to the leaf expressions. -/
def Formula.eval (v : String → Bool) : Formula → Bool
  | .atom expression => v expression
  | .conj operands => Formula.evalAll v operands
  | .disj operands => Formula.evalAny v operands
/-- All formulas of the list are true. -/
def Formula.evalAll (v : String → Bool) : List Formula → Bool
  | [] => true
  | f :: rest => Formula.eval v f && Formula.evalAll v rest
/-- Some formula of the list is true. -/
def Formula.evalAny (v : String → Bool) : List Formula → Bool
  | [] => false
  | f :: rest => Formula.eval v f || Formula.evalAny v rest
end

mutual
/-- The formula a tree is rendered to, `none` when the rendering is empty: the children that
render to nothing are left out, and a single remaining operand stands for itself. -/
def formula : AndOrExpression → Option Formula
  | ⟨and, children, expression⟩ =>
    if expression ≠ "" then
      some (.atom expression)
    else
      match formula.children children with
      | [] => none
      | [single] => some single
      | operands => some (if and then .conj operands else .disj operands)
/-- The formulas of the children that render to something, in order. -/
def formula.children : List AndOrExpression → List Formula
  | [] => []
  | child :: rest =>
    match formula child with
    | some f => f :: formula.children rest
    | none => formula.children rest
end

/-- The text of an optional formula, empty for `none`. -/
def Formula.printOpt : Option Formula → String
  | none => ""
  | some f => f.print

/-- The truth value of an optional formula; `none` is "no constraint", which always holds. -/
def Formula.holds (v : String → Bool) : Option Formula → Bool
  | none => true
  | some f => f.eval v

/-- The truth value, under `v`, of the formula the tree is rendered to. -/
def renderedHolds (v : String → Bool) (t : AndOrExpression) : Bool :=
  Formula.holds v (formula t)

mutual
/-- Every node of the tree that is read (a node with an expression is a leaf, its children are
not read) has a non-empty expression or at least one child. -/
def noEmptyNode : AndOrExpression → Bool
  | ⟨_, children, expression⟩ =>
    expression != "" || (!children.isEmpty && noEmptyNode.all children)
/-- All trees of the list satisfy `noEmptyNode`. -/
def noEmptyNode.all : List AndOrExpression → Bool
  | [] => true
  | child :: rest => noEmptyNode child && noEmptyNode.all rest
end

mutual
/-- The list `UnwindOrExpressions` returns, as a total function. -/
def unwind : AndOrExpression → List AndOrExpression
  | ⟨and, children, expression⟩ =>
    if expression ≠ "" then
      [AndOrExpression.mk true [⟨and, children, expression⟩] ""]
    else if and then
      unwind.andFold children []
    else
      unwind.orConcat children
/-- The concatenation of the lists of the children, in order. -/
def unwind.orConcat : List AndOrExpression → List AndOrExpression
  | [] => []
  | child :: rest => unwind child ++ unwind.orConcat rest
/-- The fold of the And branch from the accumulator `exprs`. -/
def unwind.andFold : List AndOrExpression → List AndOrExpression → List AndOrExpression
  | [], exprs => exprs
  | child :: rest, exprs =>
    unwind.andFold rest
      (if exprs.isEmpty then unwind child
       else exprs.flatMap (fun a => (unwind child).map (fun b => AndOrExpression.mk true [a, b] "")))
end

/-- The shape of the conjunctions `UnwindOrExpressions` builds: an And node over one leaf, or an
And node over two such conjunctions. -/
inductive IsConjunction : AndOrExpression → Prop where
  | leaf (and : Bool) (children : List AndOrExpression) (expression : String)
      (h : expression ≠ "") :
      IsConjunction (AndOrExpression.mk true [AndOrExpression.mk and children expression] "")
  | pair (a b : AndOrExpression) (ha : IsConjunction a) (hb : IsConjunction b) :
      IsConjunction (AndOrExpression.mk true [a, b] "")

mutual
/-- The leaf expressions of a tree, in order (a node with an expression is a leaf). -/
def leaves : AndOrExpression → List String
  | ⟨_, children, expression⟩ =>
    if expression ≠ "" then [expression] else leaves.children children
/-- The leaf expressions of a list of trees, in order. -/
def leaves.children : List AndOrExpression → List String
  | [] => []
  | child :: rest => leaves child ++ leaves.children rest
end

/-! ### Reference definitions for the SQL builder -/

/-- The projections at the `groupBy` indices, in order. -/
def columnsAt (projections : List String) (groupBy : List Int) : List String :=
  groupBy.map (fun i => projections.getD i.toNat "")

/-- The indices of `groupBy` are positions of `projections`. -/
def inRange (projections : List String) (groupBy : List Int) : Prop :=
  ∀ i ∈ groupBy, 0 ≤ i ∧ i < projections.length

/-- The text of a single SELECT as the specification words it: `SELECT [DISTINCT ]` the
projections ` FROM ` the tables, then the optional WHERE, GROUP BY, LIMIT and OFFSET clauses, in
this order. -/
def selectText (distinct : Bool) (projections : List String) (fromTables : List String)
    (whereText : String) (groupByColumns : List String) (limit : Int) (offset : Int) : String :=
  "SELECT " ++ (if distinct then "DISTINCT " else "") ++ ", ".intercalate projections
    ++ " FROM " ++ ", ".intercalate fromTables
    ++ (if whereText ≠ "" then "\nWHERE " ++ whereText else "")
    ++ (if groupByColumns ≠ [] then "\nGROUP BY " ++ ", ".intercalate groupByColumns else "")
    ++ (if limit > 0 then "\nLIMIT " ++ toString limit else "")
    ++ (if offset > 0 then "\nOFFSET " ++ toString offset else "")

/-- The text of a union of SELECT branches as the specification words it: the branches in
parentheses joined by `UNION` (distinct) or `UNION ALL`, wrapped in an outer grouping SELECT when
there are GROUP BY columns, then the optional LIMIT and OFFSET clauses. -/
def unionText (distinct : Bool) (projections : List String) (branches : List String)
    (groupByColumns : List String) (limit : Int) (offset : Int) : String :=
  let union :=
    (if distinct then "\nUNION\n" else "\nUNION ALL\n").intercalate
      (branches.map (fun b => "(" ++ b ++ ")"))
  (if groupByColumns ≠ [] then
      "SELECT " ++ ", ".intercalate projections ++ " FROM\n(" ++ union ++ ")\nGROUP BY "
        ++ ",".intercalate groupByColumns
    else union)
    ++ (if limit > 0 then "\nLIMIT " ++ toString limit else "")
    ++ (if offset > 0 then "\nOFFSET " ++ toString offset else "")

/-! ### A model of the collaborators, from the specification

Used to run `Translate` on concrete queries. -/

/-- Modelled from the spec: a pattern node, with its optional variable (empty for none) and its
labels (the type is declared in the package `query`). -/
structure QueryNodePattern where
  Variable : String
  Labels : List String
  deriving DecidableEq, Repr

/-- Modelled from the spec: a pattern relationship, with its optional variable, its labels and
its direction (the type is declared in the package `query`). -/
structure QueryRelationshipPattern where
  Variable : String
  Labels : List String
  Direction : RelationDirection
  deriving DecidableEq, Repr

/-- Modelled from the spec: the expressions of the IR that the scenarios of the specification
use (the type is declared in the package `query`). -/
inductive QueryExpression where
  | Variable (name : String)
  | Property (name : String) (key : String)
  | StringLiteral (value : String)
  | IntegerLiteral (value : Int)
  | Equal (left right : QueryExpression)
  | Or (left right : QueryExpression)
  | Count (argument : QueryExpression)
  deriving DecidableEq, Repr

/-- Modelled from the spec: `findVariable(name) → (kind, index)`, failing with `UnknownVariable`
when absent (`QueryGraph.FindVariable` is in `query_graph.go`). -/
def QueryGraph.FindVariable (qg : QueryGraph) (name : String) : Except Failure TypeAndIndex :=
  match qg.VariablesIndex.lookup name with
  | some typeAndIndex => .ok typeAndIndex
  | none => .error (.error "UnknownVariable")

/-- Modelled from the spec: `findNode(index)`, by-index access failing with `OutOfRange`
(`QueryGraph.FindNode` is in `query_graph.go`). -/
def QueryGraph.FindNode (qg : QueryGraph) (idx : Int) : Except Failure QueryNode :=
  if idx < 0 then
    .error (.error "OutOfRange")
  else
    match qg.Nodes[idx.toNat]? with
    | some n => .ok n
    | none => .error (.error "OutOfRange")

/-- Modelled from the spec: `pushNode(patternNode) → (node, index)`: if the variable is set and
already bound to a node, the existing node with its index, its labels unified by union;
otherwise a new node is appended, with a fresh index (`QueryGraph.PushNode` is in
`query_graph.go`). -/
def QueryGraph.PushNode (qg : QueryGraph) (q : QueryNodePattern) :
    Except Failure (QueryGraph × Int) :=
  match (if q.Variable ≠ "" then qg.VariablesIndex.lookup q.Variable else none) with
  | some ⟨.NodeType, idx⟩ =>
    match qg.Nodes[idx.toNat]? with
    | some n =>
      let unified := QueryNode.mk (n.Labels ++ q.Labels.filter (fun l => !n.Labels.contains l))
      .ok ({ qg with Nodes := qg.Nodes.set idx.toNat unified }, idx)
    | none => .error (.error "OutOfRange")
  | _ =>
    let idx : Int := qg.Nodes.length
    .ok ({ qg with
            Nodes := qg.Nodes ++ [QueryNode.mk q.Labels]
            VariablesIndex :=
              if q.Variable ≠ "" then
                qg.VariablesIndex ++ [(q.Variable, TypeAndIndex.mk .NodeType idx)]
              else qg.VariablesIndex }, idx)

/-- Modelled from the spec: `pushRelation(patternRel, leftIdx, rightIdx) → (relation, index)`:
the same variable-based unification for named relations; otherwise a new relation is appended
with the given endpoint indices and the direction of the pattern (`QueryGraph.PushRelation` is in
`query_graph.go`). -/
def QueryGraph.PushRelation (qg : QueryGraph) (q : QueryRelationshipPattern)
    (leftIdx rightIdx : Int) : Except Failure (QueryGraph × Int) :=
  match (if q.Variable ≠ "" then qg.VariablesIndex.lookup q.Variable else none) with
  | some ⟨.RelationType, idx⟩ =>
    match qg.Relations[idx.toNat]? with
    | some r =>
      let unified :=
        { r with Labels := r.Labels ++ q.Labels.filter (fun l => !r.Labels.contains l) }
      .ok ({ qg with Relations := qg.Relations.set idx.toNat unified }, idx)
    | none => .error (.error "OutOfRange")
  | _ =>
    let idx : Int := qg.Relations.length
    .ok ({ qg with
            Relations := qg.Relations ++ [QueryRelation.mk q.Labels leftIdx rightIdx q.Direction]
            VariablesIndex :=
              if q.Variable ≠ "" then
                qg.VariablesIndex ++ [(q.Variable, TypeAndIndex.mk .RelationType idx)]
              else qg.VariablesIndex }, idx)

/-- Modelled from the spec: the expression builder. A node variable bound to index `i` renders
to `a{i}.id, a{i}.value, a{i}.type`, a relation variable bound to `j` to `r{j}.id, r{j}.from_id,
r{j}.to_id, r{j}.type, r{j}.source`, a property to a single column of the alias; literals,
comparisons, disjunctions and `count` render in the usual SQL way (the builder is in a file that
is not at hand). -/
def QueryExpression.Build (qg : QueryGraph) : QueryExpression → Except Failure String
  | .Variable name => do
    let typeAndIndex ← qg.FindVariable name
    match typeAndIndex.VarType with
    | .NodeType =>
      let a := "a" ++ fmtInt typeAndIndex.Index
      pure (a ++ ".id, " ++ a ++ ".value, " ++ a ++ ".type")
    | .RelationType =>
      let r := "r" ++ fmtInt typeAndIndex.Index
      pure (r ++ ".id, " ++ r ++ ".from_id, " ++ r ++ ".to_id, " ++ r ++ ".type, " ++ r
        ++ ".source")
  | .Property name key => do
    let typeAndIndex ← qg.FindVariable name
    match typeAndIndex.VarType with
    | .NodeType => pure ("a" ++ fmtInt typeAndIndex.Index ++ "." ++ key)
    | .RelationType => pure ("r" ++ fmtInt typeAndIndex.Index ++ "." ++ key)
  | .StringLiteral value => pure ("'" ++ value ++ "'")
  | .IntegerLiteral value => pure (fmtInt value)
  | .Equal left right => do
    let l ← QueryExpression.Build qg left
    let r ← QueryExpression.Build qg right
    pure (l ++ " = " ++ r)
  | .Or left right => do
    let l ← QueryExpression.Build qg left
    let r ← QueryExpression.Build qg right
    pure (l ++ " OR " ++ r)
  | .Count argument => do
    let a ← QueryExpression.Build qg argument
    pure ("COUNT(" ++ a ++ ")")

/-- Modelled from the spec: the variable names an expression refers to, in order. -/
def QueryExpression.Variables : QueryExpression → List String
  | .Variable name => [name]
  | .Property name _ => [name]
  | .StringLiteral _ => []
  | .IntegerLiteral _ => []
  | .Equal left right => left.Variables ++ right.Variables
  | .Or left right => left.Variables ++ right.Variables
  | .Count argument => argument.Variables

/-- Modelled from the spec: whether an expression contains an aggregation function. -/
def QueryExpression.Aggregation : QueryExpression → Bool
  | .Equal left right => left.Aggregation || right.Aggregation
  | .Or left right => left.Aggregation || right.Aggregation
  | .Count _ => true
  | _ => false

/-- Modelled from the spec: the WHERE visitor, emitting `(renderedSQL, variables)`. -/
def QueryExpression.WhereVisitor (qg : QueryGraph) (e : QueryExpression) :
    Except Failure WhereVisitorResult := do
  let whereExpression ← e.Build qg
  pure { whereExpression := whereExpression, Variables := e.Variables }

/-- Modelled from the spec: the projection visitor, detecting an aggregation and classifying the
expression: a whole node variable is `NodeExprType`, a whole relation variable `EdgeExprType`,
anything else `PropertyExprType`. -/
def QueryExpression.ProjectionVisitor (qg : QueryGraph) (e : QueryExpression) :
    Except Failure ProjectionVisitorResult :=
  match e with
  | .Variable name => do
    let typeAndIndex ← qg.FindVariable name
    match typeAndIndex.VarType with
    | .NodeType => pure { Aggregation := false, ExpressionType := .NodeExprType }
    | .RelationType => pure { Aggregation := false, ExpressionType := .EdgeExprType }
  | e => pure { Aggregation := e.Aggregation, ExpressionType := .PropertyExprType }

/-- Modelled from the spec: the LIMIT and SKIP visitors, each extracting a non-negative integer
literal. -/
def QueryExpression.IntegerVisitor (e : QueryExpression) : Except Failure Int :=
  match e with
  | .IntegerLiteral value =>
    if 0 ≤ value then .ok value else .error (.error "UnsupportedExpression")
  | _ => .error (.error "UnsupportedExpression")

/-- The collaborators as the specification describes them. -/
def specCollaborators :
    Collaborators QueryNodePattern QueryRelationshipPattern QueryExpression where
  PushNode := QueryGraph.PushNode
  PushRelation := QueryGraph.PushRelation
  FindVariable := QueryGraph.FindVariable
  FindNode := QueryGraph.FindNode
  WhereVisitor := QueryExpression.WhereVisitor
  ProjectionVisitor := QueryExpression.ProjectionVisitor
  ExpressionBuilder := QueryExpression.Build
  LimitVisitor := QueryExpression.IntegerVisitor
  SkipVisitor := QueryExpression.IntegerVisitor

/-- Go `NewSQLQueryTranslator`, over the empty query graph `NewQueryGraph()`. -/
def NewSQLQueryTranslator : SQLQueryTranslator :=
  { QueryGraph := { Nodes := [], Relations := [], VariablesIndex := [] } }

/-- A query with a single MATCH clause over a single pattern element. -/
def singleMatch (first : QueryNodePattern)
    (chain : List (QueryRelationshipPattern × QueryNodePattern))
    (where_ : Option QueryExpression) (distinct : Bool)
    (items : List (QueryExpression × String)) (limit skip : Option QueryExpression) :
    QueryCypher QueryNodePattern QueryRelationshipPattern QueryExpression :=
  { QuerySinglePartQuery :=
      { QueryMatches :=
          [{ PatternElements :=
               [{ QueryNodePattern := first
                  QueryPatternElementChains :=
                    chain.map (fun rn =>
                      { RelationshipPattern := rn.1, QueryNodePattern := rn.2 }) }]
             Where := where_ }]
        ProjectionBody :=
          { Distinct := distinct
            ProjectionItems := items.map (fun ea => { Expression := ea.1, Alias := ea.2 })
            Limit := limit
            Skip := skip } } }

/-- The text `buildSQLSelect` is specified to return for the WHERE tree `whereExpressions` and
the GROUP BY columns `groupByColumns`: one SELECT over the And of the expansion when the
expansion has at most one conjunction, and otherwise the union of one SELECT per conjunction
(without DISTINCT, GROUP BY, LIMIT and OFFSET). -/
def builderText (distinct : Bool) (projections : List String) (fromTables : List String)
    (whereExpressions : AndOrExpression) (groupByColumns : List String) (limit : Int)
    (offset : Int) : String :=
  if (unwind whereExpressions).length ≤ 1 then
    selectText distinct projections fromTables
      (render (AndOrExpression.mk true (unwind whereExpressions) "")) groupByColumns limit offset
  else
    unionText distinct projections
      ((unwind whereExpressions).map
        (fun c => selectText false projections fromTables (render c) [] 0 0))
      groupByColumns limit offset

/-- The positions, counted from `i`, of the `false` entries of a list of aggregation flags. -/
def unaggregatedIndices : Nat → List Bool → List Int
  | _, [] => []
  | i, aggregation :: rest =>
    if aggregation then unaggregatedIndices (i + 1) rest
    else (i : Int) :: unaggregatedIndices (i + 1) rest

/-- What the projection visitor and the expression builder return for the projection items:
`results` holds, item by item, the visitor's fields and the rendered projection string. -/
def ProjectionResults {N R E : Type} (c : Collaborators N R E) (graph : QueryGraph)
    (items : List (QueryProjectionItem E)) (results : List (ProjectionVisitorResult × String)) :
    Prop :=
  List.Forall₂
    (fun p r =>
      c.ProjectionVisitor graph p.Expression = .ok r.1 ∧
        c.ExpressionBuilder graph p.Expression = .ok r.2)
    items results

/-- Scenario S6 of the specification: `MATCH (n:Person) RETURN n.type, count(n)`. -/
def scenarioS6 : QueryCypher QueryNodePattern QueryRelationshipPattern QueryExpression :=
  singleMatch ⟨"n", ["Person"]⟩ [] none false
    [(.Property "n" "type", ""), (.Count (.Variable "n"), "")] none none

/-- The translation of scenario S6. -/
def translationS6 : SQLTranslation :=
  { Query := "SELECT a0.type, COUNT(a0.id, a0.value, a0.type) FROM assets a0"
      ++ "\nWHERE a0.type = 'Person'\nGROUP BY a0.type"
    ProjectionTypes := [⟨"", .PropertyExprType⟩, ⟨"", .PropertyExprType⟩] }

/-- The text `needle` occurs in the text `text`. -/
def occursIn (needle text : String) : Prop := needle.data <:+: text.data

instance (needle text : String) : Decidable (occursIn needle text) :=
  inferInstanceAs (Decidable (needle.data <:+: text.data))

/-! ### Reference definitions for the constraints `Translate` derives from the query graph -/

/-- The label constraint of a node or relation with alias `alias_`: nothing without labels,
otherwise one Or node over the leaves `alias.type = 'L'`, in label order. -/
def labelConstraint (alias_ : String) (labels : List String) : List AndOrExpression :=
  if labels = [] then []
  else
    [AndOrExpression.mk false
      (labels.map (fun label =>
        AndOrExpression.mk false [] (alias_ ++ ".type = '" ++ label ++ "'"))) ""]

/-- The direction constraint of a relation with alias `alias_`: `out` for `Right`, `in` for
`Left`, and for `Either` `out` when the single-direction optimization is taken and `Or(out, in)`
otherwise. -/
def directionConstraint (alias_ : String) (r : QueryRelation) (oneDirection : Bool) :
    AndOrExpression :=
  match r.Direction with
  | .Right => Translate.out alias_ r
  | .Left => Translate.in alias_ r
  | .Either =>
    if oneDirection then Translate.out alias_ r
    else AndOrExpression.mk false [Translate.out alias_ r, Translate.in alias_ r] ""

/-- The FROM entries of the nodes, numbered from `i`. -/
def nodeTables : Nat → List QueryNode → List String
  | _, [] => []
  | i, _ :: rest => ("assets a" ++ toString i) :: nodeTables (i + 1) rest

/-- The label constraints of the nodes, numbered from `i`. -/
def nodeConstraints : Nat → List QueryNode → List AndOrExpression
  | _, [] => []
  | i, n :: rest => labelConstraint ("a" ++ toString i) n.Labels ++ nodeConstraints (i + 1) rest

/-- The FROM entries of the relations, numbered from `i`. -/
def relationTables : Nat → List QueryRelation → List String
  | _, [] => []
  | i, _ :: rest => ("relations r" ++ toString i) :: relationTables (i + 1) rest

/-- The constraints of the relations, numbered from `i`: for each relation its label constraint
and then its direction constraint, `oneDirection` holding, relation by relation, whether the
single-direction optimization is taken. -/
def relationConstraints : Nat → List QueryRelation → List Bool → List AndOrExpression
  | _, [], _ => []
  | i, r :: rest, oneDirection =>
    labelConstraint ("r" ++ toString i) r.Labels
      ++ [directionConstraint ("r" ++ toString i) r (oneDirection.headD false)]
      ++ relationConstraints (i + 1) rest oneDirection.tail

/-- The boolean tree `Translate` hands to the builder: the And node over the label constraints
of the nodes, then the constraints of the relations, then, when there is a WHERE clause, the And
node over the WHERE leaves. -/
def whereTree (graph : QueryGraph) (oneDirection : List Bool)
    (filterChildren : List AndOrExpression) : AndOrExpression :=
  AndOrExpression.mk true
    (nodeConstraints 0 graph.Nodes ++ relationConstraints 0 graph.Relations oneDirection
      ++ (if filterChildren.length > 0 then [AndOrExpression.mk true filterChildren ""] else []))
    ""

/-- The `groupBy` argument `Translate` hands to the builder, from the aggregation flags of the
projection items. -/
def groupByIndices (results : List (ProjectionVisitorResult × String)) : List Int :=
  if results.any (fun r => r.1.Aggregation) then
    unaggregatedIndices 0 (results.map (fun r => r.1.Aggregation))
  else []

/-- The GROUP BY columns of a translation: none when no projection item contains an aggregation,
otherwise the rendered strings of the items without aggregation, in item order. -/
def groupByColumns (results : List (ProjectionVisitorResult × String)) : List String :=
  if results.any (fun r => r.1.Aggregation) then
    (results.filter (fun r => !r.1.Aggregation)).map (fun r => r.2)
  else []

/-- The tree `x` is `y` or is nested in `y` through And nodes over two children: `x` is one of
the conjunctions `y` was combined from. -/
inductive NestedIn (x : AndOrExpression) : AndOrExpression → Prop where
  | self : NestedIn x x
  | left (p q : AndOrExpression) (h : NestedIn x p) :
      NestedIn x (AndOrExpression.mk true [p, q] "")
  | right (p q : AndOrExpression) (h : NestedIn x q) :
      NestedIn x (AndOrExpression.mk true [p, q] "")

/-- The query `MATCH (a)-[r]-(b) WHERE r.type = 'owns' RETURN a, b`: one undirected relation
between two nodes without labels, and a WHERE clause that refers to the relation only. -/
def scenarioRelationWhere :
    QueryCypher QueryNodePattern QueryRelationshipPattern QueryExpression :=
  singleMatch ⟨"a", []⟩ [(⟨"r", [], .Either⟩, ⟨"b", []⟩)]
    (some (.Equal (.Property "r" "type") (.StringLiteral "owns"))) false
    [(.Variable "a", "a"), (.Variable "b", "b")] none none

/-- The query graph of `scenarioRelationWhere`. -/
def graphRelationWhere : QueryGraph :=
  { Nodes := [⟨[]⟩, ⟨[]⟩]
    Relations := [⟨[], 0, 1, .Either⟩]
    VariablesIndex :=
      [("a", ⟨.NodeType, 0⟩), ("b", ⟨.NodeType, 1⟩), ("r", ⟨.RelationType, 0⟩)] }

/-- The translation of `scenarioRelationWhere`. -/
def translationRelationWhere : SQLTranslation :=
  { Query :=
      "(SELECT a0.id, a0.value, a0.type, a1.id, a1.value, a1.type"
        ++ " FROM assets a0, assets a1, relations r0"
        ++ "\nWHERE ((r0.from_id = a0.id AND r0.to_id = a1.id) AND r0.type = 'owns'))"
        ++ "\nUNION ALL\n"
        ++ "(SELECT a0.id, a0.value, a0.type, a1.id, a1.value, a1.type"
        ++ " FROM assets a0, assets a1, relations r0"
        ++ "\nWHERE ((r0.from_id = a1.id AND r0.to_id = a0.id) AND r0.type = 'owns'))"
    ProjectionTypes := [⟨"a", .NodeExprType⟩, ⟨"b", .NodeExprType⟩] }

/-- The query `MATCH (n:Person) RETURN n SKIP 10 LIMIT 0`. -/
def scenarioSkipLimitZero :
    QueryCypher QueryNodePattern QueryRelationshipPattern QueryExpression :=
  singleMatch ⟨"n", ["Person"]⟩ [] none false [(.Variable "n", "n")]
    (some (.IntegerLiteral 0)) (some (.IntegerLiteral 10))

/-- Scenario S7 of the specification: `MATCH (n:Person) RETURN n SKIP 10`. -/
def scenarioS7 : QueryCypher QueryNodePattern QueryRelationshipPattern QueryExpression :=
  singleMatch ⟨"n", ["Person"]⟩ [] none false [(.Variable "n", "n")] none
    (some (.IntegerLiteral 10))

/-! ### The expansion of the specification, on leaf sequences -/

mutual
/-- The expansion `toDNF` as the specification words it, each conjunction read as its sequence
of leaf expressions: a leaf `L` gives `[[L]]`; an Or node the concatenation of the expansions of
its children; an And node the fold over its children from the empty accumulator. -/
def toDNF : AndOrExpression → List (List String)
  | ⟨and, children, expression⟩ =>
    if expression ≠ "" then
      [[expression]]
    else if and then
      toDNF.andFold children []
    else
      toDNF.orConcat children
/-- The concatenation of the expansions of the children, in child order. -/
def toDNF.orConcat : List AndOrExpression → List (List String)
  | [] => []
  | child :: rest => toDNF child ++ toDNF.orConcat rest
/-- The fold of the And node: the expansion of the child when the accumulator is empty, and
otherwise the pairwise combinations in row-major order, the element of the accumulator first,
with the leaf sequences concatenated. -/
def toDNF.andFold : List AndOrExpression → List (List String) → List (List String)
  | [], accumulator => accumulator
  | child :: rest, accumulator =>
    toDNF.andFold rest
      (if accumulator.isEmpty then toDNF child
       else accumulator.flatMap (fun a => (toDNF child).map (fun d => a ++ d)))
end

/-- Scenario S2 of the specification: `MATCH (a:A)-[:R]->(b:B)-[:S]->(c:C) RETURN a, c`. -/
def scenarioS2 : QueryCypher QueryNodePattern QueryRelationshipPattern QueryExpression :=
  singleMatch ⟨"a", ["A"]⟩
    [(⟨"", ["R"], .Right⟩, ⟨"b", ["B"]⟩), (⟨"", ["S"], .Right⟩, ⟨"c", ["C"]⟩)] none false
    [(.Variable "a", "a"), (.Variable "c", "c")] none none

/-- The translation of scenario S2. -/
def translationS2 : SQLTranslation :=
  { Query :=
      "SELECT a0.id, a0.value, a0.type, a2.id, a2.value, a2.type"
        ++ " FROM assets a0, assets a1, assets a2, relations r0, relations r1"
        ++ "\nWHERE ((((((a0.type = 'A' AND a1.type = 'B') AND a2.type = 'C')"
        ++ " AND r0.type = 'R') AND (r0.from_id = a0.id AND r0.to_id = a1.id))"
        ++ " AND r1.type = 'S') AND (r1.from_id = a1.id AND r1.to_id = a2.id))"
    ProjectionTypes := [⟨"a", .NodeExprType⟩, ⟨"c", .NodeExprType⟩] }

/-- Scenario S5 of the specification:
`MATCH (n:Person) WHERE n.value = 'A' OR n.value = 'B' RETURN n`. -/
def scenarioS5 : QueryCypher QueryNodePattern QueryRelationshipPattern QueryExpression :=
  singleMatch ⟨"n", ["Person"]⟩ []
    (some (.Or (.Equal (.Property "n" "value") (.StringLiteral "A"))
      (.Equal (.Property "n" "value") (.StringLiteral "B"))))
    false [(.Variable "n", "n")] none none

/-- The translation of scenario S5. -/
def translationS5 : SQLTranslation :=
  { Query :=
      "SELECT a0.id, a0.value, a0.type FROM assets a0"
        ++ "\nWHERE (a0.type = 'Person' AND a0.value = 'A' OR a0.value = 'B')"
    ProjectionTypes := [⟨"n", .NodeExprType⟩] }

/-- The WHERE expression of scenario S5: `n.value = 'A' OR n.value = 'B'`. -/
def whereS5 : QueryExpression :=
  .Or (.Equal (.Property "n" "value") (.StringLiteral "A"))
    (.Equal (.Property "n" "value") (.StringLiteral "B"))

/-- The MATCH clause of scenario S5: `MATCH (n:Person) WHERE n.value = 'A' OR n.value = 'B'`. -/
def matchS5 : QueryMatch QueryNodePattern QueryRelationshipPattern QueryExpression :=
  { PatternElements :=
      [{ QueryNodePattern := ⟨"n", ["Person"]⟩, QueryPatternElementChains := [] }]
    Where := some whereS5 }

/-- A Go `interface{}` value as `MariaDBCursor.Read` meets it: what `Rows.Scan` stores for a
column, and what the queue and the output hold. `bytes b` is a non-nil `[]byte` with the
UTF-8 bytes of `b`, `nilBytes` is the nil `[]byte`, `nil` is the nil interface. -/
inductive GoValue where
  | bytes (b : String)
  | nilBytes
  | string (s : String)
  | int64 (n : Int)
  | bool (b : Bool)
  | nil
  deriving DecidableEq, Repr

/-- Go `fmt.Sprintf("%v", reflect.ValueOf(item))`. -/
def fmtValue : GoValue → String
  | .string s => s
  | .nilBytes => "[]"
  | .bytes b => "[" ++ strings.Join (b.toUTF8.toList.map (fun x => toString x.toNat)) " " ++ "]"
  | .int64 n => fmtInt n
  | .bool b => if b then "true" else "false"
  | .nil => "<invalid reflect.Value>"

/-- Modelled from the spec: Go `type Asset struct`, declared outside the source files at hand,
with the two fields the literal in `Read` fills (`Type_` is Go `Type`). -/
structure Asset where
  Type_ : String
  Key : String
  deriving DecidableEq, Repr

/-- Modelled from the spec: Go `type AssetWithID struct`, declared outside the source files at
hand, as the literal in `Read` fills it. -/
structure AssetWithID where
  ID : String
  Asset : Asset
  deriving DecidableEq, Repr

/-- Modelled from the spec: Go `type RelationWithID struct`, declared outside the source files
at hand, with the four fields the literal in `Read` fills (`Type_` is Go `Type`). -/
structure RelationWithID where
  ID : String
  From : String
  To : String
  Type_ : String
  deriving DecidableEq, Repr

/-- One entry of the `output` slice of `Read`. -/
inductive Output where
  | asset (a : AssetWithID)
  | relation (r : RelationWithID)
  | item (v : GoValue)
  deriving DecidableEq, Repr

/-- The embedded `*sql.Rows` at its current row: `Columns` is the result of `Columns()`,
`Scan` maps the destination slots to what they hold after `Scan(valuesPtr...)`. -/
structure Rows where
  Columns : Except Failure (List String)
  Scan : List GoValue → Except Failure (List GoValue)

/-- Go `type MariaDBCursor struct`. -/
structure MariaDBCursor where
  Rows : Rows
  Projections : List Projection

/-- `Queue.Put` of go-datastructures with one item: the item goes to the back. It fails only
on a disposed queue, and `Read` never disposes of its queue. -/
def Queue.Put (q : List GoValue) (item : GoValue) : Except Failure (List GoValue) :=
  .ok (q ++ [item])

/-- `Queue.Get` of go-datastructures: up to `number` items from the front, with the rest of
the queue; `none` when the queue is empty, where `Get` waits for a `Put` that never comes. -/
def Queue.Get (q : List GoValue) (number : Nat) : Option (List GoValue × List GoValue) :=
  if number < 1 then some ([], q)
  else if q.isEmpty then none
  else some (q.take number, q.drop number)

/-- The result of a call of `Read`: a returned error or a panic, a call that never returns,
or a nil error with the `output` slice stored through `doc`. -/
inductive ReadResult where
  | error (err : Failure)
  | blocked
  | ok (output : List Output)
  deriving DecidableEq, Repr

/-- Go `items[i]` on the slice returned by `Get`. -/
def Read.item (items : List GoValue) (i : Nat) : Except Failure GoValue :=
  match items[i]? with
  | some v => .ok v
  | none => .error (.panic "index out of range")

/-- The loop `for _, v := range values` of `Read`, which fills the queue. -/
def Read.fill : List GoValue → List GoValue → Except Failure (List GoValue)
  | [], q => .ok q
  | v :: values, q =>
    let put :=
      match v with
      | .bytes b => Queue.Put q (.string b)
      | .nilBytes => Queue.Put q (.string "")
      | _ => Queue.Put q .nilBytes
    match put with
    | .error err => .error err
    | .ok q => Read.fill values q

/-- The loop `for i, pt := range mc.Projections` of `Read`; `output` holds the entries
`output[0..i)` assigned so far. -/
def Read.projections : List Projection → List GoValue → List Output → ReadResult
  | [], _, output => .ok output
  | pt :: rest, q, output =>
    match pt.ExpressionType with
    | .NodeExprType =>
      match Queue.Get q 3 with
      | none => .blocked
      | some (items, q) =>
        match Read.item items 0, Read.item items 2, Read.item items 1 with
        | .ok i0, .ok i2, .ok i1 =>
          Read.projections rest q
            (output ++ [.asset { ID := fmtValue i0, Asset := { Type_ := fmtValue i2, Key := fmtValue i1 } }])
        | .error err, _, _ => .error err
        | _, .error err, _ => .error err
        | _, _, .error err => .error err
    | .EdgeExprType =>
      match Queue.Get q 5 with
      | none => .blocked
      | some (items, q) =>
        match Read.item items 0, Read.item items 1, Read.item items 2, Read.item items 3 with
        | .ok i0, .ok i1, .ok i2, .ok i3 =>
          Read.projections rest q
            (output ++ [.relation { ID := fmtValue i0, From := fmtValue i1, To := fmtValue i2,
                                    Type_ := fmtValue i3 }])
        | .error err, _, _, _ => .error err
        | _, .error err, _, _ => .error err
        | _, _, .error err, _ => .error err
        | _, _, _, .error err => .error err
    | .PropertyExprType =>
      match Queue.Get q 1 with
      | none => .blocked
      | some (items, q) =>
        match Read.item items 0 with
        | .ok i0 => Read.projections rest q (output ++ [.item i0])
        | .error err => .error err

/-- The argument `doc` of `Read` as the code sees it through `reflect`: a value that is not a
pointer (the nil interface included), a nil pointer, or a non-nil pointer, for which
`assignable` says whether a `[]interface{}` value can be assigned to what it points to (as it
can for `*interface{}` and `*[]interface{}`). -/
inductive Doc where
  | notPointer
  | nilPointer
  | pointer (assignable : Bool)
  deriving DecidableEq, Repr

/-- Go `(*MariaDBCursor).Read`. The final `val.Elem().Set(reflect.ValueOf(output))` stores the
output through `doc`, and panics when the output cannot be assigned to what `doc` points to. -/
def MariaDBCursor.Read (mc : MariaDBCursor) (doc : Doc) : ReadResult :=
  match mc.Rows.Columns with
  | .error err => .error err
  | .ok fArr =>
    let values := List.replicate fArr.length GoValue.nil
    match mc.Rows.Scan values with
    | .error err => .error err
    | .ok values =>
      match doc with
      | .notPointer => .error (.error "Output parameter should be a pointer")
      | .nilPointer => .error (.error "Output parameter should be a pointer")
      | .pointer assignable =>
        match Read.fill values [] with
        | .error err => .error err
        | .ok q =>
          match Read.projections mc.Projections q [] with
          | .ok output =>
            if assignable then .ok output
            else
              .error (.panic "reflect.Set: value of type []interface {} is not assignable")
          | .error err => .error err
          | .blocked => .blocked

/-- The number of columns `Read` takes from the queue for a projection of the kind. -/
def Read.width : ExpressionType → Nat
  | .NodeExprType => 3
  | .EdgeExprType => 5
  | .PropertyExprType => 1

/-- The sum of the widths of the projections. -/
def Read.totalWidth (projections : List Projection) : Nat :=
  (projections.map (fun pt => Read.width pt.ExpressionType)).sum

/-- The row-to-object contract of the specification on a row of strings: each projection
takes its columns from the left, a node `id, value, type`, an edge
`id, from_id, to_id, type, source`, a property its one column. -/
def rowObjects : List Projection → List String → List Output
  | [], _ => []
  | pt :: rest, cols =>
    match pt.ExpressionType with
    | .NodeExprType =>
      .asset { ID := cols.getD 0 "", Asset := { Type_ := cols.getD 2 "", Key := cols.getD 1 "" } }
        :: rowObjects rest (cols.drop 3)
    | .EdgeExprType =>
      .relation { ID := cols.getD 0 "", From := cols.getD 1 "", To := cols.getD 2 "",
                  Type_ := cols.getD 3 "" }
        :: rowObjects rest (cols.drop 5)
    | .PropertyExprType => .item (.string (cols.getD 0 "")) :: rowObjects rest (cols.drop 1)

/-- A row with the given column names and values, which `Scan` stores as they are. -/
def rowOf (columns : List (String × GoValue)) : Rows :=
  { Columns := .ok (columns.map Prod.fst), Scan := fun _ => .ok (columns.map Prod.snd) }

/-- The cursor of `MATCH (n) RETURN count(n)` on a row whose one column holds the integer 3. -/
def cursorCount : MariaDBCursor :=
  { Rows := rowOf [("count(n)", .int64 3)],
    Projections := [Projection.mk "count(n)" .PropertyExprType] }

/-- The cursor of `MATCH (n) RETURN n` on a row whose `id` column holds the integer 7. -/
def cursorNode : MariaDBCursor :=
  { Rows := rowOf [("id", .int64 7), ("value", .bytes "alice"), ("type", .bytes "Person")],
    Projections := [Projection.mk "n" .NodeExprType] }

/-- The query graph of scenario S6 after its MATCH clause: the node `n:Person`. -/
def graphS6 : QueryGraph :=
  { Nodes := [{ Labels := ["Person"] }]
    Relations := []
    VariablesIndex := [("n", { VarType := .NodeType, Index := 0 })] }

/-- The variables of the projection loop of `Translate` after the two projection items of
scenario S6. -/
def projectionStateS6 : ProjectionState :=
  { projections := ["a0.type", "COUNT(a0.id, a0.value, a0.type)"]
    projectionTypes := [⟨"", .PropertyExprType⟩, ⟨"", .PropertyExprType⟩]
    unaggregatedProjectionItems := [0]
    aggregationRequired := true }

mutual
/-- No node of the tree that is read is an Or node: every node has an expression (it is a leaf,
and its children are not read) or is an And node over such trees. -/
def noOrNode : AndOrExpression → Bool
  | ⟨and, children, expression⟩ => expression != "" || (and && noOrNode.all children)
/-- All trees of the list satisfy `noOrNode`. -/
def noOrNode.all : List AndOrExpression → Bool
  | [] => true
  | child :: rest => noOrNode child && noOrNode.all rest
end

/-- A text made of the leaf expressions `leafs`, the separator ` AND ` and parentheses only: a
leaf expression, or two or more such texts joined by ` AND ` inside parentheses. -/
inductive AndText (leafs : List String) : String → Prop where
  | leaf (e : String) (h : e ∈ leafs) : AndText leafs e
  | conj (parts : List String) (hlen : 2 ≤ parts.length) (h : ∀ p ∈ parts, AndText leafs p) :
      AndText leafs ("(" ++ " AND ".intercalate parts ++ ")")

/-- Whether the node at the index `idx` of the graph carries a label. -/
def carriesLabel (graph : QueryGraph) (idx : Int) : Bool :=
  match graph.FindNode idx with
  | .ok n => !n.Labels.isEmpty
  | .error _ => false

/-- The preconditions of the single-direction optimization as the specification words them,
for the relation `r` of the graph: there is exactly one relation in the query graph, its
direction is `Either`, no WHERE variable refers to either endpoint, and neither endpoint
carries a label. `whereVariables` holds the `(kind, index)` the variables of the WHERE clauses
are bound to; a variable refers to an endpoint when it is a node variable with the index of
the endpoint. -/
def specSingleDirection (graph : QueryGraph) (whereVariables : List TypeAndIndex)
    (r : QueryRelation) : Bool :=
  graph.Relations.length == 1
    && r.Direction == .Either
    && !whereVariables.any
        (fun v => v.VarType == .NodeType && (v.Index == r.LeftIdx || v.Index == r.RightIdx))
    && !carriesLabel graph r.LeftIdx
    && !carriesLabel graph r.RightIdx

/-- The number `P` of SELECT branches as the specification words it: the product over the
nodes and the relations of `max(1, number of labels)`, times two for every `Either` relation
that does not meet the preconditions of the single-direction optimization. -/
def specSelectBranches (graph : QueryGraph) (whereVariables : List TypeAndIndex) : Nat :=
  (graph.Nodes.map (fun n => max 1 n.Labels.length)).prod
    * (graph.Relations.map (fun r => max 1 r.Labels.length)).prod
    * 2 ^ (graph.Relations.filter
        (fun r => r.Direction == .Either && !specSingleDirection graph whereVariables r)).length

/-- The query `MATCH (a:Person:Employee)-[r]-(b) WHERE a.value = 'x' RETURN a`: a node with two
labels, an undirected relation to a node without label, and a WHERE clause on the first node. -/
def scenarioBranches : QueryCypher QueryNodePattern QueryRelationshipPattern QueryExpression :=
  singleMatch ⟨"a", ["Person", "Employee"]⟩ [(⟨"r", [], .Either⟩, ⟨"b", []⟩)]
    (some (.Equal (.Property "a" "value") (.StringLiteral "x"))) false
    [(.Variable "a", "a")] none none

/-- The query graph of `scenarioBranches`. -/
def graphBranches : QueryGraph :=
  { Nodes := [⟨["Person", "Employee"]⟩, ⟨[]⟩]
    Relations := [⟨[], 0, 1, .Either⟩]
    VariablesIndex :=
      [("a", ⟨.NodeType, 0⟩), ("b", ⟨.NodeType, 1⟩), ("r", ⟨.RelationType, 0⟩)] }

/-- The translation of `scenarioBranches`: four SELECT branches, two labels times two
directions. -/
def translationBranches : SQLTranslation :=
  { Query :=
      "(SELECT a0.id, a0.value, a0.type FROM assets a0, assets a1, relations r0"
        ++ "\nWHERE ((a0.type = 'Person' AND (r0.from_id = a0.id AND r0.to_id = a1.id))"
        ++ " AND a0.value = 'x'))"
        ++ "\nUNION ALL\n"
        ++ "(SELECT a0.id, a0.value, a0.type FROM assets a0, assets a1, relations r0"
        ++ "\nWHERE ((a0.type = 'Person' AND (r0.from_id = a1.id AND r0.to_id = a0.id))"
        ++ " AND a0.value = 'x'))"
        ++ "\nUNION ALL\n"
        ++ "(SELECT a0.id, a0.value, a0.type FROM assets a0, assets a1, relations r0"
        ++ "\nWHERE ((a0.type = 'Employee' AND (r0.from_id = a0.id AND r0.to_id = a1.id))"
        ++ " AND a0.value = 'x'))"
        ++ "\nUNION ALL\n"
        ++ "(SELECT a0.id, a0.value, a0.type FROM assets a0, assets a1, relations r0"
        ++ "\nWHERE ((a0.type = 'Employee' AND (r0.from_id = a1.id AND r0.to_id = a0.id))"
        ++ " AND a0.value = 'x'))"
    ProjectionTypes := [⟨"a", .NodeExprType⟩] }

/-! ## Theorems -/

/-! ### Helper lemmas: induction on trees, `strings.Join`, the reference renderer -/

theorem AndOrExpression.induction {P : AndOrExpression → Prop}
    (step : ∀ and children expression, (∀ c ∈ children, P c) → P ⟨and, children, expression⟩) :
    ∀ t, P t := by
  intro t
  refine AndOrExpression.rec (motive_1 := P) (motive_2 := fun cs => ∀ c ∈ cs, P c)
    (fun a cs e ih => step a cs e ih) ?_ ?_ t
  · intro c hc; cases hc
  · intro hd tl h1 h2 c hc
    rcases List.mem_cons.1 hc with rfl | h
    · exact h1
    · exact h2 c h

theorem intercalate_go (sep : String) (acc : String) (l : List String) :
    String.intercalate.go acc sep l = l.foldl (fun b s => b ++ sep ++ s) acc := by
  induction l generalizing acc with
  | nil => rfl
  | cons a l ih => simp [String.intercalate.go, ih]

theorem Join_eq_intercalate (elems : List String) (sep : String) :
    strings.Join elems sep = sep.intercalate elems := by
  cases elems with
  | nil => rfl
  | cons a l => simp [strings.Join, String.intercalate, intercalate_go]

theorem BuildAndOrExpression_children_eq (cs : List AndOrExpression)
    (ih : ∀ c ∈ cs, BuildAndOrExpression c = .ok (render c)) (acc : List String) :
    BuildAndOrExpression.children cs acc = .ok (acc ++ render.children cs) := by
  induction cs generalizing acc with
  | nil => simp [BuildAndOrExpression.children, render.children]
  | cons c rest ihr =>
    have hc := ih c (List.mem_cons_self _ _)
    have hrest := fun acc => ihr (fun d hd => ih d (List.mem_cons_of_mem _ hd)) acc
    rw [BuildAndOrExpression.children, hc]
    by_cases h : render c = ""
    · simp [h, hrest, render.children]
    · simp [h, hrest, render.children]

theorem BuildAndOrExpression_ok (t : AndOrExpression) :
    BuildAndOrExpression t = .ok (render t) := by
  induction t using AndOrExpression.induction with
  | step and children expression ih =>
    rw [BuildAndOrExpression, render]
    by_cases he : expression = ""
    · have hch := BuildAndOrExpression_children_eq children ih []
      simp only [List.nil_append] at hch
      simp only [he, ne_eq, not_true_eq_false, if_false, hch]
      rcases hparts : render.children children with _ | ⟨p, _ | ⟨q, ps⟩⟩
      · cases and <;> simp [strings.Join]
      · cases and <;> simp [strings.Join]
      · cases and <;> simp [Join_eq_intercalate]
    · simp [he]

/-! ### The renderer -/

/-- C3: `BuildAndOrExpression` returns, for every tree and without error, the rendering of the
reference renderer `render`: the node's expression when it is non-empty, otherwise the non-empty
renderings of the children joined by ` AND ` (And node) or ` OR ` (Or node), in parentheses
exactly when two or more are joined, bare for one, and the empty string for none. -/
theorem BuildAndOrExpression_eq_render (t : AndOrExpression) :
    BuildAndOrExpression t = .ok (render t) :=
  BuildAndOrExpression_ok t

/-! ### Helper lemmas: `CrossProductExpressions` and `UnwindOrExpressions` -/

theorem foldl_append_singleton {α β : Type} (g : β → α) (l : List β) (init : List α) :
    l.foldl (fun out y => out ++ [g y]) init = init ++ l.map g := by
  induction l generalizing init with
  | nil => simp
  | cons y l ih => simp [ih]

theorem foldl_append_flatMap {α β : Type} (f : β → List α) (l : List β) (init : List α) :
    l.foldl (fun out x => out ++ f x) init = init ++ l.flatMap f := by
  induction l generalizing init with
  | nil => simp
  | cons x l ih => simp [ih, List.flatMap_cons]

theorem CrossProductExpressions_eq (and1 and2 : List AndOrExpression) :
    CrossProductExpressions and1 and2 =
      and1.flatMap (fun a => and2.map (fun b => AndOrExpression.mk true [a, b] "")) := by
  unfold CrossProductExpressions
  have h : (fun (outExpr : List AndOrExpression) (a : AndOrExpression) =>
      and2.foldl (fun outExpr b => outExpr ++ [AndOrExpression.mk true [a, b] ""]) outExpr)
      = fun outExpr a => outExpr ++ and2.map (fun b => AndOrExpression.mk true [a, b] "") := by
    funext outExpr a
    exact foldl_append_singleton _ _ _
  rw [h, foldl_append_flatMap]
  simp

theorem UnwindOrExpressions_orChildren_eq (cs : List AndOrExpression)
    (ih : ∀ c ∈ cs, UnwindOrExpressions c = .ok (unwind c)) (exprs : List AndOrExpression) :
    UnwindOrExpressions.orChildren cs exprs = .ok (exprs ++ unwind.orConcat cs) := by
  induction cs generalizing exprs with
  | nil => simp [UnwindOrExpressions.orChildren, unwind.orConcat]
  | cons c rest ihr =>
    have hc := ih c (List.mem_cons_self _ _)
    rw [UnwindOrExpressions.orChildren, hc]
    simp [ihr (fun d hd => ih d (List.mem_cons_of_mem _ hd)), unwind.orConcat]

theorem UnwindOrExpressions_andChildren_eq (cs : List AndOrExpression)
    (ih : ∀ c ∈ cs, UnwindOrExpressions c = .ok (unwind c)) (exprs : List AndOrExpression) :
    UnwindOrExpressions.andChildren cs exprs = .ok (unwind.andFold cs exprs) := by
  induction cs generalizing exprs with
  | nil => simp [UnwindOrExpressions.andChildren, unwind.andFold]
  | cons c rest ihr =>
    have hc := ih c (List.mem_cons_self _ _)
    have hrest := fun exprs => ihr (fun d hd => ih d (List.mem_cons_of_mem _ hd)) exprs
    rw [UnwindOrExpressions.andChildren, hc, unwind.andFold]
    cases exprs with
    | nil => simp [hrest]
    | cons e es => simp [hrest, CrossProductExpressions_eq]

theorem UnwindOrExpressions_ok (t : AndOrExpression) :
    UnwindOrExpressions t = .ok (unwind t) := by
  induction t using AndOrExpression.induction with
  | step and children expression ih =>
    rw [UnwindOrExpressions, unwind]
    by_cases he : expression = ""
    · cases and
      · simp [he, UnwindOrExpressions_orChildren_eq children ih]
      · simp [he, UnwindOrExpressions_andChildren_eq children ih]
    · simp [he]

theorem unwind_orConcat_eq (cs : List AndOrExpression) :
    unwind.orConcat cs = cs.flatMap unwind := by
  induction cs with
  | nil => simp [unwind.orConcat]
  | cons c rest ih => simp [unwind.orConcat, ih, List.flatMap_cons]

/-- The pairwise combination of two lists of conjunctions, first list outermost. -/
theorem mem_pairs {a b : List AndOrExpression} {x : AndOrExpression} :
    x ∈ a.flatMap (fun p => b.map (fun q => AndOrExpression.mk true [p, q] "")) ↔
      ∃ p ∈ a, ∃ q ∈ b, x = AndOrExpression.mk true [p, q] "" := by
  simp only [List.mem_flatMap, List.mem_map]
  constructor
  · rintro ⟨p, hp, q, hq, rfl⟩; exact ⟨p, hp, q, hq, rfl⟩
  · rintro ⟨p, hp, q, hq, rfl⟩; exact ⟨p, hp, q, hq, rfl⟩

theorem unwind_andFold_isConjunction (cs : List AndOrExpression)
    (ih : ∀ c ∈ cs, ∀ x ∈ unwind c, IsConjunction x) (exprs : List AndOrExpression)
    (hacc : ∀ x ∈ exprs, IsConjunction x) :
    ∀ x ∈ unwind.andFold cs exprs, IsConjunction x := by
  induction cs generalizing exprs with
  | nil => simpa [unwind.andFold] using hacc
  | cons c rest ihr =>
    rw [unwind.andFold]
    apply ihr (fun d hd => ih d (List.mem_cons_of_mem _ hd))
    have hc := ih c (List.mem_cons_self _ _)
    intro x hx
    split at hx
    · exact hc x hx
    · obtain ⟨p, hp, q, hq, rfl⟩ := mem_pairs.1 hx
      exact IsConjunction.pair p q (hacc p hp) (hc q hq)

theorem unwind_isConjunction (t : AndOrExpression) : ∀ x ∈ unwind t, IsConjunction x := by
  induction t using AndOrExpression.induction with
  | step and children expression ih =>
    rw [unwind]
    by_cases he : expression = ""
    · cases and
      · simp only [he, ne_eq, not_true_eq_false, if_false, unwind_orConcat_eq]
        intro x hx
        obtain ⟨c, hc, hxc⟩ := List.mem_flatMap.1 hx
        exact ih c hc x hxc
      · simp only [he, ne_eq, not_true_eq_false, if_false, if_true]
        exact unwind_andFold_isConjunction children ih [] (by simp)
    · simp only [ne_eq, he, not_false_eq_true, if_true, List.mem_singleton]
      rintro x rfl
      exact IsConjunction.leaf and children expression he

theorem leaves_pair (a b : AndOrExpression) :
    leaves (AndOrExpression.mk true [a, b] "") = leaves a ++ leaves b := by
  simp [leaves, leaves.children]

/-! ### The shape of the conjunctions -/

/-- C2 (as stated, refuted): for the tree `And(A, B)` the expansion is the single conjunction
`And(And(A), And(B))`: its children are And nodes, not leaves, and `CrossProductExpressions`
nests the two conjunctions `And(A)` and `And(B)` instead of emitting `And(A, B)`, the node over
the concatenation of their children. -/
theorem unwind_children_not_leaves :
    UnwindOrExpressions
        (AndOrExpression.mk true
          [AndOrExpression.mk false [] "A", AndOrExpression.mk false [] "B"] "") =
      .ok [AndOrExpression.mk true
            [AndOrExpression.mk true [AndOrExpression.mk false [] "A"] "",
             AndOrExpression.mk true [AndOrExpression.mk false [] "B"] ""] ""] ∧
    ¬ (∀ child ∈ (AndOrExpression.mk true
            [AndOrExpression.mk true [AndOrExpression.mk false [] "A"] "",
             AndOrExpression.mk true [AndOrExpression.mk false [] "B"] ""] "").Children,
        child.Expression ≠ "") ∧
    (CrossProductExpressions [AndOrExpression.mk true [AndOrExpression.mk false [] "A"] ""]
        [AndOrExpression.mk true [AndOrExpression.mk false [] "B"] ""]).map
        (fun c => c.Children.map (fun child => child.Expression)) = [["", ""]] ∧
    [AndOrExpression.mk true
        ((AndOrExpression.mk true [AndOrExpression.mk false [] "A"] "").Children ++
          (AndOrExpression.mk true [AndOrExpression.mk false [] "B"] "").Children) ""].map
        (fun c => c.Children.map (fun child => child.Expression)) = [["A", "B"]] := by
  refine ⟨rfl, ?_, rfl, rfl⟩
  intro h
  exact h _ (List.mem_cons_self _ _) rfl

/-- C2 (amended): for every tree `UnwindOrExpressions` returns a list of conjunctions each of
which is an And node with an empty expression over either one leaf or two conjunctions of the
same shape (so it holds leaves and And nodes only); `CrossProductExpressions` emits, for every
`C_k` of its first list and every `D_j` of its second, in row-major order, the node
`And(children: [C_k, D_j])`, whose leaf sequence is that of `C_k` followed by that of `D_j`. -/
theorem unwind_conjunction_shape (t : AndOrExpression) (and1 and2 : List AndOrExpression) :
    (∃ cs, UnwindOrExpressions t = .ok cs ∧ ∀ c ∈ cs, IsConjunction c) ∧
    CrossProductExpressions and1 and2 =
      and1.flatMap (fun a => and2.map (fun b => AndOrExpression.mk true [a, b] "")) ∧
    ∀ a b, leaves (AndOrExpression.mk true [a, b] "") = leaves a ++ leaves b :=
  ⟨⟨unwind t, UnwindOrExpressions_ok t, unwind_isConjunction t⟩,
    CrossProductExpressions_eq and1 and2, leaves_pair⟩

/-! ### Helper lemmas: the formula a tree is rendered to, and its truth value -/

theorem Formula.evalAll_eq (v : String → Bool) (fs : List Formula) :
    Formula.evalAll v fs = fs.all (Formula.eval v) := by
  induction fs with
  | nil => simp [Formula.evalAll]
  | cons f fs ih => simp [Formula.evalAll, ih]

theorem Formula.evalAny_eq (v : String → Bool) (fs : List Formula) :
    Formula.evalAny v fs = fs.any (Formula.eval v) := by
  induction fs with
  | nil => simp [Formula.evalAny]
  | cons f fs ih => simp [Formula.evalAny, ih]

theorem Formula.printAll_eq (fs : List Formula) :
    Formula.printAll fs = fs.map Formula.print := by
  induction fs with
  | nil => simp [Formula.printAll]
  | cons f fs ih => simp [Formula.printAll, ih]

theorem renderedHolds_leaf (v : String → Bool) (and : Bool) (cs : List AndOrExpression)
    (e : String) (he : e ≠ "") : renderedHolds v ⟨and, cs, e⟩ = v e := by
  simp [renderedHolds, formula, he, Formula.holds, Formula.eval]

theorem formula_children_all (v : String → Bool) (cs : List AndOrExpression) :
    (formula.children cs).all (Formula.eval v) = cs.all (renderedHolds v) := by
  induction cs with
  | nil => simp [formula.children]
  | cons c rest ih =>
    rw [formula.children]
    cases hc : formula c with
    | none => simp [renderedHolds, hc, Formula.holds, ih]
    | some f => simp [renderedHolds, hc, Formula.holds, ih]

theorem formula_children_any (v : String → Bool) (cs : List AndOrExpression)
    (h : ∀ c ∈ cs, formula c ≠ none) :
    (formula.children cs).any (Formula.eval v) = cs.any (renderedHolds v) ∧
      ((formula.children cs).isEmpty = cs.isEmpty) := by
  induction cs with
  | nil => simp [formula.children]
  | cons c rest ih =>
    have ih := ih (fun d hd => h d (List.mem_cons_of_mem _ hd))
    rw [formula.children]
    cases hc : formula c with
    | none => exact absurd hc (h c (List.mem_cons_self _ _))
    | some f => simp [renderedHolds, hc, Formula.holds, ih.1]

theorem renderedHolds_and (v : String → Bool) (cs : List AndOrExpression) :
    renderedHolds v ⟨true, cs, ""⟩ = cs.all (renderedHolds v) := by
  rw [← formula_children_all]
  simp only [renderedHolds, formula, ne_eq, not_true_eq_false, if_false, if_true]
  rcases formula.children cs with _ | ⟨p, _ | ⟨q, ps⟩⟩ <;>
    simp [Formula.holds, Formula.eval, Formula.evalAll_eq]

theorem renderedHolds_or (v : String → Bool) (cs : List AndOrExpression)
    (h : ∀ c ∈ cs, formula c ≠ none) (hne : cs ≠ []) :
    renderedHolds v ⟨false, cs, ""⟩ = cs.any (renderedHolds v) := by
  obtain ⟨hany, hemp⟩ := formula_children_any v cs h
  rw [← hany]
  simp only [renderedHolds, formula, ne_eq, not_true_eq_false, if_false]
  rcases hf : formula.children cs with _ | ⟨p, _ | ⟨q, ps⟩⟩
  · rw [hf] at hemp
    cases cs with
    | nil => exact absurd rfl hne
    | cons c rest => simp at hemp
  · simp [Formula.holds]
  · simp [Formula.holds, Formula.eval, Formula.evalAny_eq]

theorem noEmptyNode_all_eq (cs : List AndOrExpression) :
    noEmptyNode.all cs = cs.all noEmptyNode := by
  induction cs with
  | nil => simp [noEmptyNode.all]
  | cons c rest ih => simp [noEmptyNode.all, ih]

theorem noEmptyNode_node (and : Bool) (cs : List AndOrExpression) (e : String) :
    noEmptyNode ⟨and, cs, e⟩ = true ↔
      e ≠ "" ∨ (cs ≠ [] ∧ ∀ c ∈ cs, noEmptyNode c = true) := by
  rw [noEmptyNode, noEmptyNode_all_eq]
  cases cs <;> simp

theorem formula_ne_none (t : AndOrExpression) (h : noEmptyNode t = true) :
    formula t ≠ none := by
  induction t using AndOrExpression.induction with
  | step and children expression ih =>
    rw [formula]
    rcases (noEmptyNode_node and children expression).1 h with he | ⟨hne, hall⟩
    · simp [he]
    · by_cases he : expression = ""
      · simp only [he, ne_eq, not_true_eq_false, if_false]
        have hemp := (formula_children_any (fun _ => true) children
          (fun c hc => ih c hc (hall c hc))).2
        rcases hf : formula.children children with _ | ⟨p, _ | ⟨q, ps⟩⟩
        · rw [hf] at hemp
          cases children with
          | nil => exact absurd rfl hne
          | cons c rest => simp at hemp
        · simp
        · simp
      · simp [he]

theorem paren_ne_empty (s : String) : "(" ++ s ++ ")" ≠ "" := by
  intro h
  have := congrArg String.length h
  simp only [String.length_append] at this
  have h1 : "(".length = 1 := by decide
  have h2 : "".length = 0 := by decide
  omega

theorem render_children_ne_empty (cs : List AndOrExpression) :
    ∀ s ∈ render.children cs, s ≠ "" := by
  induction cs with
  | nil => simp [render.children]
  | cons c rest ih =>
    rw [render.children]
    by_cases h : render c = ""
    · simpa [h] using ih
    · simp only [ne_eq, h, not_false_eq_true, if_true, List.mem_cons]
      rintro s (rfl | hs)
      · exact h
      · exact ih s hs

theorem render_children_eq_print (cs : List AndOrExpression)
    (ih : ∀ c ∈ cs, render c = Formula.printOpt (formula c) ∧ (formula c = none ↔ render c = "")) :
    render.children cs = (formula.children cs).map Formula.print := by
  induction cs with
  | nil => simp [render.children, formula.children]
  | cons c rest ihr =>
    have ihr := ihr (fun d hd => ih d (List.mem_cons_of_mem _ hd))
    obtain ⟨h1, h2⟩ := ih c (List.mem_cons_self _ _)
    rw [render.children, formula.children]
    cases hc : formula c with
    | none => simp [h2.1 hc, ihr]
    | some f =>
      have hne : render c ≠ "" := fun h => by simp [h2.2 h] at hc
      rw [hc] at h1
      simp only [ne_eq, hne, not_false_eq_true, if_true, List.map_cons, ihr]
      simp [h1, Formula.printOpt]

theorem render_eq_print (t : AndOrExpression) :
    render t = Formula.printOpt (formula t) ∧ (formula t = none ↔ render t = "") := by
  induction t using AndOrExpression.induction with
  | step and children expression ih =>
    rw [render, formula]
    by_cases he : expression = ""
    · have hch := render_children_eq_print children ih
      have hne := render_children_ne_empty children
      simp only [he, ne_eq, not_true_eq_false, if_false]
      rw [hch] at hne ⊢
      generalize formula.children children = fs at hne ⊢
      rcases fs with _ | ⟨p, _ | ⟨q, ps⟩⟩
      · simp [Formula.printOpt]
      · have := hne p.print (by simp)
        simp [Formula.printOpt, this]
      · cases and <;>
          simp [Formula.printOpt, Formula.print, Formula.printAll_eq, paren_ne_empty]
    · simp [he, Formula.printOpt, Formula.print]

/-! ### Helper lemmas: the truth value of the expansion -/

theorem pair_any (v : String → Bool) (p : AndOrExpression) (b : List AndOrExpression) :
    (b.map (fun q => AndOrExpression.mk true [p, q] "")).any (renderedHolds v) =
      (renderedHolds v p && b.any (renderedHolds v)) := by
  induction b with
  | nil => simp
  | cons q b ihb =>
    rw [List.map_cons, List.any_cons, ihb, renderedHolds_and, List.any_cons]
    simp only [List.all_cons, List.all_nil, Bool.and_true]
    cases renderedHolds v p <;> simp

theorem all_congr_mem {α : Type} (l : List α) (f g : α → Bool) (h : ∀ x ∈ l, f x = g x) :
    l.all f = l.all g := by
  induction l with
  | nil => rfl
  | cons x l ih =>
    rw [List.all_cons, List.all_cons, h x (List.mem_cons_self _ _),
      ih (fun y hy => h y (List.mem_cons_of_mem _ hy))]

theorem pairs_any (v : String → Bool) (a b : List AndOrExpression) :
    (a.flatMap (fun p => b.map (fun q => AndOrExpression.mk true [p, q] ""))).any
        (renderedHolds v) = (a.any (renderedHolds v) && b.any (renderedHolds v)) := by
  induction a with
  | nil => simp
  | cons p a ih =>
    rw [List.flatMap_cons, List.any_append, ih, pair_any, List.any_cons]
    cases renderedHolds v p <;> simp

theorem pairs_ne_nil {a b : List AndOrExpression} (ha : a ≠ []) (hb : b ≠ []) :
    a.flatMap (fun p => b.map (fun q => AndOrExpression.mk true [p, q] "")) ≠ [] := by
  cases a with
  | nil => exact absurd rfl ha
  | cons p a =>
    cases b with
    | nil => exact absurd rfl hb
    | cons q b => simp [List.flatMap_cons]

theorem unwind_andFold_holds (v : String → Bool) (cs : List AndOrExpression)
    (hcs : ∀ c ∈ cs, unwind c ≠ []) (exprs : List AndOrExpression) (hacc : exprs ≠ []) :
    unwind.andFold cs exprs ≠ [] ∧
      (unwind.andFold cs exprs).any (renderedHolds v) =
        (exprs.any (renderedHolds v) && cs.all (fun c => (unwind c).any (renderedHolds v))) := by
  induction cs generalizing exprs with
  | nil => simp [unwind.andFold, hacc]
  | cons c rest ih =>
    have hc := hcs c (List.mem_cons_self _ _)
    have hemp : exprs.isEmpty = false := by cases exprs <;> simp_all
    rw [unwind.andFold, hemp]
    simp only [Bool.false_eq_true, if_false]
    obtain ⟨h1, h2⟩ := ih (fun d hd => hcs d (List.mem_cons_of_mem _ hd)) _
      (pairs_ne_nil hacc hc)
    refine ⟨h1, ?_⟩
    rw [h2, pairs_any, List.all_cons, Bool.and_assoc]

theorem unwind_holds (t : AndOrExpression) (h : noEmptyNode t = true) :
    unwind t ≠ [] ∧ ∀ v, (unwind t).any (renderedHolds v) = renderedHolds v t := by
  induction t using AndOrExpression.induction with
  | step and children expression ih =>
    rw [unwind]
    by_cases he : expression = ""
    · subst he
      rcases (noEmptyNode_node and children "").1 h with he | ⟨hne, hall⟩
      · exact absurd rfl he
      · have ihc := fun c hc => ih c hc (hall c hc)
        cases and
        · simp only [ne_eq, not_true_eq_false, if_false, Bool.false_eq_true,
            unwind_orConcat_eq]
          constructor
          · cases children with
            | nil => exact absurd rfl hne
            | cons c rest =>
              have := (ihc c (List.mem_cons_self _ _)).1
              simp [List.flatMap_cons, this]
          · intro v
            rw [renderedHolds_or v children (fun c hc => formula_ne_none c (hall c hc)) hne]
            clear hne h hall ih
            induction children with
            | nil => simp
            | cons c rest ihr =>
              rw [List.flatMap_cons, List.any_append, List.any_cons,
                (ihc c (List.mem_cons_self _ _)).2 v,
                ihr (fun d hd => ihc d (List.mem_cons_of_mem _ hd))]
        · simp only [ne_eq, not_true_eq_false, if_false, if_true]
          cases children with
          | nil => exact absurd rfl hne
          | cons c rest =>
            rw [unwind.andFold]
            simp only [List.isEmpty_nil, if_true]
            have hrest : ∀ d ∈ rest, unwind d ≠ [] :=
              fun d hd => (ihc d (List.mem_cons_of_mem _ hd)).1
            have hc := ihc c (List.mem_cons_self _ _)
            refine ⟨(unwind_andFold_holds (fun _ => true) rest hrest _ hc.1).1, fun v => ?_⟩
            rw [(unwind_andFold_holds v rest hrest _ hc.1).2, renderedHolds_and, List.all_cons,
              hc.2 v]
            congr 1
            exact all_congr_mem rest _ _ (fun d hd => (ihc d (List.mem_cons_of_mem _ hd)).2 v)
    · simp only [ne_eq, he, not_false_eq_true, if_true]
      refine ⟨by simp, fun v => ?_⟩
      simp [renderedHolds_and, renderedHolds_leaf v and children expression he]

/-! ### The expansion and the rendering -/

/-- C1 (as stated, refuted): the tree `And(A, Or())` renders to `A`, and its expansion is the
empty list, whose disjunction is false: under the assignment making `A` true the rendering holds
and the disjunction of the expansion does not. (Read as "no constraint", the empty expansion
fails as well: the rendering is false when `A` is false.) -/
theorem unwind_not_equivalent :
    BuildAndOrExpression
        (AndOrExpression.mk true
          [AndOrExpression.mk false [] "A", AndOrExpression.mk false [] ""] "") = .ok "A" ∧
    UnwindOrExpressions
        (AndOrExpression.mk true
          [AndOrExpression.mk false [] "A", AndOrExpression.mk false [] ""] "") = .ok [] ∧
    renderedHolds (fun _ => true)
        (AndOrExpression.mk true
          [AndOrExpression.mk false [] "A", AndOrExpression.mk false [] ""] "") = true ∧
    ([] : List AndOrExpression).any (renderedHolds (fun _ => true)) = false ∧
    renderedHolds (fun _ => false)
        (AndOrExpression.mk true
          [AndOrExpression.mk false [] "A", AndOrExpression.mk false [] ""] "") = false :=
  ⟨rfl, rfl, rfl, rfl, rfl⟩

/-- C1 (amended): for every boolean tree in which every node without an expression has at least
one child (recursively), `UnwindOrExpressions` returns a list of conjunctions; the rendering of
the tree and of each conjunction is the text of its formula (empty for no constraint), and under
every truth assignment to the leaf expressions the formula of the tree holds exactly when the
formula of some returned conjunction holds. -/
theorem unwind_equivalent_of_noEmptyNode (t : AndOrExpression) (h : noEmptyNode t = true) :
    ∃ cs, UnwindOrExpressions t = .ok cs ∧
      BuildAndOrExpression t = .ok (Formula.printOpt (formula t)) ∧
      (∀ c ∈ cs, BuildAndOrExpression c = .ok (Formula.printOpt (formula c))) ∧
      ∀ v, renderedHolds v t = cs.any (renderedHolds v) := by
  refine ⟨unwind t, UnwindOrExpressions_ok t, ?_, ?_, ?_⟩
  · rw [BuildAndOrExpression_ok, (render_eq_print t).1]
  · intro c _
    rw [BuildAndOrExpression_ok, (render_eq_print c).1]
  · intro v
    exact ((unwind_holds t h).2 v).symm

/-- C1 (amended), at the tree `And(A, Or(B, C))`. -/
theorem unwind_equivalent_of_noEmptyNode_witness :
    noEmptyNode
        (AndOrExpression.mk true
          [AndOrExpression.mk false [] "A",
           AndOrExpression.mk false
             [AndOrExpression.mk false [] "B", AndOrExpression.mk false [] "C"] ""] "") = true ∧
    ∃ cs, UnwindOrExpressions
        (AndOrExpression.mk true
          [AndOrExpression.mk false [] "A",
           AndOrExpression.mk false
             [AndOrExpression.mk false [] "B", AndOrExpression.mk false [] "C"] ""] "") = .ok cs ∧
      BuildAndOrExpression
        (AndOrExpression.mk true
          [AndOrExpression.mk false [] "A",
           AndOrExpression.mk false
             [AndOrExpression.mk false [] "B", AndOrExpression.mk false [] "C"] ""] "") =
        .ok (Formula.printOpt (formula
          (AndOrExpression.mk true
            [AndOrExpression.mk false [] "A",
             AndOrExpression.mk false
               [AndOrExpression.mk false [] "B", AndOrExpression.mk false [] "C"] ""] ""))) ∧
      (∀ c ∈ cs, BuildAndOrExpression c = .ok (Formula.printOpt (formula c))) ∧
      ∀ v, renderedHolds v
        (AndOrExpression.mk true
          [AndOrExpression.mk false [] "A",
           AndOrExpression.mk false
             [AndOrExpression.mk false [] "B", AndOrExpression.mk false [] "C"] ""] "") =
        cs.any (renderedHolds v) :=
  ⟨by decide, unwind_equivalent_of_noEmptyNode _ (by decide)⟩

/-! ### Helper lemmas: the SQL builder -/

theorem index_ok (projections : List String) (i : Int) (h : 0 ≤ i ∧ i < projections.length) :
    index projections i = .ok (projections.getD i.toNat "") := by
  have hlt : i.toNat < projections.length := by omega
  have hnot : ¬ i < 0 := by omega
  simp [index, hnot, List.getElem?_eq_getElem hlt, List.getD_eq_getElem?_getD]

theorem mapM_index_ok (projections : List String) (groupBy : List Int)
    (h : inRange projections groupBy) :
    groupBy.mapM (index projections) = .ok (columnsAt projections groupBy) := by
  induction groupBy with
  | nil => rfl
  | cons i rest ih =>
    have hi := index_ok projections i (h i (List.mem_cons_self _ _))
    have hrest := ih (fun j hj => h j (List.mem_cons_of_mem _ hj))
    rw [List.mapM_cons, hi, hrest]
    rfl

theorem buildSingleSQLSelect_ok (distinct : Bool) (projections fromTables : List String)
    (whereExpressions : AndOrExpression) (groupBy : List Int) (limit offset : Int)
    (h : inRange projections groupBy) :
    buildSingleSQLSelect distinct projections fromTables whereExpressions groupBy limit offset =
      .ok (selectText distinct projections fromTables (render whereExpressions)
        (columnsAt projections groupBy) limit offset) := by
  unfold buildSingleSQLSelect selectText
  rw [BuildAndOrExpression_ok, mapM_index_ok projections groupBy h]
  simp only [bind, Except.bind, pure, Except.pure, Join_eq_intercalate, fmtInt]
  have hg : (groupBy.length > 0) ↔ columnsAt projections groupBy ≠ [] := by
    cases groupBy <;> simp [columnsAt]
  by_cases hgb : columnsAt projections groupBy = [] <;>
    by_cases hw : render whereExpressions = "" <;>
    by_cases hl : limit > 0 <;> by_cases ho : offset > 0 <;> cases distinct <;>
    simp only [hg, hgb, hw, hl, ho, if_true, if_false, ne_eq, not_true_eq_false,
      not_false_eq_true, String.append_assoc, String.empty_append, String.append_empty,
      Bool.false_eq_true]

theorem mapM_ok {α β : Type} (f : α → Except Failure β) (g : α → β) (l : List α)
    (h : ∀ x ∈ l, f x = .ok (g x)) : l.mapM f = .ok (l.map g) := by
  induction l with
  | nil => rfl
  | cons x l ih =>
    rw [List.mapM_cons, h x (List.mem_cons_self _ _),
      ih (fun y hy => h y (List.mem_cons_of_mem _ hy))]
    rfl

theorem inRange_nil (projections : List String) : inRange projections [] := by
  intro i hi; cases hi

theorem buildSQLSelect_single (distinct : Bool) (projections : List String)
    (projectionTypes : List Projection) (fromTables : List String)
    (whereExpressions : AndOrExpression) (groupBy : List Int) (limit offset : Int)
    (hcs : (unwind whereExpressions).length ≤ 1) :
    buildSQLSelect distinct projections projectionTypes fromTables whereExpressions groupBy
        limit offset =
      buildSingleSQLSelect distinct projections fromTables
        (AndOrExpression.mk true (unwind whereExpressions) "") groupBy limit offset := by
  unfold buildSQLSelect
  rw [UnwindOrExpressions_ok]
  have hnot : ¬ (unwind whereExpressions).length > 1 := by omega
  simp only [bind, Except.bind, hnot, if_false]
  cases buildSingleSQLSelect distinct projections fromTables
    (AndOrExpression.mk true (unwind whereExpressions) "") groupBy limit offset <;> rfl

theorem buildSQLSelect_union (distinct : Bool) (projections : List String)
    (projectionTypes : List Projection) (fromTables : List String)
    (whereExpressions : AndOrExpression) (groupBy : List Int) (limit offset : Int)
    (hcs : 2 ≤ (unwind whereExpressions).length) (h : inRange projections groupBy) :
    buildSQLSelect distinct projections projectionTypes fromTables whereExpressions groupBy
        limit offset =
      .ok (unionText distinct projections
        ((unwind whereExpressions).map
          (fun c => selectText false projections fromTables (render c) [] 0 0))
        (columnsAt projections groupBy) limit offset) := by
  unfold buildSQLSelect unionText
  rw [UnwindOrExpressions_ok]
  have hgt : (unwind whereExpressions).length > 1 := by omega
  have hbranches : (unwind whereExpressions).mapM (fun where_ => do
      let singleQuery ← buildSingleSQLSelect false projections fromTables where_ [] 0 0
      pure ("(" ++ singleQuery ++ ")")) =
      .ok ((unwind whereExpressions).map
        (fun c => "(" ++ selectText false projections fromTables (render c) [] 0 0 ++ ")")) := by
    apply mapM_ok
    intro c _
    rw [buildSingleSQLSelect_ok false projections fromTables c [] 0 0 (inRange_nil _)]
    rfl
  simp only [bind, Except.bind, hgt, if_true] at hbranches ⊢
  rw [hbranches, mapM_index_ok projections groupBy h]
  simp only [pure, Except.pure, Join_eq_intercalate, fmtInt, List.map_map]
  have hg : (groupBy.length > 0) ↔ columnsAt projections groupBy ≠ [] := by
    cases groupBy <;> simp [columnsAt]
  by_cases hgb : columnsAt projections groupBy = [] <;>
    by_cases hl : limit > 0 <;> by_cases ho : offset > 0 <;> cases distinct <;>
    simp only [hg, hgb, hl, ho, if_true, if_false, ne_eq, not_true_eq_false,
      not_false_eq_true, String.append_assoc, String.empty_append, String.append_empty,
      Bool.false_eq_true] <;> rfl

/-! ### The SQL builder -/

/-- C6: for all inputs whose `groupBy` indices are positions of `projections` (any other index
is a run-time panic), `buildSingleSQLSelect` returns, without error, the text made of `SELECT `,
then `DISTINCT ` iff `distinct`, the projections joined by `, `, ` FROM ` and the tables joined
by `, `; then `\nWHERE ` and the rendering of the tree iff that rendering is not empty; then
`\nGROUP BY ` and the projections at the `groupBy` indices joined by `, ` iff `groupBy` is not
empty; then `\nLIMIT n` iff `limit > 0`; then `\nOFFSET n` iff `offset > 0`. -/
theorem buildSingleSQLSelect_format (distinct : Bool) (projections fromTables : List String)
    (whereExpressions : AndOrExpression) (groupBy : List Int) (limit offset : Int)
    (h : ∀ i ∈ groupBy, 0 ≤ i ∧ i < projections.length) :
    buildSingleSQLSelect distinct projections fromTables whereExpressions groupBy limit offset =
      .ok ("SELECT " ++ (if distinct then "DISTINCT " else "")
        ++ ", ".intercalate projections ++ " FROM " ++ ", ".intercalate fromTables
        ++ (if render whereExpressions ≠ "" then "\nWHERE " ++ render whereExpressions else "")
        ++ (if groupBy ≠ [] then
              "\nGROUP BY " ++
                ", ".intercalate (groupBy.map (fun i => projections.getD i.toNat ""))
            else "")
        ++ (if limit > 0 then "\nLIMIT " ++ toString limit else "")
        ++ (if offset > 0 then "\nOFFSET " ++ toString offset else "")) := by
  rw [buildSingleSQLSelect_ok distinct projections fromTables whereExpressions groupBy limit
    offset h]
  unfold selectText columnsAt
  cases groupBy <;> simp

/-- C6, at `SELECT DISTINCT a0.id, a0.value FROM assets a0` with the WHERE tree `And(A, Or(B))`,
`groupBy = [1, 0]`, `limit = 5` and `offset = 2`. -/
theorem buildSingleSQLSelect_format_witness :
    (∀ i ∈ ([1, 0] : List Int), 0 ≤ i ∧ i < (["a0.id", "a0.value"] : List String).length) ∧
    buildSingleSQLSelect true ["a0.id", "a0.value"] ["assets a0"]
        (AndOrExpression.mk true
          [AndOrExpression.mk false [] "A",
           AndOrExpression.mk false [AndOrExpression.mk false [] "B"] ""] "")
        [1, 0] 5 2 =
      .ok ("SELECT DISTINCT a0.id, a0.value FROM assets a0\nWHERE (A AND B)"
        ++ "\nGROUP BY a0.value, a0.id\nLIMIT 5\nOFFSET 2") :=
  ⟨by decide,
    (buildSingleSQLSelect_format true ["a0.id", "a0.value"] ["assets a0"] _ [1, 0] 5 2
      (by decide)).trans rfl⟩

/-- C4: in `buildSQLSelect`, when `UnwindOrExpressions(where)` returns two or more conjunctions
(and the `groupBy` indices are positions of `projections`, any other index being a run-time
panic), every conjunction is compiled by `buildSingleSQLSelect` with `distinct = false`, no
`groupBy`, limit 0 and offset 0, and the output is these branches, each in parentheses, in the
order of the expansion, joined by `\nUNION\n` when `distinct` and by `\nUNION ALL\n` otherwise;
wrapped, iff `groupBy` is not empty, as `SELECT {projections joined by ", "} FROM\n({union})
\nGROUP BY {the projections at the groupBy indices, in order, joined by ","}`; followed by
`\nLIMIT n` iff `limit > 0` and then `\nOFFSET n` iff `offset > 0`. -/
theorem buildSQLSelect_union_format (distinct : Bool) (projections : List String)
    (projectionTypes : List Projection) (fromTables : List String)
    (whereExpressions : AndOrExpression) (groupBy : List Int) (limit offset : Int)
    (andExpressions : List AndOrExpression)
    (hunwind : UnwindOrExpressions whereExpressions = .ok andExpressions)
    (hmany : 2 ≤ andExpressions.length)
    (h : ∀ i ∈ groupBy, 0 ≤ i ∧ i < projections.length) :
    ∃ singleQueries,
      andExpressions.mapM
          (fun c => buildSingleSQLSelect false projections fromTables c [] 0 0) =
        .ok singleQueries ∧
      singleQueries =
        andExpressions.map (fun c =>
          "SELECT " ++ ", ".intercalate projections ++ " FROM " ++ ", ".intercalate fromTables
            ++ (if render c ≠ "" then "\nWHERE " ++ render c else "")) ∧
      buildSQLSelect distinct projections projectionTypes fromTables whereExpressions groupBy
          limit offset =
        .ok ((if groupBy ≠ [] then
                "SELECT " ++ ", ".intercalate projections ++ " FROM\n("
                  ++ (if distinct then "\nUNION\n" else "\nUNION ALL\n").intercalate
                      (singleQueries.map (fun q => "(" ++ q ++ ")"))
                  ++ ")\nGROUP BY "
                  ++ ",".intercalate (groupBy.map (fun i => projections.getD i.toNat ""))
              else
                (if distinct then "\nUNION\n" else "\nUNION ALL\n").intercalate
                  (singleQueries.map (fun q => "(" ++ q ++ ")")))
          ++ (if limit > 0 then "\nLIMIT " ++ toString limit else "")
          ++ (if offset > 0 then "\nOFFSET " ++ toString offset else "")) := by
  have hcs : andExpressions = unwind whereExpressions := by
    rw [UnwindOrExpressions_ok] at hunwind
    injection hunwind with hu
    exact hu.symm
  subst hcs
  refine ⟨(unwind whereExpressions).map
    (fun c => selectText false projections fromTables (render c) [] 0 0), ?_, ?_, ?_⟩
  · apply mapM_ok
    intro c _
    exact buildSingleSQLSelect_ok false projections fromTables c [] 0 0 (inRange_nil _)
  · apply List.map_congr_left
    intro c _
    unfold selectText
    simp
  · rw [buildSQLSelect_union distinct projections projectionTypes fromTables whereExpressions
      groupBy limit offset hmany h]
    unfold unionText columnsAt
    cases groupBy <;> simp

/-- C4, at the WHERE tree `And(A, Or(B, C))` with `distinct`, `groupBy = [1]`, `limit = 5` and
`offset = 2`. -/
theorem buildSQLSelect_union_format_witness :
    UnwindOrExpressions
        (AndOrExpression.mk true
          [AndOrExpression.mk false [] "A",
           AndOrExpression.mk false
             [AndOrExpression.mk false [] "B", AndOrExpression.mk false [] "C"] ""] "") =
      .ok [AndOrExpression.mk true
            [AndOrExpression.mk true [AndOrExpression.mk false [] "A"] "",
             AndOrExpression.mk true [AndOrExpression.mk false [] "B"] ""] "",
           AndOrExpression.mk true
            [AndOrExpression.mk true [AndOrExpression.mk false [] "A"] "",
             AndOrExpression.mk true [AndOrExpression.mk false [] "C"] ""] ""] ∧
    (∀ i ∈ ([1] : List Int), 0 ≤ i ∧ i < (["a0.id", "a0.value"] : List String).length) ∧
    buildSQLSelect true ["a0.id", "a0.value"] [] ["assets a0"]
        (AndOrExpression.mk true
          [AndOrExpression.mk false [] "A",
           AndOrExpression.mk false
             [AndOrExpression.mk false [] "B", AndOrExpression.mk false [] "C"] ""] "")
        [1] 5 2 =
      .ok ("SELECT a0.id, a0.value FROM\n("
        ++ "(SELECT a0.id, a0.value FROM assets a0\nWHERE (A AND B))"
        ++ "\nUNION\n"
        ++ "(SELECT a0.id, a0.value FROM assets a0\nWHERE (A AND C))"
        ++ ")\nGROUP BY a0.value\nLIMIT 5\nOFFSET 2") := by
  refine ⟨rfl, by decide, ?_⟩
  obtain ⟨qs, h1, h2, h3⟩ :=
    buildSQLSelect_union_format true ["a0.id", "a0.value"] [] ["assets a0"]
      (AndOrExpression.mk true
        [AndOrExpression.mk false [] "A",
         AndOrExpression.mk false
           [AndOrExpression.mk false [] "B", AndOrExpression.mk false [] "C"] ""] "")
      [1] 5 2 _ rfl (by decide) (by decide)
  subst h2
  exact h3.trans rfl

/-! ### Helper lemmas: `Translate` -/

section TranslateLemmas

variable {N R E : Type}

/-- A successful `Translate` went through each of its steps successfully. -/
theorem Translate_ok_steps (c : Collaborators N R E) (sqt : SQLQueryTranslator)
    (query : QueryCypher N R E) (tr : SQLTranslation) (h : Translate c sqt query = .ok tr) :
    ∃ graph constrainedNodes filterChildren st from_ andChildren limit offset,
      Translate.queryMatches c query.QuerySinglePartQuery.QueryMatches sqt.QueryGraph [] [] =
        .ok (graph, constrainedNodes, filterChildren) ∧
      Translate.projectionItems c graph
          query.QuerySinglePartQuery.ProjectionBody.ProjectionItems 0
          { projections := [], projectionTypes := [], unaggregatedProjectionItems := [],
            aggregationRequired := false } = .ok st ∧
      Translate.relations c graph constrainedNodes graph.Relations 0
          (Translate.nodes graph.Nodes 0 [] []).1 (Translate.nodes graph.Nodes 0 [] []).2 =
        .ok (from_, andChildren) ∧
      Translate.limit c query.QuerySinglePartQuery.ProjectionBody = .ok limit ∧
      Translate.offset c query.QuerySinglePartQuery.ProjectionBody limit = .ok offset ∧
      buildSQLSelect query.QuerySinglePartQuery.ProjectionBody.Distinct st.projections
          st.projectionTypes from_
          (AndOrExpression.mk true
            (if filterChildren.length > 0 then
              andChildren ++ [AndOrExpression.mk true filterChildren ""]
            else andChildren) "")
          (if !st.aggregationRequired then [] else st.unaggregatedProjectionItems)
          limit offset = .ok tr.Query ∧
      tr.ProjectionTypes = st.projectionTypes := by
  unfold Translate at h
  simp only [bind, Except.bind] at h
  split at h
  · cases h
  · rename_i v1 h1
    obtain ⟨graph, constrainedNodes, filterChildren⟩ := v1
    simp only at h
    split at h
    · cases h
    · rename_i st h2
      split at h
      · cases h
      · rename_i v3 h3
        obtain ⟨from_, andChildren⟩ := v3
        simp only at h
        split at h
        · cases h
        · rename_i limit h4
          split at h
          · cases h
          · rename_i offset h5
            split at h
            · cases h
            · rename_i sqlQuery h6
              simp only [pure, Except.pure, Except.ok.injEq] at h
              subst h
              exact ⟨graph, constrainedNodes, filterChildren, st, from_, andChildren, limit,
                offset, h1, h2, h3, h4, h5, h6, rfl⟩

end TranslateLemmas

theorem buildSQLSelect_ok (distinct : Bool) (projections : List String)
    (projectionTypes : List Projection) (fromTables : List String)
    (whereExpressions : AndOrExpression) (groupBy : List Int) (limit offset : Int)
    (h : inRange projections groupBy) :
    buildSQLSelect distinct projections projectionTypes fromTables whereExpressions groupBy
        limit offset =
      .ok (builderText distinct projections fromTables whereExpressions
        (columnsAt projections groupBy) limit offset) := by
  unfold builderText
  by_cases hlen : (unwind whereExpressions).length ≤ 1
  · rw [buildSQLSelect_single _ _ _ _ _ _ _ _ hlen, if_pos hlen,
      buildSingleSQLSelect_ok _ _ _ _ _ _ _ h]
  · rw [buildSQLSelect_union _ _ _ _ _ _ _ _ (by omega) h, if_neg hlen]

section TranslateProjections

variable {N R E : Type}

theorem projectionItems_ok (c : Collaborators N R E) (graph : QueryGraph)
    (items : List (QueryProjectionItem E)) (i : Nat) (st st' : ProjectionState)
    (h : Translate.projectionItems c graph items i st = .ok st') :
    ∃ results, ProjectionResults c graph items results ∧
      st'.projections = st.projections ++ results.map (fun r => r.2) ∧
      st'.projectionTypes = st.projectionTypes ++
        List.zipWith (fun p r => Projection.mk p.Alias r.1.ExpressionType) items results ∧
      st'.unaggregatedProjectionItems = st.unaggregatedProjectionItems ++
        unaggregatedIndices i (results.map (fun r => r.1.Aggregation)) ∧
      st'.aggregationRequired =
        (st.aggregationRequired || results.any (fun r => r.1.Aggregation)) := by
  induction items generalizing i st with
  | nil =>
    simp only [Translate.projectionItems, Except.ok.injEq] at h
    subst h
    exact ⟨[], List.Forall₂.nil, by simp, by simp, by simp [unaggregatedIndices], by simp⟩
  | cons p rest ih =>
    rw [Translate.projectionItems] at h
    simp only [bind, Except.bind] at h
    split at h
    · cases h
    · rename_i v hv
      split at h
      · cases h
      · rename_i s hs
        obtain ⟨results, hres, h1, h2, h3, h4⟩ := ih _ _ h
        refine ⟨(v, s) :: results, List.Forall₂.cons ⟨hv, hs⟩ hres, ?_, ?_, ?_, ?_⟩
        · simp [h1]
        · simp [h2]
        · rw [h3]
          cases hagg : v.Aggregation <;> simp [unaggregatedIndices, hagg]
        · rw [h4]
          cases hagg : v.Aggregation <;> simp [hagg]

end TranslateProjections

theorem unaggregatedIndices_spec (pre : List String)
    (results : List (ProjectionVisitorResult × String)) :
    inRange (pre ++ results.map (fun r => r.2))
        (unaggregatedIndices pre.length (results.map (fun r => r.1.Aggregation))) ∧
      columnsAt (pre ++ results.map (fun r => r.2))
          (unaggregatedIndices pre.length (results.map (fun r => r.1.Aggregation))) =
        (results.filter (fun r => !r.1.Aggregation)).map (fun r => r.2) := by
  induction results generalizing pre with
  | nil => exact ⟨(by intro i hi; cases hi), rfl⟩
  | cons r rest ih =>
    have ih' := ih (pre ++ [r.2])
    simp only [List.length_append, List.length_singleton, List.append_assoc,
      List.singleton_append] at ih'
    obtain ⟨h1, h2⟩ := ih'
    simp only [List.map_cons, unaggregatedIndices]
    by_cases hagg : r.1.Aggregation = true
    · simp only [hagg, if_true]
      refine ⟨h1, ?_⟩
      rw [h2]
      simp [hagg]
    · have hf : r.1.Aggregation = false := by simpa using hagg
      simp only [hf, Bool.false_eq_true, if_false]
      constructor
      · intro i hi
        rcases List.mem_cons.1 hi with rfl | hi
        · simp
        · exact h1 i hi
      · simp only [columnsAt, List.map_cons] at h2 ⊢
        rw [h2]
        simp [hf, List.getElem_append_right]

/-! ### `Translate`: aggregation and GROUP BY -/

/-- C9: for every query `Translate` translates, with `results` the projection visitor's fields
and the rendered projection string of each projection item, in item order: the builder is called
with the rendered strings as projections and with a `groupBy` that is empty if no item contains
an aggregation and otherwise lists the positions of the non-aggregated items, whose projections
are exactly the rendered strings of the non-aggregated items in item order; and the emitted SQL
is the builder's text for these GROUP BY columns, which has a GROUP BY clause only when the
column list is not empty (so none without aggregation, and none when every item is
aggregated). -/
theorem Translate_groupBy {N R E : Type} (c : Collaborators N R E) (sqt : SQLQueryTranslator)
    (query : QueryCypher N R E) (tr : SQLTranslation) (h : Translate c sqt query = .ok tr) :
    ∃ graph constrainedNodes filterChildren results projectionTypes fromTables whereExpressions
        limit offset groupBy,
      Translate.queryMatches c query.QuerySinglePartQuery.QueryMatches sqt.QueryGraph [] [] =
        .ok (graph, constrainedNodes, filterChildren) ∧
      ProjectionResults c graph query.QuerySinglePartQuery.ProjectionBody.ProjectionItems
        results ∧
      buildSQLSelect query.QuerySinglePartQuery.ProjectionBody.Distinct
          (results.map (fun r => r.2)) projectionTypes fromTables whereExpressions groupBy
          limit offset = .ok tr.Query ∧
      (results.any (fun r => r.1.Aggregation) = false → groupBy = []) ∧
      (results.any (fun r => r.1.Aggregation) = true →
        groupBy = unaggregatedIndices 0 (results.map (fun r => r.1.Aggregation))) ∧
      (∀ i ∈ groupBy, 0 ≤ i ∧ i < (results.map (fun r => r.2)).length) ∧
      groupBy.map (fun i => (results.map (fun r => r.2)).getD i.toNat "") =
        (if results.any (fun r => r.1.Aggregation) then
          (results.filter (fun r => !r.1.Aggregation)).map (fun r => r.2)
        else []) ∧
      tr.Query =
        builderText query.QuerySinglePartQuery.ProjectionBody.Distinct
          (results.map (fun r => r.2)) fromTables whereExpressions
          (if results.any (fun r => r.1.Aggregation) then
            (results.filter (fun r => !r.1.Aggregation)).map (fun r => r.2)
          else [])
          limit offset := by
  obtain ⟨graph, constrainedNodes, filterChildren, st, from_, andChildren, limit, offset, h1,
    h2, _, _, _, h6, _⟩ := Translate_ok_steps c sqt query tr h
  obtain ⟨results, hres, hp, _, hu, ha⟩ := projectionItems_ok c graph _ 0 _ st h2
  simp only [List.nil_append, Bool.false_or] at hp hu ha
  have hspec := unaggregatedIndices_spec [] results
  simp only [List.nil_append, List.length_nil] at hspec
  rw [hp, hu, ha] at h6
  have hrange : inRange (results.map (fun r => r.2))
      (if (!results.any (fun r => r.1.Aggregation)) = true then []
        else unaggregatedIndices 0 (results.map (fun r => r.1.Aggregation))) := by
    cases results.any (fun r => r.1.Aggregation)
    · exact inRange_nil _
    · exact hspec.1
  have hcols : columnsAt (results.map (fun r => r.2))
      (if (!results.any (fun r => r.1.Aggregation)) = true then []
        else unaggregatedIndices 0 (results.map (fun r => r.1.Aggregation))) =
      (if results.any (fun r => r.1.Aggregation) then
        (results.filter (fun r => !r.1.Aggregation)).map (fun r => r.2)
      else []) := by
    cases results.any (fun r => r.1.Aggregation)
    · rfl
    · exact hspec.2
  refine ⟨graph, constrainedNodes, filterChildren, results, st.projectionTypes, from_, _, limit,
    offset, _, h1, hres, h6, ?_, ?_, hrange, hcols, ?_⟩
  · intro hno; simp [hno]
  · intro hyes; simp [hyes]
  · rw [buildSQLSelect_ok _ _ _ _ _ _ _ _ hrange, hcols] at h6
    injection h6 with h6
    exact h6.symm

/-- C9, at `MATCH (n:Person) RETURN n.type, count(n)`, translated to `SELECT a0.type,
COUNT(a0.id, a0.value, a0.type) FROM assets a0\nWHERE a0.type = 'Person'\nGROUP BY a0.type`. -/
theorem Translate_groupBy_witness :
    Translate specCollaborators NewSQLQueryTranslator scenarioS6 = .ok translationS6 ∧
    ∃ graph constrainedNodes filterChildren results projectionTypes fromTables whereExpressions
        limit offset groupBy,
      Translate.queryMatches specCollaborators scenarioS6.QuerySinglePartQuery.QueryMatches
          NewSQLQueryTranslator.QueryGraph [] [] =
        .ok (graph, constrainedNodes, filterChildren) ∧
      ProjectionResults specCollaborators graph
        scenarioS6.QuerySinglePartQuery.ProjectionBody.ProjectionItems results ∧
      buildSQLSelect scenarioS6.QuerySinglePartQuery.ProjectionBody.Distinct
          (results.map (fun r => r.2)) projectionTypes fromTables whereExpressions groupBy
          limit offset = .ok translationS6.Query ∧
      (results.any (fun r => r.1.Aggregation) = false → groupBy = []) ∧
      (results.any (fun r => r.1.Aggregation) = true →
        groupBy = unaggregatedIndices 0 (results.map (fun r => r.1.Aggregation))) ∧
      (∀ i ∈ groupBy, 0 ≤ i ∧ i < (results.map (fun r => r.2)).length) ∧
      groupBy.map (fun i => (results.map (fun r => r.2)).getD i.toNat "") =
        (if results.any (fun r => r.1.Aggregation) then
          (results.filter (fun r => !r.1.Aggregation)).map (fun r => r.2)
        else []) ∧
      translationS6.Query =
        builderText scenarioS6.QuerySinglePartQuery.ProjectionBody.Distinct
          (results.map (fun r => r.2)) fromTables whereExpressions
          (if results.any (fun r => r.1.Aggregation) then
            (results.filter (fun r => !r.1.Aggregation)).map (fun r => r.2)
          else [])
          limit offset :=
  ⟨rfl, Translate_groupBy specCollaborators NewSQLQueryTranslator scenarioS6 translationS6 rfl⟩

/-! ### Helper lemmas: the constraints `Translate` derives from the query graph -/

theorem Translate_labels_eq (alias_ : String) (labels : List String) :
    Translate.labels alias_ labels =
      labels.map (fun label =>
        AndOrExpression.mk false [] (alias_ ++ ".type = '" ++ label ++ "'")) := by
  unfold Translate.labels
  rw [foldl_append_singleton]
  simp

theorem Translate_typesConstraints (alias_ : String) (labels : List String)
    (andChildren : List AndOrExpression) :
    (if (Translate.labels alias_ labels).length > 0 then
        andChildren ++ [AndOrExpression.mk false (Translate.labels alias_ labels) ""]
      else andChildren) = andChildren ++ labelConstraint alias_ labels := by
  rw [Translate_labels_eq]
  unfold labelConstraint
  cases labels <;> simp

theorem assets_alias (s : String) : "assets " ++ ("a" ++ s) = "assets a" ++ s := by
  rw [← String.append_assoc]; rfl

theorem relations_alias (s : String) : "relations " ++ ("r" ++ s) = "relations r" ++ s := by
  rw [← String.append_assoc]; rfl

theorem Translate_nodes_eq (ns : List QueryNode) (i : Nat) (from_ : List String)
    (andChildren : List AndOrExpression) :
    Translate.nodes ns i from_ andChildren =
      (from_ ++ nodeTables i ns, andChildren ++ nodeConstraints i ns) := by
  induction ns generalizing i from_ andChildren with
  | nil => simp [Translate.nodes, nodeTables, nodeConstraints]
  | cons n rest ih =>
    rw [Translate.nodes]
    simp only [Translate_typesConstraints, ih, nodeTables, nodeConstraints, List.append_assoc,
      List.singleton_append, assets_alias]

section TranslateRelations

variable {N R E : Type}

theorem Translate_relations_eq (c : Collaborators N R E) (graph : QueryGraph)
    (constrainedNodes : List Int) (rs : List QueryRelation) (i : Nat) (from_ : List String)
    (andChildren : List AndOrExpression) (from' : List String)
    (andChildren' : List AndOrExpression)
    (h : Translate.relations c graph constrainedNodes rs i from_ andChildren =
      .ok (from', andChildren')) :
    ∃ oneDirection : List Bool,
      List.Forall₂
        (fun r b => r.Direction = .Either →
          Translate.oneDirectionOptimization c graph constrainedNodes r = .ok b)
        rs oneDirection ∧
      from' = from_ ++ relationTables i rs ∧
      andChildren' = andChildren ++ relationConstraints i rs oneDirection := by
  induction rs generalizing i from_ andChildren with
  | nil =>
    simp only [Translate.relations, Except.ok.injEq, Prod.mk.injEq] at h
    obtain ⟨rfl, rfl⟩ := h
    exact ⟨[], List.Forall₂.nil, by simp [relationTables], by simp [relationConstraints]⟩
  | cons r rest ih =>
    rw [Translate.relations] at h
    simp only [Translate_typesConstraints, relations_alias] at h
    cases hdir : r.Direction with
    | Right =>
      rw [hdir] at h
      simp only [bind, Except.bind, pure, Except.pure] at h
      obtain ⟨bs, hbs, hf, ha⟩ := ih _ _ _ h
      refine ⟨false :: bs, List.Forall₂.cons (by simp [hdir]) hbs, ?_, ?_⟩
      · simp [hf, relationTables]
      · simp [ha, relationConstraints, directionConstraint, hdir]
    | Left =>
      rw [hdir] at h
      simp only [bind, Except.bind, pure, Except.pure] at h
      obtain ⟨bs, hbs, hf, ha⟩ := ih _ _ _ h
      refine ⟨false :: bs, List.Forall₂.cons (by simp [hdir]) hbs, ?_, ?_⟩
      · simp [hf, relationTables]
      · simp [ha, relationConstraints, directionConstraint, hdir]
    | Either =>
      rw [hdir] at h
      simp only [bind, Except.bind, pure, Except.pure] at h
      cases hb : Translate.oneDirectionOptimization c graph constrainedNodes r with
      | error e => rw [hb] at h; cases h
      | ok b =>
        rw [hb] at h
        cases b
        · simp only [Bool.false_eq_true, if_false] at h
          obtain ⟨bs, hbs, hf, ha⟩ := ih _ _ _ h
          refine ⟨false :: bs, List.Forall₂.cons (fun _ => hb) hbs, ?_, ?_⟩
          · simp [hf, relationTables]
          · simp [ha, relationConstraints, directionConstraint, hdir]
        · simp only [if_true] at h
          obtain ⟨bs, hbs, hf, ha⟩ := ih _ _ _ h
          refine ⟨true :: bs, List.Forall₂.cons (fun _ => hb) hbs, ?_, ?_⟩
          · simp [hf, relationTables]
          · simp [ha, relationConstraints, directionConstraint, hdir]

end TranslateRelations

section TranslateQuery

variable {N R E : Type}

/-- A successful `Translate` in terms of what its collaborators returned: the graph after the
MATCH clauses, the projection results, the outcome of the single-direction test of each
relation, the limit and offset, and the text of the query. -/
theorem Translate_ok_query (c : Collaborators N R E) (sqt : SQLQueryTranslator)
    (query : QueryCypher N R E) (tr : SQLTranslation) (h : Translate c sqt query = .ok tr) :
    ∃ graph constrainedNodes filterChildren results oneDirection limit offset,
      Translate.queryMatches c query.QuerySinglePartQuery.QueryMatches sqt.QueryGraph [] [] =
        .ok (graph, constrainedNodes, filterChildren) ∧
      ProjectionResults c graph query.QuerySinglePartQuery.ProjectionBody.ProjectionItems
        results ∧
      List.Forall₂
        (fun r b => r.Direction = .Either →
          Translate.oneDirectionOptimization c graph constrainedNodes r = .ok b)
        graph.Relations oneDirection ∧
      Translate.limit c query.QuerySinglePartQuery.ProjectionBody = .ok limit ∧
      Translate.offset c query.QuerySinglePartQuery.ProjectionBody limit = .ok offset ∧
      tr.ProjectionTypes =
        List.zipWith (fun p r => Projection.mk p.Alias r.1.ExpressionType)
          query.QuerySinglePartQuery.ProjectionBody.ProjectionItems results ∧
      buildSQLSelect query.QuerySinglePartQuery.ProjectionBody.Distinct
          (results.map (fun r => r.2)) tr.ProjectionTypes
          (nodeTables 0 graph.Nodes ++ relationTables 0 graph.Relations)
          (whereTree graph oneDirection filterChildren) (groupByIndices results) limit offset =
        .ok tr.Query ∧
      tr.Query =
        builderText query.QuerySinglePartQuery.ProjectionBody.Distinct
          (results.map (fun r => r.2))
          (nodeTables 0 graph.Nodes ++ relationTables 0 graph.Relations)
          (whereTree graph oneDirection filterChildren) (groupByColumns results) limit
          offset := by
  obtain ⟨graph, constrainedNodes, filterChildren, st, from_, andChildren, limit, offset, h1,
    h2, h3, h4, h5, h6, h7⟩ := Translate_ok_steps c sqt query tr h
  obtain ⟨results, hres, hp, ht, hu, ha⟩ := projectionItems_ok c graph _ 0 _ st h2
  simp only [List.nil_append, Bool.false_or] at hp ht hu ha
  rw [Translate_nodes_eq] at h3
  obtain ⟨oneDirection, hone, hf, hac⟩ := Translate_relations_eq c graph constrainedNodes _ _ _ _
    _ _ h3
  simp only [List.nil_append] at hf hac
  have hspec := unaggregatedIndices_spec [] results
  simp only [List.nil_append, List.length_nil] at hspec
  have htree : (AndOrExpression.mk true
      (if filterChildren.length > 0 then
        andChildren ++ [AndOrExpression.mk true filterChildren ""]
      else andChildren) "") = whereTree graph oneDirection filterChildren := by
    unfold whereTree
    rw [hac]
    by_cases hfc : filterChildren.length > 0 <;> simp [hfc]
  have hgroup : (if (!st.aggregationRequired) = true then []
      else st.unaggregatedProjectionItems) = groupByIndices results := by
    unfold groupByIndices
    rw [ha, hu]
    cases results.any (fun r => r.1.Aggregation) <;> simp
  have hrange : inRange (results.map (fun r => r.2)) (groupByIndices results) := by
    unfold groupByIndices
    cases results.any (fun r => r.1.Aggregation)
    · exact inRange_nil _
    · exact hspec.1
  have hcols : columnsAt (results.map (fun r => r.2)) (groupByIndices results) =
      groupByColumns results := by
    unfold groupByIndices groupByColumns
    cases results.any (fun r => r.1.Aggregation)
    · rfl
    · exact hspec.2
  rw [htree, hgroup, hp, hf, ← h7] at h6
  refine ⟨graph, constrainedNodes, filterChildren, results, oneDirection, limit, offset, h1,
    hres, hone, h4, h5, by rw [h7, ht], h6, ?_⟩
  rw [buildSQLSelect_ok _ _ _ _ _ _ _ _ hrange, hcols] at h6
  injection h6 with h6
  exact h6.symm

end TranslateQuery

/-! ### Helper lemmas: texts occurring in texts -/

theorem occursIn_iff (needle text : String) :
    occursIn needle text ↔ ∃ s t : String, text = s ++ needle ++ t := by
  unfold occursIn
  constructor
  · rintro ⟨s, t, h⟩
    refine ⟨⟨s⟩, ⟨t⟩, ?_⟩
    apply String.ext
    simp [String.data_append, h]
  · rintro ⟨s, t, rfl⟩
    exact ⟨s.data, t.data, by simp [String.data_append]⟩

theorem occursIn_refl (s : String) : occursIn s s :=
  (occursIn_iff s s).2 ⟨"", "", by simp⟩

theorem occursIn_trans {a b c : String} (h1 : occursIn a b) (h2 : occursIn b c) :
    occursIn a c := List.IsInfix.trans h1 h2

theorem occursIn_append_left {n a : String} (b : String) (h : occursIn n a) :
    occursIn n (a ++ b) := by
  obtain ⟨s, t, rfl⟩ := (occursIn_iff n a).1 h
  exact (occursIn_iff _ _).2 ⟨s, t ++ b, by simp [String.append_assoc]⟩

theorem occursIn_append_right {n b : String} (a : String) (h : occursIn n b) :
    occursIn n (a ++ b) := by
  obtain ⟨s, t, rfl⟩ := (occursIn_iff n b).1 h
  exact (occursIn_iff _ _).2 ⟨a ++ s, t, by simp [String.append_assoc]⟩

theorem occursIn_foldl (sep : String) (l : List String) (acc x : String)
    (h : occursIn x acc ∨ x ∈ l) :
    occursIn x (l.foldl (fun b s => b ++ sep ++ s) acc) := by
  induction l generalizing acc with
  | nil =>
    rcases h with h | h
    · exact h
    · cases h
  | cons y l ih =>
    rw [List.foldl_cons]
    apply ih
    rcases h with h | h
    · exact Or.inl (occursIn_append_left _ (occursIn_append_left _ h))
    · rcases List.mem_cons.1 h with rfl | h
      · exact Or.inl (occursIn_append_right _ (occursIn_refl _))
      · exact Or.inr h

theorem occursIn_intercalate (sep : String) (l : List String) (x : String) (h : x ∈ l) :
    occursIn x (sep.intercalate l) := by
  cases l with
  | nil => cases h
  | cons a l =>
    rw [← Join_eq_intercalate]
    unfold strings.Join
    apply occursIn_foldl
    rcases List.mem_cons.1 h with rfl | h
    · exact Or.inl (occursIn_refl _)
    · exact Or.inr h

theorem occursIn_unionText (distinct : Bool) (projections branches : List String)
    (groupByColumns : List String) (limit offset : Int) (b : String) (h : b ∈ branches) :
    occursIn b (unionText distinct projections branches groupByColumns limit offset) := by
  unfold unionText
  have hb : occursIn b ((if distinct then "\nUNION\n" else "\nUNION ALL\n").intercalate
      (branches.map (fun b => "(" ++ b ++ ")"))) := by
    apply occursIn_trans _ (occursIn_intercalate _ _ ("(" ++ b ++ ")")
      (List.mem_map.2 ⟨b, h, rfl⟩))
    exact occursIn_append_left _ (occursIn_append_right _ (occursIn_refl _))
  simp only
  apply occursIn_append_left
  apply occursIn_append_left
  split
  · apply occursIn_append_left
    apply occursIn_append_left
    apply occursIn_append_right
    exact hb
  · exact hb

theorem NestedIn.trans {x y z : AndOrExpression} (h1 : NestedIn x y) (h2 : NestedIn y z) :
    NestedIn x z := by
  induction h2 with
  | self => exact h1
  | left p q _ ih => exact NestedIn.left p q ih
  | right p q _ ih => exact NestedIn.right p q ih

theorem IsConjunction.of_nestedIn {x y : AndOrExpression} (h : NestedIn x y)
    (hy : IsConjunction y) : IsConjunction x := by
  induction h with
  | self => exact hy
  | left p q _ ih =>
    cases hy with
    | pair _ _ hp hq => exact ih hp
  | right p q _ ih =>
    cases hy with
    | pair _ _ hp hq => exact ih hq

theorem render_pair (p q : AndOrExpression) (hp : render p ≠ "") (hq : render q ≠ "") :
    render (AndOrExpression.mk true [p, q] "") =
      "(" ++ render p ++ " AND " ++ render q ++ ")" := by
  simp [render, render.children, hp, hq, String.intercalate, String.intercalate.go,
    String.append_assoc]

theorem IsConjunction.render_ne_empty {y : AndOrExpression} (hy : IsConjunction y) :
    render y ≠ "" := by
  induction hy with
  | leaf and children expression h =>
    have hl : render (AndOrExpression.mk and children expression) = expression := by
      simp [render, h]
    simp [render, render.children, hl, h]
  | pair a b _ _ iha ihb =>
    rw [render_pair a b iha ihb]
    exact paren_ne_empty _

theorem unwind_andFold_nested (cs : List AndOrExpression) (hcs : ∀ c ∈ cs, unwind c ≠ [])
    (exprs : List AndOrExpression) (hacc : exprs ≠ []) :
    (∀ a ∈ exprs, ∃ y ∈ unwind.andFold cs exprs, NestedIn a y) ∧
      ∀ c ∈ cs, ∀ x ∈ unwind c, ∃ y ∈ unwind.andFold cs exprs, NestedIn x y := by
  induction cs generalizing exprs with
  | nil =>
    refine ⟨fun a ha => ⟨a, by simpa [unwind.andFold] using ha, NestedIn.self⟩, ?_⟩
    intro c hc; cases hc
  | cons c rest ih =>
    have hc := hcs c (List.mem_cons_self _ _)
    have hemp : exprs.isEmpty = false := by cases exprs <;> simp_all
    rw [unwind.andFold, hemp]
    simp only [Bool.false_eq_true, if_false]
    obtain ⟨h1, h2⟩ := ih (fun d hd => hcs d (List.mem_cons_of_mem _ hd)) _
      (pairs_ne_nil hacc hc)
    obtain ⟨a0, ha0⟩ := List.exists_mem_of_ne_nil _ hacc
    obtain ⟨q0, hq0⟩ := List.exists_mem_of_ne_nil _ hc
    constructor
    · intro a ha
      obtain ⟨y, hy, hn⟩ := h1 _ (mem_pairs.2 ⟨a, ha, q0, hq0, rfl⟩)
      exact ⟨y, hy, NestedIn.trans (NestedIn.left a q0 NestedIn.self) hn⟩
    · intro d hd x hx
      rcases List.mem_cons.1 hd with rfl | hd
      · obtain ⟨y, hy, hn⟩ := h1 _ (mem_pairs.2 ⟨a0, ha0, x, hx, rfl⟩)
        exact ⟨y, hy, NestedIn.trans (NestedIn.right a0 x NestedIn.self) hn⟩
      · exact h2 d hd x hx

theorem unwind_and_nested (cs : List AndOrExpression) (hcs : ∀ c ∈ cs, noEmptyNode c = true) :
    ∀ c ∈ cs, ∀ x ∈ unwind c, ∃ y ∈ unwind (AndOrExpression.mk true cs ""), NestedIn x y := by
  have hne : ∀ c ∈ cs, unwind c ≠ [] := fun c hc => (unwind_holds c (hcs c hc)).1
  cases cs with
  | nil => intro c hc; cases hc
  | cons c0 rest =>
    have hunwind : unwind (AndOrExpression.mk true (c0 :: rest) "") =
        unwind.andFold rest (unwind c0) := by
      simp [unwind, unwind.andFold]
    rw [hunwind]
    obtain ⟨h1, h2⟩ := unwind_andFold_nested rest
      (fun d hd => hne d (List.mem_cons_of_mem _ hd)) _ (hne c0 (List.mem_cons_self _ _))
    intro c hc x hx
    rcases List.mem_cons.1 hc with rfl | hc
    · exact h1 x hx
    · exact h2 c hc x hx

/-! ### Helper lemmas: the tree of `Translate` has no empty node -/

theorem append_ne_empty_right (a b : String) (h : b ≠ "") : a ++ b ≠ "" := by
  intro hab
  have hlen := congrArg String.length hab
  have hb : b.length ≠ 0 := by
    intro h0
    apply h
    apply String.ext
    exact List.length_eq_zero.1 h0
  have h2 : "".length = 0 := by decide
  simp only [String.length_append] at hlen
  omega

theorem append_ne_empty_left (a b : String) (h : a ≠ "") : a ++ b ≠ "" := by
  intro hab
  have hlen := congrArg String.length hab
  have ha : a.length ≠ 0 := by
    intro h0
    apply h
    apply String.ext
    exact List.length_eq_zero.1 h0
  have h2 : "".length = 0 := by decide
  simp only [String.length_append] at hlen
  omega

theorem noEmptyNode_leaf (and : Bool) (cs : List AndOrExpression) (e : String) (h : e ≠ "") :
    noEmptyNode (AndOrExpression.mk and cs e) = true :=
  (noEmptyNode_node and cs e).2 (Or.inl h)

theorem labelConstraint_noEmptyNode (alias_ : String) (labels : List String) :
    ∀ t ∈ labelConstraint alias_ labels, noEmptyNode t = true := by
  unfold labelConstraint
  split
  · intro t ht; cases ht
  · rename_i hne
    intro t ht
    rw [List.mem_singleton] at ht
    subst ht
    refine (noEmptyNode_node _ _ _).2 (Or.inr ⟨by simpa using hne, ?_⟩)
    intro c hc
    obtain ⟨label, _, rfl⟩ := List.mem_map.1 hc
    exact noEmptyNode_leaf _ _ _ (append_ne_empty_right _ _ (by decide))

theorem Translate_out_noEmptyNode (alias_ : String) (r : QueryRelation) :
    noEmptyNode (Translate.out alias_ r) = true := by
  refine (noEmptyNode_node _ _ _).2 (Or.inr ⟨by simp, ?_⟩)
  intro c hc
  simp only [List.mem_cons, List.mem_singleton, List.not_mem_nil, or_false] at hc
  rcases hc with rfl | rfl <;>
    exact noEmptyNode_leaf _ _ _ (append_ne_empty_right _ _ (by decide))

theorem Translate_in_noEmptyNode (alias_ : String) (r : QueryRelation) :
    noEmptyNode (Translate.in alias_ r) = true := by
  refine (noEmptyNode_node _ _ _).2 (Or.inr ⟨by simp, ?_⟩)
  intro c hc
  simp only [List.mem_cons, List.mem_singleton, List.not_mem_nil, or_false] at hc
  rcases hc with rfl | rfl <;>
    exact noEmptyNode_leaf _ _ _ (append_ne_empty_right _ _ (by decide))

theorem directionConstraint_noEmptyNode (alias_ : String) (r : QueryRelation) (b : Bool) :
    noEmptyNode (directionConstraint alias_ r b) = true := by
  unfold directionConstraint
  cases r.Direction
  · exact Translate_in_noEmptyNode _ _
  · exact Translate_out_noEmptyNode _ _
  · cases b
    · refine (noEmptyNode_node _ _ _).2 (Or.inr ⟨by simp, ?_⟩)
      intro c hc
      simp only [List.mem_cons, List.mem_singleton, List.not_mem_nil, or_false] at hc
      rcases hc with rfl | rfl
      · exact Translate_out_noEmptyNode _ _
      · exact Translate_in_noEmptyNode _ _
    · exact Translate_out_noEmptyNode _ _

theorem nodeConstraints_noEmptyNode (i : Nat) (ns : List QueryNode) :
    ∀ t ∈ nodeConstraints i ns, noEmptyNode t = true := by
  induction ns generalizing i with
  | nil => intro t ht; cases ht
  | cons n rest ih =>
    intro t ht
    rw [nodeConstraints, List.mem_append] at ht
    rcases ht with ht | ht
    · exact labelConstraint_noEmptyNode _ _ t ht
    · exact ih _ t ht

theorem relationConstraints_noEmptyNode (i : Nat) (rs : List QueryRelation)
    (oneDirection : List Bool) :
    ∀ t ∈ relationConstraints i rs oneDirection, noEmptyNode t = true := by
  induction rs generalizing i oneDirection with
  | nil => intro t ht; cases ht
  | cons r rest ih =>
    intro t ht
    rw [relationConstraints, List.mem_append, List.mem_append, List.mem_singleton] at ht
    rcases ht with (ht | rfl) | ht
    · exact labelConstraint_noEmptyNode _ _ t ht
    · exact directionConstraint_noEmptyNode _ _ _
    · exact ih _ _ t ht

theorem whereTree_children_noEmptyNode (graph : QueryGraph) (oneDirection : List Bool)
    (filterChildren : List AndOrExpression)
    (hfilter : ∀ leaf ∈ filterChildren, leaf.Expression ≠ "") :
    ∀ t ∈ (whereTree graph oneDirection filterChildren).Children, noEmptyNode t = true := by
  intro t ht
  simp only [whereTree, List.mem_append] at ht
  rcases ht with (ht | ht) | ht
  · exact nodeConstraints_noEmptyNode _ _ t ht
  · exact relationConstraints_noEmptyNode _ _ _ t ht
  · split at ht
    · rename_i hlen
      rw [List.mem_singleton] at ht
      subst ht
      refine (noEmptyNode_node _ _ _).2 (Or.inr ⟨?_, ?_⟩)
      · intro hnil; rw [hnil] at hlen; simp at hlen
      · intro leaf hleaf
        obtain ⟨a, cs, e⟩ := leaf
        exact noEmptyNode_leaf a cs e (hfilter _ hleaf)
    · cases ht

theorem forall₂_getElem? {α β : Type} {P : α → β → Prop} {l₁ : List α} {l₂ : List β}
    (h : List.Forall₂ P l₁ l₂) (j : Nat) (a : α) (ha : l₁[j]? = some a) :
    ∃ b, l₂[j]? = some b ∧ P a b := by
  induction h generalizing j with
  | nil => simp at ha
  | cons hab _ ih =>
    cases j with
    | zero =>
      simp only [List.getElem?_cons_zero, Option.some.injEq] at ha
      subst ha
      exact ⟨_, by simp, hab⟩
    | succ j =>
      simp only [List.getElem?_cons_succ] at ha
      obtain ⟨b, hb, hp⟩ := ih j ha
      exact ⟨b, by simpa using hb, hp⟩

/-! ### Helper lemmas: the number of conjunctions of an And node -/

theorem pairs_length (a b : List AndOrExpression) :
    (a.flatMap (fun p => b.map (fun q => AndOrExpression.mk true [p, q] ""))).length =
      a.length * b.length := by
  induction a with
  | nil => simp
  | cons p a ih =>
    rw [List.flatMap_cons, List.length_append, ih, List.length_map, List.length_cons]
    ring

theorem unwind_andFold_length (cs : List AndOrExpression) (hcs : ∀ c ∈ cs, unwind c ≠ [])
    (exprs : List AndOrExpression) (hacc : exprs ≠ []) :
    (unwind.andFold cs exprs).length =
      exprs.length * (cs.map (fun c => (unwind c).length)).prod := by
  induction cs generalizing exprs with
  | nil => simp [unwind.andFold]
  | cons c rest ih =>
    have hc := hcs c (List.mem_cons_self _ _)
    have hemp : exprs.isEmpty = false := by cases exprs <;> simp_all
    rw [unwind.andFold, hemp]
    simp only [Bool.false_eq_true, if_false]
    rw [ih (fun d hd => hcs d (List.mem_cons_of_mem _ hd)) _ (pairs_ne_nil hacc hc),
      pairs_length, List.map_cons, List.prod_cons, Nat.mul_assoc]

theorem unwind_and_length (cs : List AndOrExpression) (hne : cs ≠ [])
    (hcs : ∀ c ∈ cs, noEmptyNode c = true) :
    (unwind (AndOrExpression.mk true cs "")).length =
      (cs.map (fun c => (unwind c).length)).prod := by
  have hnonempty : ∀ c ∈ cs, unwind c ≠ [] := fun c hc => (unwind_holds c (hcs c hc)).1
  cases cs with
  | nil => exact absurd rfl hne
  | cons c0 rest =>
    have hunwind : unwind (AndOrExpression.mk true (c0 :: rest) "") =
        unwind.andFold rest (unwind c0) := by
      simp [unwind, unwind.andFold]
    rw [hunwind, unwind_andFold_length rest
      (fun d hd => hnonempty d (List.mem_cons_of_mem _ hd)) _
      (hnonempty c0 (List.mem_cons_self _ _)), List.map_cons, List.prod_cons]

theorem render_direction (f t : String) (hf : f ≠ "") (ht : t ≠ "") :
    render (AndOrExpression.mk true
        [AndOrExpression.mk true [AndOrExpression.mk false [] f] "",
         AndOrExpression.mk true [AndOrExpression.mk false [] t] ""] "") =
      "(" ++ f ++ " AND " ++ t ++ ")" := by
  have h1 : render (AndOrExpression.mk true [AndOrExpression.mk false [] f] "") = f := by
    simp [render, render.children, hf]
  have h2 : render (AndOrExpression.mk true [AndOrExpression.mk false [] t] "") = t := by
    simp [render, render.children, ht]
  rw [render_pair _ _ (by rw [h1]; exact hf) (by rw [h2]; exact ht), h1, h2]

/-! ### `Translate`: undirected relations -/

set_option maxRecDepth 100000 in
/-- C7 (the code at the failing input): for `MATCH (a)-[r]-(b) WHERE r.type = 'owns' RETURN a,
b` the only relation is undirected, its endpoints `a0` and `a1` carry no label and the WHERE
clause refers to `r` alone. `FindVariable` gives `r` the relation index 0, which the code puts
into `constrainedNodes` and then compares with the node indices of the endpoints: `a0` counts as
constrained, the single-direction test fails, and the query is translated with both directions
(with an empty `constrainedNodes` the test succeeds). -/
theorem Translate_relation_variable_constrains_node :
    Translate.queryMatches specCollaborators
        scenarioRelationWhere.QuerySinglePartQuery.QueryMatches
        NewSQLQueryTranslator.QueryGraph [] [] =
      .ok (graphRelationWhere, [0], [AndOrExpression.mk false [] "r0.type = 'owns'"]) ∧
    graphRelationWhere.FindVariable "r" = .ok ⟨.RelationType, 0⟩ ∧
    Translate.oneDirectionOptimization specCollaborators graphRelationWhere [0]
        ⟨[], 0, 1, .Either⟩ = .ok false ∧
    Translate.oneDirectionOptimization specCollaborators graphRelationWhere []
        ⟨[], 0, 1, .Either⟩ = .ok true ∧
    Translate specCollaborators NewSQLQueryTranslator scenarioRelationWhere =
      .ok translationRelationWhere :=
  ⟨rfl, rfl, rfl, rfl, rfl⟩

/-! ### `Translate`: SKIP and LIMIT -/

set_option maxRecDepth 100000 in
/-- C10 (the code at the failing input): `MATCH (n:Person) RETURN n SKIP 10 LIMIT 0` has both a
SKIP and a LIMIT, the limit visitor returns 0, and `Translate` fails with `SKIP must be used in
combination with limit`, as it does for `MATCH (n:Person) RETURN n SKIP 10`, which has no
LIMIT. -/
theorem Translate_skip_limit_zero :
    scenarioSkipLimitZero.QuerySinglePartQuery.ProjectionBody.Limit =
      some (.IntegerLiteral 0) ∧
    scenarioSkipLimitZero.QuerySinglePartQuery.ProjectionBody.Skip =
      some (.IntegerLiteral 10) ∧
    Translate.limit specCollaborators scenarioSkipLimitZero.QuerySinglePartQuery.ProjectionBody =
      .ok 0 ∧
    Translate specCollaborators NewSQLQueryTranslator scenarioSkipLimitZero =
      .error (.error "SKIP must be used in combination with limit") ∧
    scenarioS7.QuerySinglePartQuery.ProjectionBody.Limit = none ∧
    Translate specCollaborators NewSQLQueryTranslator scenarioS7 =
      .error (.error "SKIP must be used in combination with limit") :=
  ⟨rfl, rfl, rfl, rfl, rfl, rfl⟩

/-! ### Helper lemmas: where a text can occur in the text of a SELECT -/

theorem infix_sep {w a b : List Char} {c : Char} (hc : c ∉ w) (h : w <:+: a ++ c :: b) :
    w <:+: a ∨ w <:+: b := by
  obtain ⟨s, t, hst⟩ := h
  rcases List.append_eq_append_iff.1 hst with ⟨a', ha, _⟩ | ⟨c', hc', hcb⟩
  · exact Or.inl ⟨s, a', ha.symm⟩
  · cases c' with
    | nil =>
      simp only [List.append_nil] at hc'
      exact Or.inl ⟨s, [], by simp [hc']⟩
    | cons x c'' =>
      simp only [List.cons_append, List.cons.injEq] at hcb
      obtain ⟨rfl, hb⟩ := hcb
      rcases List.append_eq_append_iff.1 hc' with ⟨a', _, hw⟩ | ⟨d, hs, hd⟩
      · exact absurd (by rw [hw]; simp) hc
      · cases d with
        | nil =>
          simp only [List.nil_append] at hd
          exact absurd (by rw [← hd]; simp) hc
        | cons y d' =>
          simp only [List.cons_append, List.cons.injEq] at hd
          exact Or.inr ⟨d', t, by rw [hb, hd.2]⟩

theorem infix_literal {w a b mid : List Char} {c1 c2 : Char} (h1 : c1 ∉ w) (h2 : c2 ∉ w)
    (hmid : ¬ w <:+: mid) (h : w <:+: a ++ c1 :: (mid ++ c2 :: b)) :
    w <:+: a ∨ w <:+: b := by
  rcases infix_sep h1 h with h | h
  · exact Or.inl h
  · rcases infix_sep h2 h with h | h
    · exact absurd h hmid
    · exact Or.inr h

theorem infix_skip {w d b : List Char} (hd : ∀ c ∈ d, c ∉ w) (hw : w ≠ [])
    (h : w <:+: d ++ b) : w <:+: b := by
  induction d with
  | nil => simpa using h
  | cons c d ih =>
    have h' : w <:+: [] ++ c :: (d ++ b) := by simpa using h
    rcases infix_sep (hd c (List.mem_cons_self _ _)) h' with h0 | h1
    · exact absurd (List.eq_nil_of_infix_nil h0) hw
    · exact ih (fun x hx => hd x (List.mem_cons_of_mem _ hx)) h1

theorem digitChar_not_union (k : Nat) : Nat.digitChar k ∉ "UNION".data := by
  by_cases hk : k < 16
  · have hsmall : ∀ j, j < 16 → Nat.digitChar j ∉ "UNION".data := by decide
    exact hsmall k hk
  · have hstar : Nat.digitChar k = '*' := by
      unfold Nat.digitChar
      repeat rw [if_neg (by omega)]
    rw [hstar]
    decide

theorem toDigitsCore_not_union (fuel n : Nat) (ds : List Char)
    (hds : ∀ c ∈ ds, c ∉ "UNION".data) :
    ∀ c ∈ Nat.toDigitsCore 10 fuel n ds, c ∉ "UNION".data := by
  induction fuel generalizing n ds with
  | zero => simpa [Nat.toDigitsCore] using hds
  | succ fuel ih =>
    have hcons : ∀ c ∈ Nat.digitChar (n % 10) :: ds, c ∉ "UNION".data := by
      intro c hc
      rcases List.mem_cons.1 hc with rfl | hc
      · exact digitChar_not_union _
      · exact hds c hc
    rw [Nat.toDigitsCore]
    simp only
    split
    · exact hcons
    · exact ih _ _ hcons

theorem toString_int_not_union (n : Int) : ∀ c ∈ (toString n).data, c ∉ "UNION".data := by
  have hnat : ∀ m : Nat, ∀ c ∈ (toString m).data, c ∉ "UNION".data := by
    intro m
    show ∀ c ∈ (Nat.repr m).data, c ∉ "UNION".data
    unfold Nat.repr Nat.toDigits
    exact toDigitsCore_not_union _ _ _ (by intro c hc; cases hc)
  cases n with
  | ofNat m => exact hnat m
  | negSucc m =>
    show ∀ c ∈ ("-" ++ toString (Nat.succ m)).data, c ∉ "UNION".data
    intro c hc
    rw [String.data_append, List.mem_append] at hc
    rcases hc with hc | hc
    · have : c = '-' := by simpa using hc
      subst this
      decide
    · exact hnat _ c hc

theorem foldl_join_prefix (sep p : String) (l : List String) (acc : String) :
    l.foldl (fun b s => b ++ sep ++ s) (p ++ acc) =
      p ++ l.foldl (fun b s => b ++ sep ++ s) acc := by
  induction l generalizing acc with
  | nil => rfl
  | cons x l ih =>
    rw [List.foldl_cons, List.foldl_cons, ← ih]
    simp only [String.append_assoc]

theorem intercalate_cons_cons (sep a b : String) (l : List String) :
    sep.intercalate (a :: b :: l) = a ++ sep ++ sep.intercalate (b :: l) := by
  rw [← Join_eq_intercalate, ← Join_eq_intercalate]
  unfold strings.Join
  simp only [List.foldl_cons]
  rw [String.append_assoc, String.append_assoc, foldl_join_prefix, foldl_join_prefix]

theorem infix_intercalate {w : List Char} (c1 c2 : Char) (mid : List Char) (sep : String)
    (hsep : sep.data = c1 :: (mid ++ [c2])) (h1 : c1 ∉ w) (h2 : c2 ∉ w)
    (hmid : ¬ w <:+: mid) (hw : w ≠ []) (l : List String)
    (h : w <:+: (sep.intercalate l).data) : ∃ x ∈ l, w <:+: x.data := by
  induction l with
  | nil => exact absurd (List.eq_nil_of_infix_nil h) hw
  | cons a l ih =>
    cases l with
    | nil => exact ⟨a, List.mem_cons_self _ _, h⟩
    | cons b l =>
      rw [intercalate_cons_cons, String.data_append, String.data_append, hsep] at h
      have h' : w <:+: a.data ++ c1 :: (mid ++ c2 :: (sep.intercalate (b :: l)).data) := by
        simpa using h
      rcases infix_literal h1 h2 hmid h' with h | h
      · exact ⟨a, List.mem_cons_self _ _, h⟩
      · obtain ⟨x, hx, hxw⟩ := ih h
        exact ⟨x, List.mem_cons_of_mem _ hx, hxw⟩

theorem render_children_mem (cs : List AndOrExpression) :
    ∀ p ∈ render.children cs, ∃ c ∈ cs, p = render c := by
  induction cs with
  | nil => intro p hp; cases hp
  | cons c rest ih =>
    intro p hp
    rw [render.children] at hp
    split at hp
    · rcases List.mem_cons.1 hp with rfl | hp
      · exact ⟨c, List.mem_cons_self _ _, rfl⟩
      · obtain ⟨d, hd, hpd⟩ := ih p hp
        exact ⟨d, List.mem_cons_of_mem _ hd, hpd⟩
    · obtain ⟨d, hd, hpd⟩ := ih p hp
      exact ⟨d, List.mem_cons_of_mem _ hd, hpd⟩

theorem leaves_children_mem (cs : List AndOrExpression) (e : String) :
    e ∈ leaves.children cs ↔ ∃ c ∈ cs, e ∈ leaves c := by
  induction cs with
  | nil => simp [leaves.children]
  | cons c rest ih => simp [leaves.children, ih]

/-- The text `UNION` occurs in a rendering only inside a leaf expression of the tree: neither
the parentheses nor ` AND ` and ` OR ` contain it. -/
theorem union_in_render (t : AndOrExpression) (h : occursIn "UNION" (render t)) :
    ∃ e ∈ leaves t, occursIn "UNION" e := by
  induction t using AndOrExpression.induction with
  | step and children expression ih =>
    rw [render] at h
    rw [leaves]
    by_cases he : expression = ""
    · simp only [he, ne_eq, not_true_eq_false, if_false] at h ⊢
      have hchild : ∀ p ∈ render.children children, occursIn "UNION" p →
          ∃ e ∈ leaves.children children, occursIn "UNION" e := by
        intro p hp hocc
        obtain ⟨c, hc, rfl⟩ := render_children_mem children p hp
        obtain ⟨e, he', hoe⟩ := ih c hc hocc
        exact ⟨e, (leaves_children_mem children e).2 ⟨c, hc, he'⟩, hoe⟩
      rcases hparts : render.children children with _ | ⟨p, _ | ⟨q, ps⟩⟩
      · rw [hparts] at h
        exact absurd (List.eq_nil_of_infix_nil h) (by decide)
      · rw [hparts] at h
        exact hchild p (by rw [hparts]; simp) h
      · rw [hparts] at h
        simp only at h
        unfold occursIn at h
        rw [String.data_append, String.data_append] at h
        have h' : "UNION".data <:+:
            [] ++ '(' :: (((if and = true then " AND " else " OR ").intercalate
              (p :: q :: ps)).data ++ ')' :: []) := h
        rcases infix_sep (by decide) h' with h0 | h1
        · exact absurd (List.eq_nil_of_infix_nil h0) (by decide)
        · rcases infix_sep (by decide) h1 with h2 | h3
          · have : ∃ x ∈ p :: q :: ps, "UNION".data <:+: x.data := by
              cases and
              · exact infix_intercalate ' ' ' ' "OR".data " OR " rfl
                  (by decide) (by decide) (by decide) (by decide) _ h2
              · exact infix_intercalate ' ' ' ' "AND".data " AND "
                  rfl (by decide) (by decide) (by decide) (by decide) _ h2
            obtain ⟨x, hx, hox⟩ := this
            exact hchild x (by rw [hparts]; exact hx) hox
          · exact absurd (List.eq_nil_of_infix_nil h3) (by decide)
    · simp only [ne_eq, he, not_false_eq_true, if_true] at h ⊢
      exact ⟨expression, by simp, h⟩

theorem union_not_in_empty : ¬ occursIn "UNION" "" := by decide

theorem union_peel (X lit R : String) (c1 c2 : Char) (mid : List Char)
    (hlit : lit.data = c1 :: (mid ++ [c2])) (h1 : c1 ∉ "UNION".data) (h2 : c2 ∉ "UNION".data)
    (hmid : ¬ "UNION".data <:+: mid) (h : occursIn "UNION" (X ++ (lit ++ R))) :
    occursIn "UNION" X ∨ occursIn "UNION" R := by
  unfold occursIn at h ⊢
  rw [String.data_append, String.data_append, hlit] at h
  have h' : "UNION".data <:+: X.data ++ c1 :: (mid ++ c2 :: R.data) := by simpa using h
  exact infix_literal h1 h2 hmid h'

theorem union_peel_head (lit R : String) (c1 c2 : Char) (mid : List Char)
    (hlit : lit.data = c1 :: (mid ++ [c2])) (h1 : c1 ∉ "UNION".data) (h2 : c2 ∉ "UNION".data)
    (hmid : ¬ "UNION".data <:+: mid) (h : occursIn "UNION" (lit ++ R)) :
    occursIn "UNION" R := by
  have h' : occursIn "UNION" ("" ++ (lit ++ R)) := by rwa [String.empty_append]
  rcases union_peel "" lit R c1 c2 mid hlit h1 h2 hmid h' with h0 | hR
  · exact absurd h0 union_not_in_empty
  · exact hR

theorem union_not_in_int (n : Int) (R : String) (h : occursIn "UNION" (toString n ++ R)) :
    occursIn "UNION" R := by
  unfold occursIn at h ⊢
  rw [String.data_append] at h
  exact infix_skip (toString_int_not_union n) (by decide) h

theorem union_tail_offset (X : String) (offset : Int)
    (h : occursIn "UNION"
      (X ++ (if offset > 0 then "\nOFFSET " ++ toString offset else ""))) :
    occursIn "UNION" X := by
  split at h
  · rcases union_peel X "\nOFFSET " (toString offset) '\n' ' ' "OFFSET".data rfl (by decide)
      (by decide) (by decide) h with hX | hO
    · exact hX
    · have := union_not_in_int offset "" (by rwa [String.append_empty])
      exact absurd this union_not_in_empty
  · rwa [String.append_empty] at h

theorem union_tail_limit (X : String) (limit offset : Int)
    (h : occursIn "UNION"
      (X ++ ((if limit > 0 then "\nLIMIT " ++ toString limit else "")
        ++ (if offset > 0 then "\nOFFSET " ++ toString offset else "")))) :
    occursIn "UNION" X := by
  split at h
  · rw [String.append_assoc] at h
    rcases union_peel X "\nLIMIT " _ '\n' ' ' "LIMIT".data rfl (by decide) (by decide)
      (by decide) h with hX | hL
    · exact hX
    · have := union_tail_offset _ _ hL
      have := union_not_in_int limit "" (by rwa [String.append_empty])
      exact absurd this union_not_in_empty
  · rw [String.empty_append] at h
    exact union_tail_offset X offset h

theorem union_in_commas (l : List String) (h : occursIn "UNION" (", ".intercalate l)) :
    ∃ x ∈ l, occursIn "UNION" x :=
  infix_intercalate ',' ' ' [] ", " rfl (by decide) (by decide)
    (by decide) (by decide) l h

/-- The text `UNION` occurs in the text of a single SELECT only inside a projection, a table,
the WHERE text or a GROUP BY column: none of the words the builder adds contains it. -/
theorem union_in_selectText (distinct : Bool) (projections fromTables : List String)
    (whereText : String) (groupByColumns : List String) (limit offset : Int)
    (h : occursIn "UNION"
      (selectText distinct projections fromTables whereText groupByColumns limit offset)) :
    (∃ x ∈ projections, occursIn "UNION" x) ∨ (∃ x ∈ fromTables, occursIn "UNION" x) ∨
      occursIn "UNION" whereText ∨ ∃ x ∈ groupByColumns, occursIn "UNION" x := by
  unfold selectText at h
  simp only [String.append_assoc] at h
  have h1 := union_peel_head "SELECT " _ 'S' ' ' "ELECT".data rfl (by decide) (by decide)
    (by decide) h
  have h2 : occursIn "UNION" (", ".intercalate projections ++ (" FROM " ++
      (", ".intercalate fromTables ++
        ((if whereText ≠ "" then "\nWHERE " ++ whereText else "") ++
          ((if groupByColumns ≠ [] then "\nGROUP BY " ++ ", ".intercalate groupByColumns
            else "") ++
            ((if limit > 0 then "\nLIMIT " ++ toString limit else "") ++
              (if offset > 0 then "\nOFFSET " ++ toString offset else ""))))))) := by
    cases distinct
    · simpa using h1
    · simp only [if_true] at h1
      exact union_peel_head "DISTINCT " _ 'D' ' ' "ISTINCT".data rfl (by decide) (by decide)
        (by decide) h1
  rcases union_peel _ " FROM " _ ' ' ' ' "FROM".data rfl (by decide) (by decide) (by decide) h2
    with hP | h3
  · exact Or.inl (union_in_commas _ hP)
  · refine Or.inr ?_
    -- the tail after the tables
    have htail : ∀ X : String, occursIn "UNION" (X ++
        ((if groupByColumns ≠ [] then "\nGROUP BY " ++ ", ".intercalate groupByColumns
          else "") ++
          ((if limit > 0 then "\nLIMIT " ++ toString limit else "") ++
            (if offset > 0 then "\nOFFSET " ++ toString offset else "")))) →
        occursIn "UNION" X ∨ ∃ x ∈ groupByColumns, occursIn "UNION" x := by
      intro X hX
      split at hX
      · rw [String.append_assoc] at hX
        rcases union_peel X "\nGROUP BY " _ '\n' ' ' "GROUP BY".data rfl (by decide)
          (by decide) (by decide) hX with hX | hG
        · exact Or.inl hX
        · exact Or.inr (union_in_commas _ (union_tail_limit _ _ _ hG))
      · rw [String.empty_append] at hX
        exact Or.inl (union_tail_limit _ _ _ hX)
    split at h3
    · rw [String.append_assoc] at h3
      rcases union_peel _ "\nWHERE " _ '\n' ' ' "WHERE".data rfl (by decide) (by decide)
        (by decide) h3 with hF | hW
      · exact Or.inl (union_in_commas _ hF)
      · rcases htail _ hW with hW | hG
        · exact Or.inr (Or.inl hW)
        · exact Or.inr (Or.inr hG)
    · rw [String.empty_append] at h3
      rcases htail _ h3 with hF | hG
      · exact Or.inl (union_in_commas _ hF)
      · exact Or.inr (Or.inr hG)

theorem unwind_andFold_leaves (P : String → Prop) (cs : List AndOrExpression)
    (hcs : ∀ c ∈ cs, ∀ y ∈ unwind c, ∀ e ∈ leaves y, P e) (exprs : List AndOrExpression)
    (hacc : ∀ a ∈ exprs, ∀ e ∈ leaves a, P e) :
    ∀ y ∈ unwind.andFold cs exprs, ∀ e ∈ leaves y, P e := by
  induction cs generalizing exprs with
  | nil => simpa [unwind.andFold] using hacc
  | cons c rest ih =>
    rw [unwind.andFold]
    apply ih (fun d hd => hcs d (List.mem_cons_of_mem _ hd))
    have hc := hcs c (List.mem_cons_self _ _)
    intro x hx
    split at hx
    · exact hc x hx
    · obtain ⟨p, hp, q, hq, rfl⟩ := mem_pairs.1 hx
      intro e he
      rw [leaves_pair, List.mem_append] at he
      rcases he with he | he
      · exact hacc p hp e he
      · exact hc q hq e he

theorem unwind_leaves (t : AndOrExpression) : ∀ y ∈ unwind t, ∀ e ∈ leaves y, e ∈ leaves t := by
  induction t using AndOrExpression.induction with
  | step and children expression ih =>
    rw [unwind, leaves]
    by_cases he : expression = ""
    · cases and
      · simp only [he, ne_eq, not_true_eq_false, if_false, unwind_orConcat_eq,
          Bool.false_eq_true]
        intro y hy e hey
        obtain ⟨c, hc, hyc⟩ := List.mem_flatMap.1 hy
        exact (leaves_children_mem children e).2 ⟨c, hc, ih c hc y hyc e hey⟩
      · simp only [he, ne_eq, not_true_eq_false, if_false, if_true]
        apply unwind_andFold_leaves (fun e => e ∈ leaves.children children) children
        · intro c hc y hy e hey
          exact (leaves_children_mem children e).2 ⟨c, hc, ih c hc y hy e hey⟩
        · intro a ha; cases ha
    · simp only [ne_eq, he, not_false_eq_true, if_true, List.mem_singleton]
      rintro y rfl e hey
      simpa [leaves, leaves.children, he] using hey

theorem index_mem (projections : List String) (i : Int) (x : String)
    (h : index projections i = .ok x) : x ∈ projections := by
  unfold index at h
  split at h
  · cases h
  · split at h
    · rename_i y hy
      injection h with h
      subst h
      exact List.getElem?_mem hy
    · cases h

theorem mapM_index_spec (projections : List String) (groupBy : List Int) (cols : List String)
    (h : groupBy.mapM (index projections) = .ok cols) :
    cols.length = groupBy.length ∧ ∀ x ∈ cols, x ∈ projections := by
  induction groupBy generalizing cols with
  | nil =>
    have : cols = [] := by
      have h' : (Except.ok [] : Except Failure (List String)) = .ok cols := h
      injection h' with h'
      exact h'.symm
    subst this
    exact ⟨rfl, by intro x hx; cases hx⟩
  | cons i rest ih =>
    rw [List.mapM_cons] at h
    cases hi : index projections i with
    | error e => rw [hi] at h; cases h
    | ok x =>
      cases hr : rest.mapM (index projections) with
      | error e => rw [hi, hr] at h; cases h
      | ok xs =>
        rw [hi, hr] at h
        have h' : (Except.ok (x :: xs) : Except Failure (List String)) = .ok cols := h
        injection h' with h'
        subst h'
        obtain ⟨hl, hm⟩ := ih xs hr
        refine ⟨by simp [hl], ?_⟩
        intro y hy
        rcases List.mem_cons.1 hy with rfl | hy
        · exact index_mem projections i _ hi
        · exact hm y hy

theorem buildSingleSQLSelect_ok_inv (distinct : Bool) (projections fromTables : List String)
    (whereExpressions : AndOrExpression) (groupBy : List Int) (limit offset : Int) (q : String)
    (h : buildSingleSQLSelect distinct projections fromTables whereExpressions groupBy limit
      offset = .ok q) :
    ∃ cols, (∀ x ∈ cols, x ∈ projections) ∧
      q = selectText distinct projections fromTables (render whereExpressions) cols limit
        offset := by
  cases hm : groupBy.mapM (index projections) with
  | error e =>
    exfalso
    unfold buildSingleSQLSelect at h
    rw [BuildAndOrExpression_ok, hm] at h
    have hpos : groupBy.length > 0 := by
      cases groupBy with
      | nil => cases hm
      | cons i rest => simp
    simp only [bind, Except.bind, pure, Except.pure, hpos, if_true] at h
    cases h
  | ok cols =>
    obtain ⟨hlen, hmem⟩ := mapM_index_spec projections groupBy cols hm
    refine ⟨cols, hmem, ?_⟩
    unfold buildSingleSQLSelect at h
    rw [BuildAndOrExpression_ok, hm] at h
    simp only [bind, Except.bind, pure, Except.pure, Join_eq_intercalate, fmtInt] at h
    have hg : (groupBy.length > 0) ↔ cols ≠ [] := by
      rw [← hlen]
      cases cols <;> simp
    unfold selectText
    by_cases hgb : cols = [] <;>
      by_cases hw : render whereExpressions = "" <;>
      by_cases hl : limit > 0 <;> by_cases ho : offset > 0 <;> cases distinct <;>
      simp only [hg, hgb, hw, hl, ho, if_true, if_false, ne_eq, not_true_eq_false,
        not_false_eq_true, String.append_assoc, String.empty_append, String.append_empty,
        Bool.false_eq_true, Except.ok.injEq] at h ⊢ <;>
      exact h.symm

/-! ### The SQL builder: the single SELECT -/

/-- C5: in `buildSQLSelect`, when `UnwindOrExpressions(where)` returns zero or one conjunction,
the result (value, or panic on a `groupBy` index out of range) is that of `buildSingleSQLSelect`
on the And node over the returned conjunctions, with the caller's `distinct`, `groupBy`, `limit`
and `offset` unchanged; when the `groupBy` indices are positions of `projections` it is the text
of one SELECT; and the builder adds no `UNION`: whenever `UNION` occurs in the output it occurs
in a projection, in a table or in a leaf expression of the WHERE tree. -/
theorem buildSQLSelect_single_format (distinct : Bool) (projections : List String)
    (projectionTypes : List Projection) (fromTables : List String)
    (whereExpressions : AndOrExpression) (groupBy : List Int) (limit offset : Int)
    (andExpressions : List AndOrExpression)
    (hunwind : UnwindOrExpressions whereExpressions = .ok andExpressions)
    (hfew : andExpressions.length ≤ 1) :
    buildSQLSelect distinct projections projectionTypes fromTables whereExpressions groupBy
        limit offset =
      buildSingleSQLSelect distinct projections fromTables
        (AndOrExpression.mk true andExpressions "") groupBy limit offset ∧
    ((∀ i ∈ groupBy, 0 ≤ i ∧ i < projections.length) →
      buildSQLSelect distinct projections projectionTypes fromTables whereExpressions groupBy
          limit offset =
        .ok (selectText distinct projections fromTables
          (render (AndOrExpression.mk true andExpressions ""))
          (groupBy.map (fun i => projections.getD i.toNat "")) limit offset)) ∧
    ∀ q, buildSQLSelect distinct projections projectionTypes fromTables whereExpressions
        groupBy limit offset = .ok q → occursIn "UNION" q →
      (∃ x ∈ projections, occursIn "UNION" x) ∨ (∃ x ∈ fromTables, occursIn "UNION" x) ∨
        ∃ e ∈ leaves whereExpressions, occursIn "UNION" e := by
  have hcs : andExpressions = unwind whereExpressions := by
    rw [UnwindOrExpressions_ok] at hunwind
    injection hunwind with hu
    exact hu.symm
  subst hcs
  have h1 := buildSQLSelect_single distinct projections projectionTypes fromTables
    whereExpressions groupBy limit offset hfew
  refine ⟨h1, fun h => ?_, fun q hq hocc => ?_⟩
  · rw [h1, buildSingleSQLSelect_ok distinct projections fromTables _ groupBy limit offset h]
    rfl
  · rw [h1] at hq
    obtain ⟨cols, hcols, rfl⟩ := buildSingleSQLSelect_ok_inv _ _ _ _ _ _ _ q hq
    rcases union_in_selectText _ _ _ _ _ _ _ hocc with hP | hF | hW | ⟨x, hx, hox⟩
    · exact Or.inl hP
    · exact Or.inr (Or.inl hF)
    · obtain ⟨e, he, hoe⟩ := union_in_render _ hW
      rw [leaves] at he
      simp only [ne_eq, not_true_eq_false, if_false] at he
      obtain ⟨y, hy, hey⟩ := (leaves_children_mem _ e).1 he
      exact Or.inr (Or.inr ⟨e, unwind_leaves whereExpressions y hy e hey, hoe⟩)
    · exact Or.inl ⟨x, hcols x hx, hox⟩

set_option maxRecDepth 100000 in
/-- C5, at the WHERE tree `And(A, Or(B))` with `distinct`, `groupBy = [1, 0]`, `limit = 5` and
`offset = 2`. -/
theorem buildSQLSelect_single_format_witness :
    UnwindOrExpressions
        (AndOrExpression.mk true
          [AndOrExpression.mk false [] "A",
           AndOrExpression.mk false [AndOrExpression.mk false [] "B"] ""] "") =
      .ok [AndOrExpression.mk true
            [AndOrExpression.mk true [AndOrExpression.mk false [] "A"] "",
             AndOrExpression.mk true [AndOrExpression.mk false [] "B"] ""] ""] ∧
    buildSQLSelect true ["a0.id", "a0.value"] [] ["assets a0"]
        (AndOrExpression.mk true
          [AndOrExpression.mk false [] "A",
           AndOrExpression.mk false [AndOrExpression.mk false [] "B"] ""] "")
        [1, 0] 5 2 =
      .ok ("SELECT DISTINCT a0.id, a0.value FROM assets a0\nWHERE (A AND B)"
        ++ "\nGROUP BY a0.value, a0.id\nLIMIT 5\nOFFSET 2") ∧
    ¬ occursIn "UNION" ("SELECT DISTINCT a0.id, a0.value FROM assets a0\nWHERE (A AND B)"
        ++ "\nGROUP BY a0.value, a0.id\nLIMIT 5\nOFFSET 2") :=
  ⟨rfl,
    ((buildSQLSelect_single_format true ["a0.id", "a0.value"] [] ["assets a0"]
      (AndOrExpression.mk true
        [AndOrExpression.mk false [] "A",
         AndOrExpression.mk false [AndOrExpression.mk false [] "B"] ""] "")
      [1, 0] 5 2 _ rfl (by decide)).2.1 (by decide)).trans rfl,
    by decide⟩

/-! ### Helper lemmas: the single-direction test -/

theorem Translate_nodesConstrained_eq (constrainedNodes : List Int) (r : QueryRelation) :
    Translate.nodesConstrained constrainedNodes r =
      constrainedNodes.any (fun idx => decide (idx = r.LeftIdx) || decide (idx = r.RightIdx)) := by
  unfold Translate.nodesConstrained
  have hgen : ∀ (l : List Int) (b : Bool),
      l.foldl (fun nodesConstrained idx =>
        let nodesConstrained := if idx = r.LeftIdx then true else nodesConstrained
        let nodesConstrained := if idx = r.RightIdx then true else nodesConstrained
        nodesConstrained) b =
      (b || l.any (fun idx => decide (idx = r.LeftIdx) || decide (idx = r.RightIdx))) := by
    intro l
    induction l with
    | nil => intro b; simp
    | cons x l ih =>
      intro b
      rw [List.foldl_cons, ih, List.any_cons]
      by_cases h1 : x = r.LeftIdx <;> by_cases h2 : x = r.RightIdx <;> simp [h1, h2]
  rw [hgen]
  simp

section SingleDirection

variable {N R E : Type}

/-- The single-direction test of `Translate` succeeds exactly when the graph has one relation,
no index kept in `constrainedNodes` equals the index of an endpoint, and `FindNode` finds both
endpoints without labels. -/
theorem Translate_oneDirectionOptimization_true (c : Collaborators N R E) (graph : QueryGraph)
    (constrainedNodes : List Int) (r : QueryRelation) :
    Translate.oneDirectionOptimization c graph constrainedNodes r = .ok true ↔
      graph.Relations.length = 1 ∧
      (∀ idx ∈ constrainedNodes, idx ≠ r.LeftIdx ∧ idx ≠ r.RightIdx) ∧
      ∃ n1 n2, c.FindNode graph r.LeftIdx = .ok n1 ∧ c.FindNode graph r.RightIdx = .ok n2 ∧
        n1.Labels = [] ∧ n2.Labels = [] := by
  unfold Translate.oneDirectionOptimization
  rw [Translate_nodesConstrained_eq]
  by_cases hlen : graph.Relations.length = 1
  · simp only [hlen, if_true, true_and, bind, Except.bind, pure, Except.pure]
    cases hany : constrainedNodes.any
        (fun idx => decide (idx = r.LeftIdx) || decide (idx = r.RightIdx))
    · have hall : ∀ idx ∈ constrainedNodes, idx ≠ r.LeftIdx ∧ idx ≠ r.RightIdx := by
        intro idx hidx
        have := List.any_eq_false.1 hany idx hidx
        simpa using this
      simp only [Bool.not_false, if_true]
      cases h1 : c.FindNode graph r.LeftIdx with
      | error e => simp
      | ok n1 =>
        cases h2 : c.FindNode graph r.RightIdx with
        | error e => simp
        | ok n2 =>
          simp only [Except.ok.injEq, exists_and_left, exists_eq_left']
          cases hl1 : n1.Labels <;> cases hl2 : n2.Labels <;>
            first
              | (simp; done)
              | (simp; exact hall)
    · have hex : ¬ ∀ idx ∈ constrainedNodes, idx ≠ r.LeftIdx ∧ idx ≠ r.RightIdx := by
        intro hall
        obtain ⟨idx, hidx, hp⟩ := List.any_eq_true.1 hany
        have := hall idx hidx
        simp [this.1, this.2] at hp
      simp [hex]
  · simp [hlen, pure, Except.pure]

end SingleDirection

/-! ### The expansion: idempotence, the recursion of the specification, totality -/

theorem unwind_of_isConjunction {y : AndOrExpression} (hy : IsConjunction y) :
    unwind y = [y] := by
  induction hy with
  | leaf and children expression h =>
    simp [unwind, unwind.andFold, h]
  | pair a b _ _ iha ihb =>
    simp [unwind, unwind.andFold, iha, ihb]

theorem flatMap_unwind_conjunctions (cs : List AndOrExpression)
    (h : ∀ c ∈ cs, IsConjunction c) : cs.flatMap unwind = cs := by
  induction cs with
  | nil => rfl
  | cons c rest ih =>
    rw [List.flatMap_cons, unwind_of_isConjunction (h c (List.mem_cons_self _ _)),
      ih (fun d hd => h d (List.mem_cons_of_mem _ hd))]
    rfl

/-- C15: for every boolean tree `t`, with `cs` the conjunctions `UnwindOrExpressions(t)`
returns, `UnwindOrExpressions` applied to the Or node over `cs` returns a list `cs'` with the
same number of conjunctions whose leaf sequences are, position by position, those of `cs`; the
two lists are in fact equal. -/
theorem unwind_idempotent (t : AndOrExpression) :
    ∃ cs cs', UnwindOrExpressions t = .ok cs ∧
      UnwindOrExpressions (AndOrExpression.mk false cs "") = .ok cs' ∧
      cs'.length = cs.length ∧ cs'.map leaves = cs.map leaves ∧ cs' = cs := by
  have h : unwind (AndOrExpression.mk false (unwind t) "") = unwind t := by
    rw [unwind]
    simp only [ne_eq, not_true_eq_false, if_false, Bool.false_eq_true, unwind_orConcat_eq]
    exact flatMap_unwind_conjunctions _ (unwind_isConjunction t)
  refine ⟨unwind t, unwind t, UnwindOrExpressions_ok t, ?_, rfl, rfl, rfl⟩
  rw [UnwindOrExpressions_ok, h]

theorem toDNF_orConcat_eq (cs : List AndOrExpression) :
    toDNF.orConcat cs = cs.flatMap toDNF := by
  induction cs with
  | nil => simp [toDNF.orConcat]
  | cons c rest ih => simp [toDNF.orConcat, ih, List.flatMap_cons]

theorem toDNF_andFold_eq (cs : List AndOrExpression) (accumulator : List (List String)) :
    toDNF.andFold cs accumulator =
      cs.foldl
        (fun acc child =>
          if acc.isEmpty then toDNF child
          else acc.flatMap (fun a => (toDNF child).map (fun d => a ++ d)))
        accumulator := by
  induction cs generalizing accumulator with
  | nil => simp [toDNF.andFold]
  | cons c rest ih => rw [toDNF.andFold, ih, List.foldl_cons]

theorem pairs_map_leaves (a b : List AndOrExpression) :
    (a.flatMap (fun p => b.map (fun q => AndOrExpression.mk true [p, q] ""))).map leaves =
      (a.map leaves).flatMap (fun x => (b.map leaves).map (fun d => x ++ d)) := by
  induction a with
  | nil => simp
  | cons p a ih =>
    rw [List.flatMap_cons, List.map_append, ih, List.map_cons, List.flatMap_cons]
    congr 1
    simp only [List.map_map]
    apply List.map_congr_left
    intro q _
    exact leaves_pair p q

theorem unwind_andFold_map_leaves (cs : List AndOrExpression)
    (ih : ∀ c ∈ cs, (unwind c).map leaves = toDNF c) (exprs : List AndOrExpression) :
    (unwind.andFold cs exprs).map leaves = toDNF.andFold cs (exprs.map leaves) := by
  induction cs generalizing exprs with
  | nil => simp [unwind.andFold, toDNF.andFold]
  | cons c rest ihr =>
    have hc := ih c (List.mem_cons_self _ _)
    rw [unwind.andFold, toDNF.andFold, ihr (fun d hd => ih d (List.mem_cons_of_mem _ hd))]
    cases exprs with
    | nil => simp [hc]
    | cons e es =>
      simp only [List.isEmpty_cons, Bool.false_eq_true, if_false, List.map_cons]
      rw [pairs_map_leaves, hc]
      rfl

theorem unwind_map_leaves (t : AndOrExpression) : (unwind t).map leaves = toDNF t := by
  induction t using AndOrExpression.induction with
  | step and children expression ih =>
    rw [unwind, toDNF]
    by_cases he : expression = ""
    · cases and
      · simp only [he, ne_eq, not_true_eq_false, if_false, Bool.false_eq_true,
          unwind_orConcat_eq, toDNF_orConcat_eq]
        clear he
        induction children with
        | nil => rfl
        | cons c rest ihr =>
          rw [List.flatMap_cons, List.map_append, List.flatMap_cons,
            ih c (List.mem_cons_self _ _), ihr (fun d hd => ih d (List.mem_cons_of_mem _ hd))]
      · simp only [he, ne_eq, not_true_eq_false, if_false, if_true]
        exact unwind_andFold_map_leaves children ih []
    · simp [he, leaves, leaves.children]

theorem toDNF_length (t : AndOrExpression) : (toDNF t).length = (unwind t).length := by
  rw [← unwind_map_leaves, List.length_map]

theorem toDNF_and_length (children : List AndOrExpression)
    (h : ∀ c ∈ children, toDNF c ≠ []) :
    (toDNF (AndOrExpression.mk true children "")).length =
      if children.isEmpty then 0 else (children.map (fun c => (toDNF c).length)).prod := by
  have hne : ∀ c ∈ children, unwind c ≠ [] := by
    intro c hc hnil
    apply h c hc
    rw [← unwind_map_leaves, hnil]
    rfl
  have hfun : (fun c => (toDNF c).length) = fun c => (unwind c).length := by
    funext c
    exact toDNF_length c
  rw [toDNF_length, hfun]
  cases children with
  | nil => simp [unwind, unwind.andFold]
  | cons c0 rest =>
    have hunwind : unwind (AndOrExpression.mk true (c0 :: rest) "") =
        unwind.andFold rest (unwind c0) := by
      simp [unwind, unwind.andFold]
    rw [hunwind, unwind_andFold_length rest (fun d hd => hne d (List.mem_cons_of_mem _ hd)) _
      (hne c0 (List.mem_cons_self _ _))]
    simp

/-- C17: reading each conjunction as its in-order sequence of leaf expressions, what
`UnwindOrExpressions` returns for every tree is the expansion `toDNF` of the specification,
without deduplication: a leaf `L` gives `[[L]]`; an Or node gives the concatenation of the
expansions of its children in child order; an And node folds over its children from the empty
accumulator, taking the expansion of the child when the accumulator is empty and otherwise the
row-major pairwise combinations, accumulator element first, with the leaf sequences
concatenated; so when the expansion of every child is non-empty the And node yields the product
of the counts of its children (and no conjunction when it has no child). -/
theorem unwind_follows_toDNF (t : AndOrExpression) :
    (∃ cs, UnwindOrExpressions t = .ok cs ∧ cs.map leaves = toDNF t) ∧
    (∀ and children expression, expression ≠ "" →
      toDNF (AndOrExpression.mk and children expression) = [[expression]]) ∧
    (∀ children, toDNF (AndOrExpression.mk false children "") = children.flatMap toDNF) ∧
    (∀ children,
      toDNF (AndOrExpression.mk true children "") =
        children.foldl
          (fun acc child =>
            if acc.isEmpty then toDNF child
            else acc.flatMap (fun a => (toDNF child).map (fun d => a ++ d)))
          []) ∧
    (∀ children, (∀ c ∈ children, toDNF c ≠ []) →
      (toDNF (AndOrExpression.mk true children "")).length =
        if children.isEmpty then 0 else (children.map (fun c => (toDNF c).length)).prod) := by
  refine ⟨⟨unwind t, UnwindOrExpressions_ok t, unwind_map_leaves t⟩, ?_, ?_, ?_,
    toDNF_and_length⟩
  · intro and children expression he
    simp [toDNF, he]
  · intro children
    simp [toDNF, toDNF_orConcat_eq]
  · intro children
    simp [toDNF, toDNF_andFold_eq]

/-! ### No malformed tree -/

theorem mapM_index_error (projections : List String) (groupBy : List Int) (e : Failure)
    (h : groupBy.mapM (index projections) = .error e) : ∃ msg, e = .panic msg := by
  induction groupBy with
  | nil => cases h
  | cons i rest ih =>
    rw [List.mapM_cons] at h
    cases hi : index projections i with
    | error e' =>
      rw [hi] at h
      have h' : (Except.error e' : Except Failure (List String)) = .error e := h
      injection h' with h'
      subst h'
      unfold index at hi
      split at hi
      · injection hi with hi
        exact ⟨_, hi.symm⟩
      · split at hi
        · cases hi
        · injection hi with hi
          exact ⟨_, hi.symm⟩
    | ok x =>
      cases hr : rest.mapM (index projections) with
      | error e' =>
        rw [hi, hr] at h
        have h' : (Except.error e' : Except Failure (List String)) = .error e := h
        injection h' with h'
        subst h'
        exact ih hr
      | ok xs =>
        rw [hi, hr] at h
        cases h

theorem buildSingleSQLSelect_no_error (distinct : Bool) (projections fromTables : List String)
    (whereExpressions : AndOrExpression) (groupBy : List Int) (limit offset : Int)
    (msg : String) :
    buildSingleSQLSelect distinct projections fromTables whereExpressions groupBy limit
      offset ≠ .error (.error msg) := by
  intro h
  unfold buildSingleSQLSelect at h
  rw [BuildAndOrExpression_ok] at h
  cases hm : groupBy.mapM (index projections) with
  | error e =>
    obtain ⟨m, rfl⟩ := mapM_index_error _ _ _ hm
    rw [hm] at h
    simp only [bind, Except.bind, pure, Except.pure] at h
    split at h <;> cases h
  | ok cols =>
    rw [hm] at h
    simp only [bind, Except.bind, pure, Except.pure] at h
    split at h <;> cases h

theorem buildSQLSelect_no_error (distinct : Bool) (projections : List String)
    (projectionTypes : List Projection) (fromTables : List String)
    (whereExpressions : AndOrExpression) (groupBy : List Int) (limit offset : Int)
    (msg : String) :
    buildSQLSelect distinct projections projectionTypes fromTables whereExpressions groupBy
      limit offset ≠ .error (.error msg) := by
  intro h
  by_cases hlen : (unwind whereExpressions).length ≤ 1
  · rw [buildSQLSelect_single _ _ _ _ _ _ _ _ hlen] at h
    exact buildSingleSQLSelect_no_error _ _ _ _ _ _ _ _ h
  · unfold buildSQLSelect at h
    rw [UnwindOrExpressions_ok] at h
    have hgt : (unwind whereExpressions).length > 1 := by omega
    have hbranches : (unwind whereExpressions).mapM (fun where_ => do
        let singleQuery ← buildSingleSQLSelect false projections fromTables where_ [] 0 0
        pure ("(" ++ singleQuery ++ ")")) =
        .ok ((unwind whereExpressions).map
          (fun c => "(" ++ selectText false projections fromTables (render c) [] 0 0 ++ ")")) := by
      apply mapM_ok
      intro c _
      rw [buildSingleSQLSelect_ok false projections fromTables c [] 0 0 (inRange_nil _)]
      rfl
    simp only [bind, Except.bind, hgt, if_true] at hbranches h
    rw [hbranches] at h
    cases hm : groupBy.mapM (index projections) with
    | error e =>
      obtain ⟨m, rfl⟩ := mapM_index_error _ _ _ hm
      rw [hm] at h
      simp only [pure, Except.pure] at h
      split at h <;> cases h
    | ok cols =>
      rw [hm] at h
      simp only [pure, Except.pure] at h
      split at h <;> cases h

/-- C19: for every `AndOrExpression` tree (any And flag, any children, any expression)
`UnwindOrExpressions` and `BuildAndOrExpression`, which are total, return a value and no error,
so the error `Unable to detect kind of node` is unreachable; and `buildSingleSQLSelect` and
`buildSQLSelect` never return an error, for any input. -/
theorem no_malformed_tree (tree : AndOrExpression) :
    (∃ andExpressions, UnwindOrExpressions tree = .ok andExpressions) ∧
    (∃ expr, BuildAndOrExpression tree = .ok expr) ∧
    (∀ distinct projections fromTables groupBy limit offset msg,
      buildSingleSQLSelect distinct projections fromTables tree groupBy limit offset ≠
        .error (.error msg)) ∧
    (∀ distinct projections projectionTypes fromTables groupBy limit offset msg,
      buildSQLSelect distinct projections projectionTypes fromTables tree groupBy limit
        offset ≠ .error (.error msg)) :=
  ⟨⟨unwind tree, UnwindOrExpressions_ok tree⟩, ⟨render tree, BuildAndOrExpression_ok tree⟩,
    fun distinct projections fromTables groupBy limit offset msg =>
      buildSingleSQLSelect_no_error distinct projections fromTables tree groupBy limit offset
        msg,
    fun distinct projections projectionTypes fromTables groupBy limit offset msg =>
      buildSQLSelect_no_error distinct projections projectionTypes fromTables tree groupBy
        limit offset msg⟩

/-! ### The expansion of a tree without empty node -/

theorem leaves_of_nestedIn {x y : AndOrExpression} (h : NestedIn x y) :
    ∀ e ∈ leaves x, e ∈ leaves y := by
  induction h with
  | self => exact fun e he => he
  | left p q _ ih =>
    intro e he
    rw [leaves_pair, List.mem_append]
    exact Or.inl (ih e he)
  | right p q _ ih =>
    intro e he
    rw [leaves_pair, List.mem_append]
    exact Or.inr (ih e he)

theorem leaves_kept (t : AndOrExpression) (h : noEmptyNode t = true) :
    ∀ e ∈ leaves t, ∃ y ∈ unwind t, e ∈ leaves y := by
  induction t using AndOrExpression.induction with
  | step and children expression ih =>
    intro e he
    rw [leaves] at he
    by_cases hexp : expression = ""
    · subst hexp
      simp only [ne_eq, not_true_eq_false, if_false] at he
      rcases (noEmptyNode_node and children "").1 h with hne | ⟨_, hall⟩
      · exact absurd rfl hne
      · obtain ⟨c, hc, hec⟩ := (leaves_children_mem children e).1 he
        obtain ⟨x, hx, hex⟩ := ih c hc (hall c hc) e hec
        cases and
        · refine ⟨x, ?_, hex⟩
          rw [unwind]
          simp only [ne_eq, not_true_eq_false, if_false, Bool.false_eq_true,
            unwind_orConcat_eq]
          exact List.mem_flatMap.2 ⟨c, hc, hx⟩
        · obtain ⟨y, hy, hn⟩ := unwind_and_nested children hall c hc x hx
          exact ⟨y, hy, leaves_of_nestedIn hn e hex⟩
    · simp only [ne_eq, hexp, not_false_eq_true, if_true, List.mem_singleton] at he
      subst he
      refine ⟨AndOrExpression.mk true [AndOrExpression.mk and children e] "", ?_, ?_⟩
      · simp [unwind, hexp]
      · simp [leaves, leaves.children, hexp]

/-- C20: for every boolean tree in which every node that is read has a non-empty expression or
at least one child (recursively; the children of a node with an expression are not read),
`UnwindOrExpressions` returns at least one conjunction; the rendering of the tree and of each
conjunction is the text of its formula, and under every truth assignment to the leaf
expressions the formula of the tree holds exactly when the formula of some returned conjunction
holds; and every leaf expression of the tree is a leaf expression of some returned
conjunction. -/
theorem unwind_nonempty_equivalent (t : AndOrExpression) (h : noEmptyNode t = true) :
    ∃ cs, UnwindOrExpressions t = .ok cs ∧ cs ≠ [] ∧
      BuildAndOrExpression t = .ok (Formula.printOpt (formula t)) ∧
      (∀ c ∈ cs, BuildAndOrExpression c = .ok (Formula.printOpt (formula c))) ∧
      (∀ v, renderedHolds v t = cs.any (renderedHolds v)) ∧
      ∀ e ∈ leaves t, ∃ c ∈ cs, e ∈ leaves c := by
  refine ⟨unwind t, UnwindOrExpressions_ok t, (unwind_holds t h).1, ?_, ?_, ?_,
    leaves_kept t h⟩
  · rw [BuildAndOrExpression_ok, (render_eq_print t).1]
  · intro c _
    rw [BuildAndOrExpression_ok, (render_eq_print c).1]
  · intro v
    exact ((unwind_holds t h).2 v).symm

/-- C20, at the tree `And(Or(A, B), C)`, expanded to `And(And(A), And(C))` and
`And(And(B), And(C))`. -/
theorem unwind_nonempty_equivalent_witness :
    noEmptyNode
        (AndOrExpression.mk true
          [AndOrExpression.mk false
             [AndOrExpression.mk false [] "A", AndOrExpression.mk false [] "B"] "",
           AndOrExpression.mk false [] "C"] "") = true ∧
    UnwindOrExpressions
        (AndOrExpression.mk true
          [AndOrExpression.mk false
             [AndOrExpression.mk false [] "A", AndOrExpression.mk false [] "B"] "",
           AndOrExpression.mk false [] "C"] "") =
      .ok [AndOrExpression.mk true
            [AndOrExpression.mk true [AndOrExpression.mk false [] "A"] "",
             AndOrExpression.mk true [AndOrExpression.mk false [] "C"] ""] "",
           AndOrExpression.mk true
            [AndOrExpression.mk true [AndOrExpression.mk false [] "B"] "",
             AndOrExpression.mk true [AndOrExpression.mk false [] "C"] ""] ""] ∧
    ∃ cs, UnwindOrExpressions
        (AndOrExpression.mk true
          [AndOrExpression.mk false
             [AndOrExpression.mk false [] "A", AndOrExpression.mk false [] "B"] "",
           AndOrExpression.mk false [] "C"] "") = .ok cs ∧ cs ≠ [] ∧
      BuildAndOrExpression
        (AndOrExpression.mk true
          [AndOrExpression.mk false
             [AndOrExpression.mk false [] "A", AndOrExpression.mk false [] "B"] "",
           AndOrExpression.mk false [] "C"] "") =
        .ok (Formula.printOpt (formula
          (AndOrExpression.mk true
            [AndOrExpression.mk false
               [AndOrExpression.mk false [] "A", AndOrExpression.mk false [] "B"] "",
             AndOrExpression.mk false [] "C"] ""))) ∧
      (∀ c ∈ cs, BuildAndOrExpression c = .ok (Formula.printOpt (formula c))) ∧
      (∀ v, renderedHolds v
        (AndOrExpression.mk true
          [AndOrExpression.mk false
             [AndOrExpression.mk false [] "A", AndOrExpression.mk false [] "B"] "",
           AndOrExpression.mk false [] "C"] "") = cs.any (renderedHolds v)) ∧
      ∀ e ∈ leaves
        (AndOrExpression.mk true
          [AndOrExpression.mk false
             [AndOrExpression.mk false [] "A", AndOrExpression.mk false [] "B"] "",
           AndOrExpression.mk false [] "C"] ""), ∃ c ∈ cs, e ∈ leaves c :=
  ⟨by decide, rfl, unwind_nonempty_equivalent _ (by decide)⟩

/-! ### Helper lemmas: the FROM list and the blocks of constraints -/

theorem nodeTables_eq (i : Nat) (ns : List QueryNode) :
    nodeTables i ns = (List.range ns.length).map (fun k => "assets a" ++ toString (i + k)) := by
  induction ns generalizing i with
  | nil => rfl
  | cons n rest ih =>
    rw [nodeTables, ih, List.length_cons, List.range_succ_eq_map, List.map_cons, List.map_map]
    congr 1
    apply List.map_congr_left
    intro k _
    simp only [Function.comp, Nat.add_assoc, Nat.add_comm 1 k]

theorem relationTables_eq (i : Nat) (rs : List QueryRelation) :
    relationTables i rs =
      (List.range rs.length).map (fun k => "relations r" ++ toString (i + k)) := by
  induction rs generalizing i with
  | nil => rfl
  | cons r rest ih =>
    rw [relationTables, ih, List.length_cons, List.range_succ_eq_map, List.map_cons,
      List.map_map]
    congr 1
    apply List.map_congr_left
    intro k _
    simp only [Function.comp, Nat.add_assoc, Nat.add_comm 1 k]

theorem nodeConstraints_split (i : Nat) (pre : List QueryNode) (n : QueryNode)
    (post : List QueryNode) :
    nodeConstraints i (pre ++ n :: post) =
      nodeConstraints i pre ++ labelConstraint ("a" ++ toString (i + pre.length)) n.Labels
        ++ nodeConstraints (i + pre.length + 1) post := by
  induction pre generalizing i with
  | nil => simp [nodeConstraints]
  | cons m pre ih =>
    rw [List.cons_append, nodeConstraints, ih, nodeConstraints, List.length_cons]
    simp only [List.append_assoc, Nat.add_assoc, Nat.add_comm 1 pre.length]

theorem relationConstraints_split (i : Nat) (pre : List QueryRelation) (r : QueryRelation)
    (post : List QueryRelation) (oneDirection : List Bool) :
    relationConstraints i (pre ++ r :: post) oneDirection =
      relationConstraints i pre oneDirection
        ++ (labelConstraint ("r" ++ toString (i + pre.length)) r.Labels
          ++ [directionConstraint ("r" ++ toString (i + pre.length)) r
                (oneDirection.getD pre.length false)])
        ++ relationConstraints (i + pre.length + 1) post
            (oneDirection.drop (pre.length + 1)) := by
  induction pre generalizing i oneDirection with
  | nil =>
    cases oneDirection <;> simp [relationConstraints]
  | cons m pre ih =>
    rw [List.cons_append, relationConstraints, ih, relationConstraints, List.length_cons]
    cases oneDirection with
    | nil =>
      simp only [List.tail_nil, List.drop_nil, List.getD_nil, List.append_assoc,
        Nat.add_assoc, Nat.add_comm 1 pre.length, List.headD_nil]
    | cons b bs =>
      simp only [List.tail_cons, List.drop_succ_cons, List.getD_cons_succ, List.append_assoc,
        Nat.add_assoc, Nat.add_comm 1 pre.length, List.headD_cons]

theorem occursIn_from_selectText (distinct : Bool) (projections fromTables : List String)
    (whereText : String) (groupByColumns : List String) (limit offset : Int) :
    occursIn (", ".intercalate projections ++ " FROM " ++ ", ".intercalate fromTables)
      (selectText distinct projections fromTables whereText groupByColumns limit offset) := by
  unfold selectText
  apply occursIn_append_left
  apply occursIn_append_left
  apply occursIn_append_left
  apply occursIn_append_left
  exact (occursIn_iff _ _).2
    ⟨"SELECT " ++ (if distinct then "DISTINCT " else ""), "", by
      simp only [String.append_assoc, String.append_empty]⟩

theorem occursIn_from_builderText (distinct : Bool) (projections fromTables : List String)
    (whereExpressions : AndOrExpression) (groupByColumns : List String) (limit offset : Int) :
    occursIn (", ".intercalate projections ++ " FROM " ++ ", ".intercalate fromTables)
      (builderText distinct projections fromTables whereExpressions groupByColumns limit
        offset) := by
  unfold builderText
  split
  · exact occursIn_from_selectText _ _ _ _ _ _ _
  · rename_i hlen
    cases hu : unwind whereExpressions with
    | nil => rw [hu] at hlen; simp at hlen
    | cons y rest =>
      apply occursIn_trans (occursIn_from_selectText false projections fromTables (render y) []
        0 0)
      apply occursIn_unionText
      simp

/-! ### `Translate`: the FROM list -/

/-- C12: for every query `Translate` translates, with `n` nodes and `m` relations in the query
graph, the FROM list handed to the builder is `assets a0`, ..., `assets a{n-1}` followed by
`relations r0`, ..., `relations r{m-1}`: each entry is a function of its index, so the list
depends on `n` and `m` only; and the projections, ` FROM ` and this list joined by `, ` occur in
the emitted SQL. -/
theorem Translate_from_tables {N R E : Type} (c : Collaborators N R E)
    (sqt : SQLQueryTranslator) (query : QueryCypher N R E) (tr : SQLTranslation)
    (h : Translate c sqt query = .ok tr) :
    ∃ graph constrainedNodes filterChildren projections whereExpressions groupBy limit offset,
      Translate.queryMatches c query.QuerySinglePartQuery.QueryMatches sqt.QueryGraph [] [] =
        .ok (graph, constrainedNodes, filterChildren) ∧
      buildSQLSelect query.QuerySinglePartQuery.ProjectionBody.Distinct projections
          tr.ProjectionTypes
          ((List.range graph.Nodes.length).map (fun i => "assets a" ++ toString i)
            ++ (List.range graph.Relations.length).map (fun j => "relations r" ++ toString j))
          whereExpressions groupBy limit offset = .ok tr.Query ∧
      occursIn
        (", ".intercalate projections ++ " FROM " ++
          ", ".intercalate
            ((List.range graph.Nodes.length).map (fun i => "assets a" ++ toString i)
              ++ (List.range graph.Relations.length).map
                  (fun j => "relations r" ++ toString j)))
        tr.Query := by
  obtain ⟨graph, constrainedNodes, filterChildren, results, oneDirection, limit, offset, h1, _,
    _, _, _, _, hbuild, htext⟩ := Translate_ok_query c sqt query tr h
  have htables : nodeTables 0 graph.Nodes ++ relationTables 0 graph.Relations =
      (List.range graph.Nodes.length).map (fun i => "assets a" ++ toString i)
        ++ (List.range graph.Relations.length).map (fun j => "relations r" ++ toString j) := by
    rw [nodeTables_eq, relationTables_eq]
    simp only [Nat.zero_add]
  rw [htables] at hbuild htext
  refine ⟨graph, constrainedNodes, filterChildren, _, _, _, limit, offset, h1, hbuild, ?_⟩
  rw [htext]
  exact occursIn_from_builderText _ _ _ _ _ _ _

set_option maxRecDepth 100000 in
/-- C12, at `MATCH (a:A)-[:R]->(b:B)-[:S]->(c:C) RETURN a, c`, whose FROM clause is
`FROM assets a0, assets a1, assets a2, relations r0, relations r1`. -/
theorem Translate_from_tables_witness :
    Translate specCollaborators NewSQLQueryTranslator scenarioS2 = .ok translationS2 ∧
    (∃ graph constrainedNodes filterChildren projections whereExpressions groupBy limit offset,
      Translate.queryMatches specCollaborators scenarioS2.QuerySinglePartQuery.QueryMatches
          NewSQLQueryTranslator.QueryGraph [] [] =
        .ok (graph, constrainedNodes, filterChildren) ∧
      buildSQLSelect scenarioS2.QuerySinglePartQuery.ProjectionBody.Distinct projections
          translationS2.ProjectionTypes
          ((List.range graph.Nodes.length).map (fun i => "assets a" ++ toString i)
            ++ (List.range graph.Relations.length).map (fun j => "relations r" ++ toString j))
          whereExpressions groupBy limit offset = .ok translationS2.Query ∧
      occursIn
        (", ".intercalate projections ++ " FROM " ++
          ", ".intercalate
            ((List.range graph.Nodes.length).map (fun i => "assets a" ++ toString i)
              ++ (List.range graph.Relations.length).map
                  (fun j => "relations r" ++ toString j)))
        translationS2.Query) ∧
    occursIn " FROM assets a0, assets a1, assets a2, relations r0, relations r1"
      translationS2.Query :=
  ⟨rfl, Translate_from_tables specCollaborators NewSQLQueryTranslator scenarioS2 translationS2
    rfl, by decide⟩

/-! ### `Translate`: the projection types -/

theorem forall₂_length {α β : Type} {P : α → β → Prop} {l₁ : List α} {l₂ : List β}
    (h : List.Forall₂ P l₁ l₂) : l₂.length = l₁.length := by
  induction h with
  | nil => rfl
  | cons _ _ ih => simp [ih]

theorem zipWith_getElem? {α β γ : Type} (f : α → β → γ) (l₁ : List α) (l₂ : List β) (i : Nat)
    (a : α) (b : β) (ha : l₁[i]? = some a) (hb : l₂[i]? = some b) :
    (List.zipWith f l₁ l₂)[i]? = some (f a b) := by
  induction l₁ generalizing l₂ i with
  | nil => simp at ha
  | cons x l₁ ih =>
    cases l₂ with
    | nil => simp at hb
    | cons y l₂ =>
      cases i with
      | zero =>
        simp only [List.getElem?_cons_zero, Option.some.injEq] at ha hb
        subst ha hb
        simp
      | succ i =>
        simp only [List.getElem?_cons_succ] at ha hb
        simpa using ih l₂ i ha hb

/-- C14: for every query `Translate` translates, the returned `ProjectionTypes` have the length
of the projection items, and for every position `i`, with `p` the projection item `i`, entry `i`
carries the alias of `p` and the expression kind the projection visitor returned for `p`, while
entry `i` of the projections handed to the builder is the string the expression builder rendered
for `p`; these projections, joined by `, ` in this order, are the SELECT list of the emitted
SQL. -/
theorem Translate_projection_types {N R E : Type} (c : Collaborators N R E)
    (sqt : SQLQueryTranslator) (query : QueryCypher N R E) (tr : SQLTranslation)
    (h : Translate c sqt query = .ok tr) :
    ∃ graph constrainedNodes filterChildren projections fromTables whereExpressions groupBy
        limit offset,
      Translate.queryMatches c query.QuerySinglePartQuery.QueryMatches sqt.QueryGraph [] [] =
        .ok (graph, constrainedNodes, filterChildren) ∧
      tr.ProjectionTypes.length =
        query.QuerySinglePartQuery.ProjectionBody.ProjectionItems.length ∧
      projections.length = query.QuerySinglePartQuery.ProjectionBody.ProjectionItems.length ∧
      (∀ (i : Nat) (p : QueryProjectionItem E),
          query.QuerySinglePartQuery.ProjectionBody.ProjectionItems[i]? = some p →
        ∃ visitor projection,
          c.ProjectionVisitor graph p.Expression = .ok visitor ∧
          c.ExpressionBuilder graph p.Expression = .ok projection ∧
          tr.ProjectionTypes[i]? = some (Projection.mk p.Alias visitor.ExpressionType) ∧
          projections[i]? = some projection) ∧
      buildSQLSelect query.QuerySinglePartQuery.ProjectionBody.Distinct projections
          tr.ProjectionTypes fromTables whereExpressions groupBy limit offset = .ok tr.Query ∧
      occursIn (", ".intercalate projections ++ " FROM " ++ ", ".intercalate fromTables)
        tr.Query := by
  obtain ⟨graph, constrainedNodes, filterChildren, results, oneDirection, limit, offset, h1,
    hres, _, _, _, htypes, hbuild, htext⟩ := Translate_ok_query c sqt query tr h
  have hlen := forall₂_length hres
  refine ⟨graph, constrainedNodes, filterChildren, results.map (fun r => r.2),
    nodeTables 0 graph.Nodes ++ relationTables 0 graph.Relations,
    whereTree graph oneDirection filterChildren, groupByIndices results, limit,
    offset, h1, ?_, ?_, ?_, hbuild, ?_⟩
  · rw [htypes, List.length_zipWith, hlen, Nat.min_self]
  · rw [List.length_map, hlen]
  · intro i p hp
    obtain ⟨r, hr, hv, hb⟩ := forall₂_getElem? hres i p hp
    refine ⟨r.1, r.2, hv, hb, ?_, ?_⟩
    · rw [htypes]
      exact zipWith_getElem? _ _ _ i p r hp hr
    · rw [List.getElem?_map, hr]
      rfl
  · rw [htext]
    exact occursIn_from_builderText _ _ _ _ _ _ _

set_option maxRecDepth 100000 in
/-- C14, at `MATCH (a:A)-[:R]->(b:B)-[:S]->(c:C) RETURN a, c`, whose projection types are a node
with alias `a` and a node with alias `c`. -/
theorem Translate_projection_types_witness :
    Translate specCollaborators NewSQLQueryTranslator scenarioS2 = .ok translationS2 ∧
    ∃ graph constrainedNodes filterChildren projections fromTables whereExpressions groupBy
        limit offset,
      Translate.queryMatches specCollaborators scenarioS2.QuerySinglePartQuery.QueryMatches
          NewSQLQueryTranslator.QueryGraph [] [] =
        .ok (graph, constrainedNodes, filterChildren) ∧
      translationS2.ProjectionTypes.length =
        scenarioS2.QuerySinglePartQuery.ProjectionBody.ProjectionItems.length ∧
      projections.length =
        scenarioS2.QuerySinglePartQuery.ProjectionBody.ProjectionItems.length ∧
      (∀ (i : Nat) (p : QueryProjectionItem QueryExpression),
          scenarioS2.QuerySinglePartQuery.ProjectionBody.ProjectionItems[i]? = some p →
        ∃ visitor projection,
          specCollaborators.ProjectionVisitor graph p.Expression = .ok visitor ∧
          specCollaborators.ExpressionBuilder graph p.Expression = .ok projection ∧
          translationS2.ProjectionTypes[i]? =
            some (Projection.mk p.Alias visitor.ExpressionType) ∧
          projections[i]? = some projection) ∧
      buildSQLSelect scenarioS2.QuerySinglePartQuery.ProjectionBody.Distinct projections
          translationS2.ProjectionTypes fromTables whereExpressions groupBy limit offset =
        .ok translationS2.Query ∧
      occursIn (", ".intercalate projections ++ " FROM " ++ ", ".intercalate fromTables)
        translationS2.Query :=
  ⟨rfl, Translate_projection_types specCollaborators NewSQLQueryTranslator scenarioS2
    translationS2 rfl⟩

/-! ### `Translate`: direction predicates and label constraints -/

/-- C13: for every query `Translate` translates, the children of the top-level And handed to
the builder are the label constraints of the nodes, then the constraints of the relations, then
the WHERE filter; and every relation `j` (the one after the relations `pre`, `j` their number)
with endpoints `(l, r) = (LeftIdx, RightIdx)` contributes there, between the constraints of the
relations before it and those of the relations after it, its label constraint followed by
exactly one direction predicate, which is `And(r{j}.from_id = a{l}.id, r{j}.to_id = a{r}.id)` if
its direction is `Right` and `And(r{j}.from_id = a{r}.id, r{j}.to_id = a{l}.id)` if it is
`Left`. -/
theorem Translate_direction_predicates {N R E : Type} (c : Collaborators N R E)
    (sqt : SQLQueryTranslator) (query : QueryCypher N R E) (tr : SQLTranslation)
    (h : Translate c sqt query = .ok tr) :
    ∃ graph constrainedNodes filterChildren oneDirection projections fromTables groupBy limit
        offset,
      Translate.queryMatches c query.QuerySinglePartQuery.QueryMatches sqt.QueryGraph [] [] =
        .ok (graph, constrainedNodes, filterChildren) ∧
      buildSQLSelect query.QuerySinglePartQuery.ProjectionBody.Distinct projections
          tr.ProjectionTypes fromTables
          (AndOrExpression.mk true
            (nodeConstraints 0 graph.Nodes
              ++ relationConstraints 0 graph.Relations oneDirection
              ++ (if filterChildren.length > 0 then
                    [AndOrExpression.mk true filterChildren ""] else []))
            "")
          groupBy limit offset = .ok tr.Query ∧
      ∀ (pre : List QueryRelation) (r : QueryRelation) (post : List QueryRelation),
        graph.Relations = pre ++ r :: post →
        relationConstraints 0 graph.Relations oneDirection =
          relationConstraints 0 pre oneDirection
            ++ (labelConstraint ("r" ++ toString pre.length) r.Labels
              ++ [directionConstraint ("r" ++ toString pre.length) r
                    (oneDirection.getD pre.length false)])
            ++ relationConstraints (pre.length + 1) post
                (oneDirection.drop (pre.length + 1)) ∧
        (r.Direction = .Right →
          directionConstraint ("r" ++ toString pre.length) r
              (oneDirection.getD pre.length false) =
            AndOrExpression.mk true
              [AndOrExpression.mk false []
                 ("r" ++ toString pre.length ++ ".from_id = a" ++ toString r.LeftIdx ++ ".id"),
               AndOrExpression.mk false []
                 ("r" ++ toString pre.length ++ ".to_id = a" ++ toString r.RightIdx ++ ".id")]
              "") ∧
        (r.Direction = .Left →
          directionConstraint ("r" ++ toString pre.length) r
              (oneDirection.getD pre.length false) =
            AndOrExpression.mk true
              [AndOrExpression.mk false []
                 ("r" ++ toString pre.length ++ ".from_id = a" ++ toString r.RightIdx ++ ".id"),
               AndOrExpression.mk false []
                 ("r" ++ toString pre.length ++ ".to_id = a" ++ toString r.LeftIdx ++ ".id")]
              "") := by
  obtain ⟨graph, constrainedNodes, filterChildren, results, oneDirection, limit, offset, h1, _,
    _, _, _, _, hbuild, _⟩ := Translate_ok_query c sqt query tr h
  refine ⟨graph, constrainedNodes, filterChildren, oneDirection, results.map (fun r => r.2),
    nodeTables 0 graph.Nodes ++ relationTables 0 graph.Relations, groupByIndices results, limit,
    offset, h1, hbuild, ?_⟩
  intro pre r post hrel
  refine ⟨?_, ?_, ?_⟩
  · rw [hrel, relationConstraints_split]
    simp only [Nat.zero_add]
  · intro hdir
    simp [directionConstraint, hdir, Translate.out, fmtInt]
  · intro hdir
    simp [directionConstraint, hdir, Translate.in, fmtInt]

set_option maxRecDepth 100000 in
/-- C13, at `MATCH (a:A)-[:R]->(b:B)-[:S]->(c:C) RETURN a, c`. -/
theorem Translate_direction_predicates_witness :
    Translate specCollaborators NewSQLQueryTranslator scenarioS2 = .ok translationS2 ∧
    ∃ graph constrainedNodes filterChildren oneDirection projections fromTables groupBy limit
        offset,
      Translate.queryMatches specCollaborators scenarioS2.QuerySinglePartQuery.QueryMatches
          NewSQLQueryTranslator.QueryGraph [] [] =
        .ok (graph, constrainedNodes, filterChildren) ∧
      buildSQLSelect scenarioS2.QuerySinglePartQuery.ProjectionBody.Distinct projections
          translationS2.ProjectionTypes fromTables
          (AndOrExpression.mk true
            (nodeConstraints 0 graph.Nodes
              ++ relationConstraints 0 graph.Relations oneDirection
              ++ (if filterChildren.length > 0 then
                    [AndOrExpression.mk true filterChildren ""] else []))
            "")
          groupBy limit offset = .ok translationS2.Query ∧
      ∀ (pre : List QueryRelation) (r : QueryRelation) (post : List QueryRelation),
        graph.Relations = pre ++ r :: post →
        relationConstraints 0 graph.Relations oneDirection =
          relationConstraints 0 pre oneDirection
            ++ (labelConstraint ("r" ++ toString pre.length) r.Labels
              ++ [directionConstraint ("r" ++ toString pre.length) r
                    (oneDirection.getD pre.length false)])
            ++ relationConstraints (pre.length + 1) post
                (oneDirection.drop (pre.length + 1)) ∧
        (r.Direction = .Right →
          directionConstraint ("r" ++ toString pre.length) r
              (oneDirection.getD pre.length false) =
            AndOrExpression.mk true
              [AndOrExpression.mk false []
                 ("r" ++ toString pre.length ++ ".from_id = a" ++ toString r.LeftIdx ++ ".id"),
               AndOrExpression.mk false []
                 ("r" ++ toString pre.length ++ ".to_id = a" ++ toString r.RightIdx ++ ".id")]
              "") ∧
        (r.Direction = .Left →
          directionConstraint ("r" ++ toString pre.length) r
              (oneDirection.getD pre.length false) =
            AndOrExpression.mk true
              [AndOrExpression.mk false []
                 ("r" ++ toString pre.length ++ ".from_id = a" ++ toString r.RightIdx ++ ".id"),
               AndOrExpression.mk false []
                 ("r" ++ toString pre.length ++ ".to_id = a" ++ toString r.LeftIdx ++ ".id")]
              "") :=
  ⟨rfl, Translate_direction_predicates specCollaborators NewSQLQueryTranslator scenarioS2
    translationS2 rfl⟩

/-- C18: for every query `Translate` translates, the children of the top-level And handed to
the builder are the label constraints of the nodes, then the constraints of the relations, then,
when there is a WHERE leaf, the And node over the WHERE leaves; every node `i` (the one after
the nodes `pre`, `i` their number) contributes, between the label constraints of the nodes
before it and those of the nodes after it, its label constraint, and every relation `j`
contributes its label constraint before its direction constraint; a label constraint over the
alias `a{i}` or `r{j}` is nothing for no label and otherwise exactly one Or node whose children
are the leaves `alias.type = 'L'`, in label order. -/
theorem Translate_label_constraints {N R E : Type} (c : Collaborators N R E)
    (sqt : SQLQueryTranslator) (query : QueryCypher N R E) (tr : SQLTranslation)
    (h : Translate c sqt query = .ok tr) :
    ∃ graph constrainedNodes filterChildren oneDirection projections fromTables groupBy limit
        offset,
      Translate.queryMatches c query.QuerySinglePartQuery.QueryMatches sqt.QueryGraph [] [] =
        .ok (graph, constrainedNodes, filterChildren) ∧
      buildSQLSelect query.QuerySinglePartQuery.ProjectionBody.Distinct projections
          tr.ProjectionTypes fromTables
          (AndOrExpression.mk true
            (nodeConstraints 0 graph.Nodes
              ++ relationConstraints 0 graph.Relations oneDirection
              ++ (if filterChildren.length > 0 then
                    [AndOrExpression.mk true filterChildren ""] else []))
            "")
          groupBy limit offset = .ok tr.Query ∧
      (∀ (pre : List QueryNode) (n : QueryNode) (post : List QueryNode),
        graph.Nodes = pre ++ n :: post →
        nodeConstraints 0 graph.Nodes =
          nodeConstraints 0 pre ++ labelConstraint ("a" ++ toString pre.length) n.Labels
            ++ nodeConstraints (pre.length + 1) post) ∧
      (∀ (pre : List QueryRelation) (r : QueryRelation) (post : List QueryRelation),
        graph.Relations = pre ++ r :: post →
        relationConstraints 0 graph.Relations oneDirection =
          relationConstraints 0 pre oneDirection
            ++ (labelConstraint ("r" ++ toString pre.length) r.Labels
              ++ [directionConstraint ("r" ++ toString pre.length) r
                    (oneDirection.getD pre.length false)])
            ++ relationConstraints (pre.length + 1) post
                (oneDirection.drop (pre.length + 1))) ∧
      (∀ alias_ : String, labelConstraint alias_ [] = []) ∧
      (∀ (alias_ : String) (labels : List String), labels ≠ [] →
        labelConstraint alias_ labels =
          [AndOrExpression.mk false
            (labels.map (fun label =>
              AndOrExpression.mk false [] (alias_ ++ ".type = '" ++ label ++ "'"))) ""]) := by
  obtain ⟨graph, constrainedNodes, filterChildren, results, oneDirection, limit, offset, h1, _,
    _, _, _, _, hbuild, _⟩ := Translate_ok_query c sqt query tr h
  refine ⟨graph, constrainedNodes, filterChildren, oneDirection, results.map (fun r => r.2),
    nodeTables 0 graph.Nodes ++ relationTables 0 graph.Relations, groupByIndices results, limit,
    offset, h1, hbuild, ?_, ?_, ?_, ?_⟩
  · intro pre n post hn
    rw [hn, nodeConstraints_split]
    simp only [Nat.zero_add]
  · intro pre r post hrel
    rw [hrel, relationConstraints_split]
    simp only [Nat.zero_add]
  · intro alias_
    simp [labelConstraint]
  · intro alias_ labels hne
    simp [labelConstraint, hne]

set_option maxRecDepth 100000 in
/-- C18, at `MATCH (a:A)-[:R]->(b:B)-[:S]->(c:C) RETURN a, c`. -/
theorem Translate_label_constraints_witness :
    Translate specCollaborators NewSQLQueryTranslator scenarioS2 = .ok translationS2 ∧
    ∃ graph constrainedNodes filterChildren oneDirection projections fromTables groupBy limit
        offset,
      Translate.queryMatches specCollaborators scenarioS2.QuerySinglePartQuery.QueryMatches
          NewSQLQueryTranslator.QueryGraph [] [] =
        .ok (graph, constrainedNodes, filterChildren) ∧
      buildSQLSelect scenarioS2.QuerySinglePartQuery.ProjectionBody.Distinct projections
          translationS2.ProjectionTypes fromTables
          (AndOrExpression.mk true
            (nodeConstraints 0 graph.Nodes
              ++ relationConstraints 0 graph.Relations oneDirection
              ++ (if filterChildren.length > 0 then
                    [AndOrExpression.mk true filterChildren ""] else []))
            "")
          groupBy limit offset = .ok translationS2.Query ∧
      (∀ (pre : List QueryNode) (n : QueryNode) (post : List QueryNode),
        graph.Nodes = pre ++ n :: post →
        nodeConstraints 0 graph.Nodes =
          nodeConstraints 0 pre ++ labelConstraint ("a" ++ toString pre.length) n.Labels
            ++ nodeConstraints (pre.length + 1) post) ∧
      (∀ (pre : List QueryRelation) (r : QueryRelation) (post : List QueryRelation),
        graph.Relations = pre ++ r :: post →
        relationConstraints 0 graph.Relations oneDirection =
          relationConstraints 0 pre oneDirection
            ++ (labelConstraint ("r" ++ toString pre.length) r.Labels
              ++ [directionConstraint ("r" ++ toString pre.length) r
                    (oneDirection.getD pre.length false)])
            ++ relationConstraints (pre.length + 1) post
                (oneDirection.drop (pre.length + 1))) ∧
      (∀ alias_ : String, labelConstraint alias_ [] = []) ∧
      (∀ (alias_ : String) (labels : List String), labels ≠ [] →
        labelConstraint alias_ labels =
          [AndOrExpression.mk false
            (labels.map (fun label =>
              AndOrExpression.mk false [] (alias_ ++ ".type = '" ++ label ++ "'"))) ""]) :=
  ⟨rfl, Translate_label_constraints specCollaborators NewSQLQueryTranslator scenarioS2
    translationS2 rfl⟩

/-! ### `Translate`: the WHERE clause is one leaf -/

section TranslateWhere

variable {N R E : Type}

theorem Translate_queryMatches_single (c : Collaborators N R E) (x : QueryMatch N R E)
    (e : E) (hx : x.Where = some e) (graph0 graph : QueryGraph) (constrainedNodes : List Int)
    (filterChildren : List AndOrExpression)
    (h : Translate.queryMatches c [x] graph0 [] [] =
      .ok (graph, constrainedNodes, filterChildren)) :
    ∃ whereVisitor, c.WhereVisitor graph e = .ok whereVisitor ∧
      Translate.patternElements c x.PatternElements graph0 = .ok graph ∧
      filterChildren = [AndOrExpression.mk false [] whereVisitor.whereExpression] := by
  rw [Translate.queryMatches] at h
  simp only [bind, Except.bind] at h
  cases hp : Translate.patternElements c x.PatternElements graph0 with
  | error err => rw [hp] at h; cases h
  | ok g =>
    rw [hp] at h
    simp only [hx] at h
    cases hwv : c.WhereVisitor g e with
    | error err => rw [hwv] at h; cases h
    | ok wv =>
      rw [hwv] at h
      simp only at h
      cases hv : Translate.variables c g wv.Variables [] with
      | error err => rw [hv] at h; cases h
      | ok cn =>
        rw [hv] at h
        simp only [Translate.queryMatches, List.nil_append, Except.ok.injEq,
          Prod.mk.injEq] at h
        obtain ⟨rfl, _, rfl⟩ := h
        exact ⟨wv, hwv, rfl, rfl⟩

end TranslateWhere

theorem pairs_singleton_right (a : List AndOrExpression) (b : AndOrExpression) :
    a.flatMap (fun p => [b].map (fun q => AndOrExpression.mk true [p, q] "")) =
      a.map (fun p => AndOrExpression.mk true [p, b] "") := by
  induction a with
  | nil => rfl
  | cons p a ih =>
    rw [List.flatMap_cons, ih]
    rfl

theorem unwind_label_where (alias_ : String) (labels : List String) (w : String)
    (hl : labels ≠ []) (hw : w ≠ "") :
    unwind (AndOrExpression.mk true
        (labelConstraint alias_ labels ++
          [AndOrExpression.mk true [AndOrExpression.mk false [] w] ""]) "") =
      labels.map (fun label =>
        AndOrExpression.mk true
          [AndOrExpression.mk true
             [AndOrExpression.mk false [] (alias_ ++ ".type = '" ++ label ++ "'")] "",
           AndOrExpression.mk true [AndOrExpression.mk false [] w] ""] "") := by
  have hlabels : unwind (AndOrExpression.mk false
      (labels.map (fun label =>
        AndOrExpression.mk false [] (alias_ ++ ".type = '" ++ label ++ "'"))) "") =
      labels.map (fun label => AndOrExpression.mk true
        [AndOrExpression.mk false [] (alias_ ++ ".type = '" ++ label ++ "'")] "") := by
    rw [unwind]
    simp only [ne_eq, not_true_eq_false, if_false, Bool.false_eq_true, unwind_orConcat_eq]
    clear hl
    induction labels with
    | nil => rfl
    | cons l rest ih =>
      have hne : alias_ ++ ".type = '" ++ l ++ "'" ≠ "" :=
        append_ne_empty_right _ _ (by decide)
      simp only [List.map_cons, List.flatMap_cons, ih]
      simp [unwind, hne]
  have hwhere : unwind (AndOrExpression.mk true [AndOrExpression.mk false [] w] "") =
      [AndOrExpression.mk true [AndOrExpression.mk false [] w] ""] := by
    simp [unwind, unwind.andFold, hw]
  have hemp : (labels.map (fun label => AndOrExpression.mk true
      [AndOrExpression.mk false [] (alias_ ++ ".type = '" ++ label ++ "'")] "")).isEmpty =
      false := by
    cases labels with
    | nil => exact absurd rfl hl
    | cons l rest => rfl
  unfold labelConstraint
  rw [if_neg hl]
  rw [unwind]
  simp only [ne_eq, not_true_eq_false, if_false, if_true, List.singleton_append,
    unwind.andFold, List.isEmpty_nil, hlabels, hwhere, hemp, Bool.false_eq_true]
  rw [pairs_singleton_right, List.map_map]
  rfl

set_option maxRecDepth 100000 in
/-- C11 (as stated, refuted): `MATCH (n:Person) WHERE n.value = 'A' OR n.value = 'B' RETURN n`
is translated to one SELECT whose WHERE clause holds the text of the whole WHERE expression;
`UNION` does not occur in the emitted SQL. -/
theorem Translate_where_or_no_union :
    Translate specCollaborators NewSQLQueryTranslator scenarioS5 = .ok translationS5 ∧
    ¬ occursIn "UNION" translationS5.Query :=
  ⟨rfl, by decide⟩

/-- C11 (amended): for every translated query with a single MATCH clause that has a WHERE
clause, the WHERE clause is one leaf of the tree, holding the text the WHERE visitor rendered,
whatever alternatives it is made of; when the query graph has one node with labels `L1..Lk`
(`k >= 1`), no relation, and the WHERE text `w` is not empty, `Translate` emits one SELECT per
label: for one label the single statement `SELECT ... FROM assets a0 WHERE (a0.type = 'L1' AND
w)`, without UNION, and for two or more labels the parenthesised statements `SELECT ... FROM
assets a0 WHERE (a0.type = 'Li' AND w)` joined by `UNION ALL`, and by `UNION` when the
projection is DISTINCT. -/
theorem Translate_where_one_leaf {N R E : Type} (c : Collaborators N R E)
    (sqt : SQLQueryTranslator) (query : QueryCypher N R E) (tr : SQLTranslation)
    (x : QueryMatch N R E) (e : E) (h : Translate c sqt query = .ok tr)
    (hq : query.QuerySinglePartQuery.QueryMatches = [x]) (hx : x.Where = some e) :
    ∃ graph constrainedNodes whereVisitor results limit offset,
      Translate.queryMatches c [x] sqt.QueryGraph [] [] =
        .ok (graph, constrainedNodes,
          [AndOrExpression.mk false [] whereVisitor.whereExpression]) ∧
      c.WhereVisitor graph e = .ok whereVisitor ∧
      ProjectionResults c graph query.QuerySinglePartQuery.ProjectionBody.ProjectionItems
        results ∧
      ∀ labels : List String, graph.Nodes = [QueryNode.mk labels] → graph.Relations = [] →
        labels ≠ [] → whereVisitor.whereExpression ≠ "" →
        (∀ label, labels = [label] →
          tr.Query =
            selectText query.QuerySinglePartQuery.ProjectionBody.Distinct
              (results.map (fun r => r.2)) ["assets a0"]
              ("(" ++ ("a0" ++ ".type = '" ++ label ++ "'") ++ " AND "
                ++ whereVisitor.whereExpression ++ ")")
              (groupByColumns results) limit offset) ∧
        (2 ≤ labels.length →
          tr.Query =
            unionText query.QuerySinglePartQuery.ProjectionBody.Distinct
              (results.map (fun r => r.2))
              (labels.map (fun label =>
                selectText false (results.map (fun r => r.2)) ["assets a0"]
                  ("(" ++ ("a0" ++ ".type = '" ++ label ++ "'") ++ " AND "
                    ++ whereVisitor.whereExpression ++ ")")
                  [] 0 0))
              (groupByColumns results) limit offset) := by
  obtain ⟨graph, constrainedNodes, filterChildren, results, oneDirection, limit, offset, h1,
    hres, hone, _, _, _, _, htext⟩ := Translate_ok_query c sqt query tr h
  rw [hq] at h1
  obtain ⟨wv, hwv, _, rfl⟩ := Translate_queryMatches_single c x e hx _ _ _ _ h1
  refine ⟨graph, constrainedNodes, wv, results, limit, offset, h1, hwv, hres, ?_⟩
  intro labels hn hr hl hw
  have hone' : oneDirection = [] := by
    rw [hr] at hone
    cases hone
    rfl
  have htree : whereTree graph oneDirection [AndOrExpression.mk false [] wv.whereExpression] =
      AndOrExpression.mk true
        (labelConstraint "a0" labels ++
          [AndOrExpression.mk true [AndOrExpression.mk false [] wv.whereExpression] ""])
        "" := by
    unfold whereTree
    rw [hn, hr, hone']
    have h0 : "a" ++ toString 0 = "a0" := by decide
    simp [nodeConstraints, relationConstraints, h0]
  have htables : nodeTables 0 graph.Nodes ++ relationTables 0 graph.Relations =
      ["assets a0"] := by
    rw [hn, hr]
    have h0 : "assets a" ++ toString 0 = "assets a0" := by decide
    simp [nodeTables, relationTables, h0]
  have hrender : ∀ label : String, render (AndOrExpression.mk true
      [AndOrExpression.mk true
         [AndOrExpression.mk false [] ("a0" ++ ".type = '" ++ label ++ "'")] "",
       AndOrExpression.mk true [AndOrExpression.mk false [] wv.whereExpression] ""] "") =
      "(" ++ ("a0" ++ ".type = '" ++ label ++ "'") ++ " AND " ++ wv.whereExpression ++ ")" :=
    fun label => render_direction _ _ (append_ne_empty_right _ _ (by decide)) hw
  rw [htree, htables] at htext
  unfold builderText at htext
  rw [unwind_label_where "a0" labels wv.whereExpression hl hw, List.length_map] at htext
  constructor
  · rintro label rfl
    rw [if_pos (by simp)] at htext
    rw [htext]
    congr 1
    have hne := hrender label
    simp only [List.map_cons, List.map_nil]
    rw [← hne]
    have hne' : render (AndOrExpression.mk true
      [AndOrExpression.mk true
         [AndOrExpression.mk false [] ("a0" ++ ".type = '" ++ label ++ "'")] "",
       AndOrExpression.mk true [AndOrExpression.mk false [] wv.whereExpression] ""] "") ≠
        "" := by
      rw [hne]
      exact paren_ne_empty _
    generalize (AndOrExpression.mk true
      [AndOrExpression.mk true
         [AndOrExpression.mk false [] ("a0" ++ ".type = '" ++ label ++ "'")] "",
       AndOrExpression.mk true [AndOrExpression.mk false [] wv.whereExpression] ""] "") = y
      at hne' ⊢
    simp [render, render.children, hne']
  · intro hlen
    rw [if_neg (by omega)] at htext
    rw [htext, List.map_map]
    congr 1
    apply List.map_congr_left
    intro label _
    simp only [Function.comp, hrender]

set_option maxRecDepth 100000 in
/-- C11 (amended), at `MATCH (n:Person) WHERE n.value = 'A' OR n.value = 'B' RETURN n`. -/
theorem Translate_where_one_leaf_witness :
    Translate specCollaborators NewSQLQueryTranslator scenarioS5 = .ok translationS5 ∧
    scenarioS5.QuerySinglePartQuery.QueryMatches = [matchS5] ∧
    matchS5.Where = some whereS5 ∧
    ∃ graph constrainedNodes whereVisitor results limit offset,
      Translate.queryMatches specCollaborators [matchS5] NewSQLQueryTranslator.QueryGraph [] []
        = .ok (graph, constrainedNodes,
          [AndOrExpression.mk false [] whereVisitor.whereExpression]) ∧
      specCollaborators.WhereVisitor graph whereS5 = .ok whereVisitor ∧
      ProjectionResults specCollaborators graph
        scenarioS5.QuerySinglePartQuery.ProjectionBody.ProjectionItems results ∧
      ∀ labels : List String, graph.Nodes = [QueryNode.mk labels] → graph.Relations = [] →
        labels ≠ [] → whereVisitor.whereExpression ≠ "" →
        (∀ label, labels = [label] →
          translationS5.Query =
            selectText scenarioS5.QuerySinglePartQuery.ProjectionBody.Distinct
              (results.map (fun r => r.2)) ["assets a0"]
              ("(" ++ ("a0" ++ ".type = '" ++ label ++ "'") ++ " AND "
                ++ whereVisitor.whereExpression ++ ")")
              (groupByColumns results) limit offset) ∧
        (2 ≤ labels.length →
          translationS5.Query =
            unionText scenarioS5.QuerySinglePartQuery.ProjectionBody.Distinct
              (results.map (fun r => r.2))
              (labels.map (fun label =>
                selectText false (results.map (fun r => r.2)) ["assets a0"]
                  ("(" ++ ("a0" ++ ".type = '" ++ label ++ "'") ++ " AND "
                    ++ whereVisitor.whereExpression ++ ")")
                  [] 0 0))
              (groupByColumns results) limit offset) :=
  ⟨rfl, rfl, rfl,
    Translate_where_one_leaf specCollaborators NewSQLQueryTranslator scenarioS5 translationS5
      matchS5 whereS5 rfl rfl rfl⟩

theorem Read_fill_bytes (strs : List String) (q : List GoValue) :
    Read.fill (strs.map GoValue.bytes) q = .ok (q ++ strs.map GoValue.string) := by
  induction strs generalizing q with
  | nil => simp [Read.fill]
  | cons s rest ih =>
    simp only [List.map_cons, Read.fill, Queue.Put]
    rw [ih]
    simp

theorem Read_projections_strings (projections : List Projection) :
    ∀ (strs : List String) (output : List Output),
      strs.length = Read.totalWidth projections →
      Read.projections projections (strs.map GoValue.string) output =
        .ok (output ++ rowObjects projections strs) := by
  induction projections with
  | nil => intro strs output _; simp [Read.projections, rowObjects]
  | cons pt rest ih =>
    intro strs output hlen
    have hw : strs.length = Read.width pt.ExpressionType + Read.totalWidth rest := by
      simpa [Read.totalWidth] using hlen
    cases hk : pt.ExpressionType with
    | NodeExprType =>
      rw [hk] at hw
      match strs, hw with
      | a :: b :: c :: tl, hw =>
        have htl : tl.length = Read.totalWidth rest := by
          simp [Read.width] at hw; omega
        simp only [Read.projections, rowObjects, hk]
        simp [Queue.Get, Read.item, fmtValue, ih tl _ htl]
      | [], hw => simp [Read.width] at hw; omega
      | [_], hw => simp [Read.width] at hw; omega
      | [_, _], hw => simp [Read.width] at hw; omega
    | EdgeExprType =>
      rw [hk] at hw
      match strs, hw with
      | a :: b :: c :: d :: e :: tl, hw =>
        have htl : tl.length = Read.totalWidth rest := by
          simp [Read.width] at hw; omega
        simp only [Read.projections, rowObjects, hk]
        simp [Queue.Get, Read.item, fmtValue, ih tl _ htl]
      | [], hw => simp [Read.width] at hw; omega
      | [_], hw => simp [Read.width] at hw; omega
      | [_, _], hw => simp [Read.width] at hw; omega
      | [_, _, _], hw => simp [Read.width] at hw; omega
      | [_, _, _, _], hw => simp [Read.width] at hw; omega
    | PropertyExprType =>
      rw [hk] at hw
      match strs, hw with
      | a :: tl, hw =>
        have htl : tl.length = Read.totalWidth rest := by
          simp [Read.width] at hw; omega
        simp only [Read.projections, rowObjects, hk]
        simp [Queue.Get, Read.item, ih tl _ htl]
      | [], hw => simp [Read.width] at hw; omega

/-- On a row whose columns all hold byte slices and whose column count is the sum of the
widths of the projections, `Read` with a `doc` that can take the output returns the objects of
the row-to-object contract, one per projection, in projection order. -/
theorem Read_bytes_row (mc : MariaDBCursor) (fArr : List String) (strs : List String)
    (hc : mc.Rows.Columns = .ok fArr)
    (hs : mc.Rows.Scan (List.replicate fArr.length GoValue.nil) = .ok (strs.map GoValue.bytes))
    (hlen : strs.length = Read.totalWidth mc.Projections) :
    mc.Read (.pointer true) = .ok (rowObjects mc.Projections strs) ∧
      (rowObjects mc.Projections strs).length = mc.Projections.length := by
  constructor
  · have h := Read_projections_strings mc.Projections strs [] hlen
    simp only [MariaDBCursor.Read, hc, hs, Read_fill_bytes]
    simp only [List.nil_append] at h ⊢
    rw [h]
    rfl
  · clear hc hs hlen
    generalize mc.Projections = ps
    induction ps generalizing strs with
    | nil => simp [rowObjects]
    | cons pt rest ih =>
      cases hk : pt.ExpressionType <;> simp [rowObjects, hk, ih]

/-- C16 (the code at the failing input): on a row whose one column holds the integer 3, read
with one property projection into a `doc` that can take the output (a `*interface{}`), `Read`
returns without error and the output entry is the nil byte slice, not the column value 3; on a
node row whose `id` column holds the integer 7, the ID of the asset is the text `[]` of the nil
byte slice, not that of the column. -/
theorem Read_non_bytes_column_lost :
    cursorCount.Read (.pointer true) = .ok [.item .nilBytes] ∧
      cursorCount.Read (.pointer true) ≠ .ok [.item (.int64 3)] ∧
      cursorNode.Read (.pointer true) =
        .ok [.asset { ID := "[]", Asset := { Type_ := "Person", Key := "alice" } }] ∧
      Read.totalWidth cursorCount.Projections = 1 ∧
      Read.totalWidth cursorNode.Projections = 3 := by
  refine ⟨rfl, ?_, rfl, rfl, rfl⟩
  decide


/-! ### `Translate`: the GROUP BY lookups stay in range -/

theorem unaggregatedIndices_ge (flags : List Bool) :
    ∀ (i : Nat), ∀ j ∈ unaggregatedIndices i flags, (i : Int) ≤ j := by
  induction flags with
  | nil => intro i j hj; simp [unaggregatedIndices] at hj
  | cons a rest ih =>
    intro i j hj
    unfold unaggregatedIndices at hj
    split at hj
    · have := ih (i + 1) j hj
      push_cast at this
      omega
    · rcases List.mem_cons.1 hj with rfl | hj
      · exact le_refl _
      · have := ih (i + 1) j hj
        push_cast at this
        omega

theorem unaggregatedIndices_increasing (flags : List Bool) :
    ∀ (i : Nat), List.Pairwise (fun a b => a < b) (unaggregatedIndices i flags) := by
  induction flags with
  | nil => intro i; simp [unaggregatedIndices]
  | cons a rest ih =>
    intro i
    unfold unaggregatedIndices
    split
    · exact ih (i + 1)
    · refine List.pairwise_cons.2 ⟨?_, ih (i + 1)⟩
      intro j hj
      have := unaggregatedIndices_ge rest (i + 1) j hj
      push_cast at this
      omega

section GroupByRange

variable {N R E : Type}

/-- C23: whenever `Translate` reaches its call of `buildSQLSelect` (the MATCH clauses, the
projection items, the relations, the limit and the offset went through), the `groupBy` list of
the call is strictly increasing and each of its indices is a position of the `projections`
list of the call, so every lookup `projections[groupBy[i]]` succeeds, in `buildSQLSelect` and
in `buildSingleSQLSelect` alike; the call returns its text and `Translate` its translation. -/
theorem Translate_groupBy_in_range (c : Collaborators N R E) (sqt : SQLQueryTranslator)
    (query : QueryCypher N R E) (graph : QueryGraph) (constrainedNodes : List Int)
    (filterChildren : List AndOrExpression) (st : ProjectionState) (from_ : List String)
    (andChildren : List AndOrExpression) (limit offset : Int)
    (h1 : Translate.queryMatches c query.QuerySinglePartQuery.QueryMatches sqt.QueryGraph [] [] =
      .ok (graph, constrainedNodes, filterChildren))
    (h2 : Translate.projectionItems c graph
        query.QuerySinglePartQuery.ProjectionBody.ProjectionItems 0
        { projections := [], projectionTypes := [], unaggregatedProjectionItems := [],
          aggregationRequired := false } = .ok st)
    (h3 : Translate.relations c graph constrainedNodes graph.Relations 0
        (Translate.nodes graph.Nodes 0 [] []).1 (Translate.nodes graph.Nodes 0 [] []).2 =
      .ok (from_, andChildren))
    (h4 : Translate.limit c query.QuerySinglePartQuery.ProjectionBody = .ok limit)
    (h5 : Translate.offset c query.QuerySinglePartQuery.ProjectionBody limit = .ok offset) :
    ∃ groupBy sqlQuery,
      groupBy = (if !st.aggregationRequired then [] else st.unaggregatedProjectionItems) ∧
      List.Pairwise (fun a b => a < b) groupBy ∧
      (∀ i ∈ groupBy, 0 ≤ i ∧ i < st.projections.length) ∧
      groupBy.mapM (index st.projections) =
        .ok (groupBy.map (fun i => st.projections.getD i.toNat "")) ∧
      (∀ (distinct : Bool) (fromTables : List String) (where_ : AndOrExpression) (l o : Int),
        ∃ q, buildSingleSQLSelect distinct st.projections fromTables where_ groupBy l o =
          .ok q) ∧
      buildSQLSelect query.QuerySinglePartQuery.ProjectionBody.Distinct st.projections
          st.projectionTypes from_
          (AndOrExpression.mk true
            (if filterChildren.length > 0 then
              andChildren ++ [AndOrExpression.mk true filterChildren ""]
            else andChildren) "")
          groupBy limit offset = .ok sqlQuery ∧
      Translate c sqt query =
        .ok { Query := sqlQuery, ProjectionTypes := st.projectionTypes } := by
  obtain ⟨results, _, hp, _, hu, ha⟩ := projectionItems_ok c graph _ 0 _ st h2
  simp only [List.nil_append, Bool.false_or] at hp hu ha
  have hspec := unaggregatedIndices_spec [] results
  simp only [List.nil_append, List.length_nil] at hspec
  have hinc := unaggregatedIndices_increasing (results.map (fun r => r.1.Aggregation)) 0
  have hrange : inRange st.projections
      (if !st.aggregationRequired then [] else st.unaggregatedProjectionItems) := by
    rw [hp, hu, ha]
    cases results.any (fun r => r.1.Aggregation)
    · exact inRange_nil _
    · exact hspec.1
  have hpair : List.Pairwise (fun a b => a < b)
      (if !st.aggregationRequired then [] else st.unaggregatedProjectionItems) := by
    rw [hu, ha]
    cases results.any (fun r => r.1.Aggregation)
    · exact List.Pairwise.nil
    · exact hinc
  have hbuild := buildSQLSelect_ok query.QuerySinglePartQuery.ProjectionBody.Distinct
    st.projections st.projectionTypes from_
    (AndOrExpression.mk true
      (if filterChildren.length > 0 then
        andChildren ++ [AndOrExpression.mk true filterChildren ""]
      else andChildren) "")
    (if !st.aggregationRequired then [] else st.unaggregatedProjectionItems) limit offset hrange
  refine ⟨_, _, rfl, hpair, hrange, mapM_index_ok _ _ hrange, ?_, hbuild, ?_⟩
  · intro distinct fromTables where_ l o
    exact ⟨_, buildSingleSQLSelect_ok distinct st.projections fromTables where_ _ l o hrange⟩
  · unfold Translate
    simp only [bind, Except.bind, h1, h2]
    rw [h3]
    simp only [h4, h5, hbuild, pure, Except.pure]

end GroupByRange

set_option maxRecDepth 100000 in
/-- C23, at `MATCH (n:Person) RETURN n.type, count(n)`: the call of `buildSQLSelect` has the
projections `a0.type` and `COUNT(a0.id, a0.value, a0.type)` and the `groupBy` list `[0]`. -/
theorem Translate_groupBy_in_range_witness :
    Translate specCollaborators NewSQLQueryTranslator scenarioS6 = .ok translationS6 ∧
    ∃ (groupBy : List Int) (sqlQuery : String),
      groupBy = [0] ∧
      List.Pairwise (fun a b => a < b) groupBy ∧
      (∀ i ∈ groupBy, 0 ≤ i ∧ i < projectionStateS6.projections.length) ∧
      groupBy.mapM (index projectionStateS6.projections) = .ok ["a0.type"] ∧
      (∀ (distinct : Bool) (fromTables : List String) (where_ : AndOrExpression) (l o : Int),
        ∃ q, buildSingleSQLSelect distinct projectionStateS6.projections fromTables where_
          groupBy l o = .ok q) ∧
      buildSQLSelect false projectionStateS6.projections projectionStateS6.projectionTypes
          ["assets a0"]
          (AndOrExpression.mk true
            [AndOrExpression.mk false [AndOrExpression.mk false [] "a0.type = 'Person'"] ""] "")
          groupBy 0 0 = .ok sqlQuery ∧
      Translate specCollaborators NewSQLQueryTranslator scenarioS6 =
        .ok { Query := sqlQuery, ProjectionTypes := projectionStateS6.projectionTypes } := by
  refine ⟨rfl, ?_⟩
  obtain ⟨groupBy, sqlQuery, hg, h⟩ :=
    Translate_groupBy_in_range specCollaborators NewSQLQueryTranslator scenarioS6 graphS6 [] []
      projectionStateS6 ["assets a0"]
      [AndOrExpression.mk false [AndOrExpression.mk false [] "a0.type = 'Person'"] ""] 0 0
      rfl rfl rfl rfl rfl
  have hg0 : groupBy = [0] := hg
  subst hg0
  exact ⟨[0], sqlQuery, rfl, h⟩


/-! ### The conjunctions hold no Or node -/

theorem IsConjunction.hasNoOrNode {y : AndOrExpression} (hy : IsConjunction y) :
    noOrNode y = true := by
  induction hy with
  | leaf and children expression h =>
    simp [knowledge.noOrNode, noOrNode.all, h]
  | pair a b _ _ iha ihb =>
    simp [knowledge.noOrNode, noOrNode.all, iha, ihb]

theorem AndText.mono {l1 l2 : List String} (hsub : ∀ e ∈ l1, e ∈ l2) {s : String}
    (h : AndText l1 s) : AndText l2 s := by
  induction h with
  | leaf e he => exact AndText.leaf e (hsub e he)
  | conj parts hlen _ ih => exact AndText.conj parts hlen ih

theorem IsConjunction.andText {y : AndOrExpression} (hy : IsConjunction y) :
    AndText (leaves y) (render y) := by
  induction hy with
  | leaf and children expression h =>
    have hl : render (AndOrExpression.mk and children expression) = expression := by
      simp [render, h]
    have hr : render (AndOrExpression.mk true [AndOrExpression.mk and children expression] "")
        = expression := by
      simp [render, render.children, hl, h]
    rw [hr]
    exact AndText.leaf _ (by simp [leaves, leaves.children, h])
  | pair a b ha hb iha ihb =>
    have hr : render (AndOrExpression.mk true [a, b] "") =
        "(" ++ " AND ".intercalate [render a, render b] ++ ")" := by
      rw [render_pair a b ha.render_ne_empty hb.render_ne_empty]
      simp [String.intercalate, String.intercalate.go, String.append_assoc]
    rw [hr, leaves_pair]
    refine AndText.conj _ (by simp) ?_
    intro p hp
    rcases List.mem_cons.1 hp with rfl | hp
    · exact AndText.mono (fun e he => List.mem_append_left _ he) iha
    · rcases List.mem_cons.1 hp with rfl | hp
      · exact AndText.mono (fun e he => List.mem_append_right _ he) ihb
      · cases hp

theorem render_and_singleton (c : AndOrExpression) (hc : render c ≠ "") :
    render (AndOrExpression.mk true [c] "") = render c := by
  simp [render, render.children, hc]

/-- C21: for every boolean tree `t`, no conjunction returned by `UnwindOrExpressions t` holds an
Or node at any depth that is read (every node of it is a leaf or an And node), and its rendering
by `BuildAndOrExpression` is made of leaf expressions of `t`, ` AND ` and parentheses only. The
WHERE trees `buildSQLSelect` hands to `buildSingleSQLSelect` are these conjunctions, one per
branch of the union, when there are two or more of them, and otherwise the And node over the
at most one conjunction, which holds no Or node either and renders to the empty text or to a
text of the same kind. -/
theorem unwind_no_or_node (t : AndOrExpression) :
    ∃ cs, UnwindOrExpressions t = .ok cs ∧
      (∀ c ∈ cs, noOrNode c = true ∧ BuildAndOrExpression c = .ok (render c) ∧
        AndText (leaves t) (render c)) ∧
      (∀ (distinct : Bool) (projections : List String) (projectionTypes : List Projection)
          (fromTables : List String) (groupBy : List Int) (limit offset : Int),
        (cs.length ≤ 1 →
          buildSQLSelect distinct projections projectionTypes fromTables t groupBy limit offset =
            buildSingleSQLSelect distinct projections fromTables
              (AndOrExpression.mk true cs "") groupBy limit offset) ∧
        (2 ≤ cs.length →
          (∀ c ∈ cs, buildSingleSQLSelect false projections fromTables c [] 0 0 =
            .ok (selectText false projections fromTables (render c) [] 0 0)) ∧
          (inRange projections groupBy →
            buildSQLSelect distinct projections projectionTypes fromTables t groupBy limit
                offset =
              .ok (unionText distinct projections
                (cs.map (fun c => selectText false projections fromTables (render c) [] 0 0))
                (columnsAt projections groupBy) limit offset)))) ∧
      (cs.length ≤ 1 →
        noOrNode (AndOrExpression.mk true cs "") = true ∧
        BuildAndOrExpression (AndOrExpression.mk true cs "") =
          .ok (render (AndOrExpression.mk true cs "")) ∧
        (render (AndOrExpression.mk true cs "") = "" ∨
          AndText (leaves t) (render (AndOrExpression.mk true cs "")))) := by
  refine ⟨unwind t, UnwindOrExpressions_ok t, ?_, ?_, ?_⟩
  · intro c hc
    have hconj := unwind_isConjunction t c hc
    exact ⟨hconj.hasNoOrNode, BuildAndOrExpression_ok c,
      AndText.mono (unwind_leaves t c hc) hconj.andText⟩
  · intro distinct projections projectionTypes fromTables groupBy limit offset
    refine ⟨fun hlen => buildSQLSelect_single _ _ _ _ _ _ _ _ hlen, fun hlen => ⟨?_, ?_⟩⟩
    · intro c _
      exact buildSingleSQLSelect_ok false projections fromTables c [] 0 0 (inRange_nil _)
    · intro hrange
      exact buildSQLSelect_union _ _ _ _ _ _ _ _ hlen hrange
  · intro hlen
    refine ⟨?_, BuildAndOrExpression_ok _, ?_⟩
    · match hcs : unwind t, hlen with
      | [], _ => simp [noOrNode, noOrNode.all]
      | [c], _ =>
        have hconj := unwind_isConjunction t c (by rw [hcs]; exact List.mem_singleton_self c)
        simp [noOrNode, noOrNode.all, hconj.hasNoOrNode]
      | _ :: _ :: _, hlen => simp at hlen
    · match hcs : unwind t, hlen with
      | [], _ => left; simp [render, render.children]
      | [c], _ =>
        right
        have hconj := unwind_isConjunction t c (by rw [hcs]; exact List.mem_singleton_self c)
        rw [render_and_singleton c hconj.render_ne_empty]
        have := AndText.mono (unwind_leaves t c (by rw [hcs]; exact List.mem_singleton_self c))
          hconj.andText
        exact this
      | _ :: _ :: _, hlen => simp at hlen



/-! ### Helper lemmas: the number of conjunctions of the tree of `Translate` -/

theorem unwind_leaf (and : Bool) (children : List AndOrExpression) (e : String) (h : e ≠ "") :
    unwind (AndOrExpression.mk and children e) =
      [AndOrExpression.mk true [AndOrExpression.mk and children e] ""] := by
  simp [unwind, h]

theorem unwind_and_leaves_length (cs : List AndOrExpression) (hne : cs ≠ [])
    (hcs : ∀ c ∈ cs, c.Expression ≠ "") :
    (unwind (AndOrExpression.mk true cs "")).length = 1 := by
  have hno : ∀ c ∈ cs, noEmptyNode c = true := by
    intro c hc
    obtain ⟨a, ch, e⟩ := c
    exact noEmptyNode_leaf a ch e (hcs _ hc)
  rw [unwind_and_length cs hne hno]
  apply List.prod_eq_one
  intro x hx
  obtain ⟨c, hc, rfl⟩ := List.mem_map.1 hx
  obtain ⟨a, ch, e⟩ := c
  rw [unwind_leaf a ch e (hcs _ hc)]
  rfl

theorem unwind_or_leaves_length (cs : List AndOrExpression)
    (hcs : ∀ c ∈ cs, c.Expression ≠ "") :
    (unwind (AndOrExpression.mk false cs "")).length = cs.length := by
  have hlen : (unwind.orConcat cs).length = cs.length := by
    induction cs with
    | nil => simp [unwind.orConcat]
    | cons c rest ih =>
      obtain ⟨a, ch, e⟩ := c
      have he : e ≠ "" := hcs _ (List.mem_cons_self _ _)
      rw [unwind.orConcat, unwind_leaf a ch e he]
      simp [ih (fun d hd => hcs d (List.mem_cons_of_mem _ hd))]
  have h : unwind (AndOrExpression.mk false cs "") = unwind.orConcat cs := by
    simp [unwind]
  rw [h, hlen]

theorem labelConstraint_prod (alias_ : String) (labels : List String) :
    ((labelConstraint alias_ labels).map (fun t => (unwind t).length)).prod =
      max 1 labels.length := by
  unfold labelConstraint
  split
  · rename_i h
    subst h
    rfl
  · rename_i hne
    have hlen : 1 ≤ labels.length := by
      cases labels with
      | nil => exact absurd rfl hne
      | cons _ _ => simp
    simp only [List.map_cons, List.map_nil, List.prod_cons, List.prod_nil, mul_one]
    rw [unwind_or_leaves_length]
    · simp only [List.length_map]
      omega
    · intro c hc
      obtain ⟨label, _, rfl⟩ := List.mem_map.1 hc
      exact append_ne_empty_right _ _ (by decide)

theorem unwind_out_length (alias_ : String) (r : QueryRelation) :
    (unwind (Translate.out alias_ r)).length = 1 := by
  unfold Translate.out
  apply unwind_and_leaves_length _ (by simp)
  intro c hc
  simp only [List.mem_cons, List.mem_singleton, List.not_mem_nil, or_false] at hc
  rcases hc with rfl | rfl <;> exact append_ne_empty_right _ _ (by decide)

theorem unwind_in_length (alias_ : String) (r : QueryRelation) :
    (unwind (Translate.in alias_ r)).length = 1 := by
  unfold Translate.in
  apply unwind_and_leaves_length _ (by simp)
  intro c hc
  simp only [List.mem_cons, List.mem_singleton, List.not_mem_nil, or_false] at hc
  rcases hc with rfl | rfl <;> exact append_ne_empty_right _ _ (by decide)

theorem unwind_out_in_length (alias_ : String) (r : QueryRelation) :
    (unwind (AndOrExpression.mk false [Translate.out alias_ r, Translate.in alias_ r]
      "")).length = 2 := by
  have h : unwind (AndOrExpression.mk false [Translate.out alias_ r, Translate.in alias_ r] "")
      = unwind (Translate.out alias_ r) ++ (unwind (Translate.in alias_ r) ++ []) := by
    simp [unwind, unwind.orConcat]
  rw [h]
  simp [unwind_out_length, unwind_in_length]

section SelectBranches

variable {N R E : Type}

theorem relationConstraints_prod (covered : QueryRelation → Bool) (rs : List QueryRelation)
    (oneDirection : List Bool)
    (hone : List.Forall₂ (fun r b => r.Direction = .Either → b = covered r) rs oneDirection) :
    ∀ i : Nat, ((relationConstraints i rs oneDirection).map (fun t => (unwind t).length)).prod =
      (rs.map (fun r => max 1 r.Labels.length)).prod
        * 2 ^ (rs.filter (fun r => r.Direction == .Either && !covered r)).length := by
  induction hone with
  | nil => intro i; simp [relationConstraints]
  | @cons r b rest bs hrb _ ih =>
    intro i
    have hdir : (unwind (directionConstraint ("r" ++ toString i) r b)).length =
        if (r.Direction == .Either && !covered r) = true then 2 else 1 := by
      unfold directionConstraint
      cases hd : r.Direction with
      | Left => simp [unwind_in_length]
      | Right => simp [unwind_out_length]
      | Either =>
        rw [← hrb hd]
        cases b
        · simp [unwind_out_in_length]
        · simp [unwind_out_length]
    rw [relationConstraints]
    simp only [List.headD_cons, List.tail_cons, List.map_append, List.prod_append, List.map_cons,
      List.map_nil, List.prod_cons, List.prod_nil, mul_one, labelConstraint_prod, hdir, ih,
      List.filter_cons]
    cases (r.Direction == .Either && !covered r)
    · simp only [Bool.false_eq_true, if_false, mul_one]
      ring
    · simp only [if_true, List.length_cons, pow_succ]
      ring

theorem nodeConstraints_prod (ns : List QueryNode) :
    ∀ i : Nat, ((nodeConstraints i ns).map (fun t => (unwind t).length)).prod =
      (ns.map (fun n => max 1 n.Labels.length)).prod := by
  induction ns with
  | nil => intro i; simp [nodeConstraints]
  | cons n rest ih =>
    intro i
    rw [nodeConstraints]
    simp only [List.map_append, List.prod_append, List.map_cons, List.prod_cons,
      labelConstraint_prod, ih]

theorem specSelectBranches_pos (graph : QueryGraph) (whereVariables : List TypeAndIndex) :
    0 < specSelectBranches graph whereVariables := by
  unfold specSelectBranches
  have h1 : ∀ (l : List Nat), (∀ x ∈ l, 0 < x) → 0 < l.prod := by
    intro l hl
    induction l with
    | nil => simp
    | cons a rest ih =>
      rw [List.prod_cons]
      exact Nat.mul_pos (hl a (List.mem_cons_self _ _))
        (ih (fun x hx => hl x (List.mem_cons_of_mem _ hx)))
  refine Nat.mul_pos (Nat.mul_pos (h1 _ ?_) (h1 _ ?_)) (pow_pos (by decide) _)
  · intro x hx
    obtain ⟨n, _, rfl⟩ := List.mem_map.1 hx
    omega
  · intro x hx
    obtain ⟨r, _, rfl⟩ := List.mem_map.1 hx
    omega

/-- When the tree of `Translate` takes one direction for exactly the undirected relations that
meet the preconditions of the specification, and its WHERE leaves are not empty, it expands
into `specSelectBranches` conjunctions, or into none when the tree has no child, in which case
`specSelectBranches` is one. -/
theorem whereTree_unwind_length (graph : QueryGraph) (whereVariables : List TypeAndIndex)
    (oneDirection : List Bool) (filterChildren : List AndOrExpression)
    (hone : List.Forall₂
      (fun r b => r.Direction = .Either → b = specSingleDirection graph whereVariables r)
      graph.Relations oneDirection)
    (hw : ∀ leaf ∈ filterChildren, leaf.Expression ≠ "") :
    ((unwind (whereTree graph oneDirection filterChildren)).length =
        specSelectBranches graph whereVariables ∨
      ((unwind (whereTree graph oneDirection filterChildren)).length = 0 ∧
        specSelectBranches graph whereVariables = 1)) := by
  have hprod : (((whereTree graph oneDirection filterChildren).Children).map
      (fun t => (unwind t).length)).prod = specSelectBranches graph whereVariables := by
    unfold whereTree specSelectBranches
    simp only [List.map_append, List.prod_append, nodeConstraints_prod,
      relationConstraints_prod (specSingleDirection graph whereVariables) graph.Relations
        oneDirection hone]
    have hf : ((if filterChildren.length > 0 then
        [AndOrExpression.mk true filterChildren ""] else []).map
          (fun t => (unwind t).length)).prod = 1 := by
      split
      · rename_i hpos
        have hne : filterChildren ≠ [] := by
          intro h0; rw [h0] at hpos; simp at hpos
        simp [unwind_and_leaves_length filterChildren hne hw]
      · rfl
    rw [hf, mul_one]
    ring
  by_cases hch : (whereTree graph oneDirection filterChildren).Children = []
  · right
    have htree : whereTree graph oneDirection filterChildren =
        AndOrExpression.mk true (whereTree graph oneDirection filterChildren).Children "" := rfl
    rw [hch] at hprod
    rw [htree, hch]
    exact ⟨by simp [unwind, unwind.andFold], by simpa using hprod.symm⟩
  · left
    have htree : whereTree graph oneDirection filterChildren =
        AndOrExpression.mk true (whereTree graph oneDirection filterChildren).Children "" := rfl
    rw [← hprod]
    conv_lhs => rw [htree]
    exact unwind_and_length _ hch
      (whereTree_children_noEmptyNode graph oneDirection filterChildren hw)

theorem forall₂_imp_mem {α β : Type} {P Q : α → β → Prop} {l1 : List α} {l2 : List β}
    (h : List.Forall₂ P l1 l2) (himp : ∀ a ∈ l1, ∀ b, P a b → Q a b) :
    List.Forall₂ Q l1 l2 := by
  induction h with
  | nil => exact List.Forall₂.nil
  | @cons a b l1 l2 hab _ ih =>
    exact List.Forall₂.cons (himp a (List.mem_cons_self _ _) b hab)
      (ih (fun x hx y hxy => himp x (List.mem_cons_of_mem _ hx) y hxy))

/-- The branches of a translation in which the single-direction test of the code gives, for
every undirected relation, the answer of the preconditions of the specification: for every
such query `Translate` translates whose WHERE leaves are not empty, the emitted SQL is a single
SELECT when `P = specSelectBranches` is one, and otherwise the tree expands into exactly `P`
conjunctions and the emitted SQL is the union of exactly `P` parenthesised SELECTs. -/
theorem Translate_branches_of_agreement (c : Collaborators N R E) (sqt : SQLQueryTranslator)
    (query : QueryCypher N R E) (tr : SQLTranslation) (graph : QueryGraph)
    (constrainedNodes : List Int) (filterChildren : List AndOrExpression)
    (whereVariables : List TypeAndIndex)
    (h : Translate c sqt query = .ok tr)
    (h1 : Translate.queryMatches c query.QuerySinglePartQuery.QueryMatches sqt.QueryGraph [] [] =
      .ok (graph, constrainedNodes, filterChildren))
    (hw : ∀ leaf ∈ filterChildren, leaf.Expression ≠ "")
    (hagree : ∀ r ∈ graph.Relations, r.Direction = .Either →
      Translate.oneDirectionOptimization c graph constrainedNodes r =
        .ok (specSingleDirection graph whereVariables r)) :
    ∃ results oneDirection limit offset,
      ProjectionResults c graph query.QuerySinglePartQuery.ProjectionBody.ProjectionItems
        results ∧
      (specSelectBranches graph whereVariables = 1 →
        tr.Query =
          selectText query.QuerySinglePartQuery.ProjectionBody.Distinct
            (results.map (fun r => r.2))
            (nodeTables 0 graph.Nodes ++ relationTables 0 graph.Relations)
            (render (AndOrExpression.mk true
              (unwind (whereTree graph oneDirection filterChildren)) ""))
            (groupByColumns results) limit offset) ∧
      (specSelectBranches graph whereVariables ≠ 1 →
        (unwind (whereTree graph oneDirection filterChildren)).length =
          specSelectBranches graph whereVariables ∧
        tr.Query =
          unionText query.QuerySinglePartQuery.ProjectionBody.Distinct
            (results.map (fun r => r.2))
            ((unwind (whereTree graph oneDirection filterChildren)).map (fun y =>
              selectText false (results.map (fun r => r.2))
                (nodeTables 0 graph.Nodes ++ relationTables 0 graph.Relations) (render y) []
                0 0))
            (groupByColumns results) limit offset) := by
  obtain ⟨graph', constrainedNodes', filterChildren', results, oneDirection, limit, offset,
    h1', hres, hone, _, _, _, _, htext⟩ := Translate_ok_query c sqt query tr h
  rw [h1] at h1'
  injection h1' with h1'
  injection h1' with hg h1'
  injection h1' with hcn hfc
  subst hg hcn hfc
  have hone' : List.Forall₂
      (fun r b => r.Direction = .Either → b = specSingleDirection graph whereVariables r)
      graph.Relations oneDirection := by
    refine forall₂_imp_mem hone ?_
    intro r hr b hb hd
    have h2 := hb hd
    rw [hagree r hr hd] at h2
    injection h2 with h2
    exact h2.symm
  have hlen := whereTree_unwind_length graph whereVariables oneDirection filterChildren hone' hw
  have hpos := specSelectBranches_pos graph whereVariables
  refine ⟨results, oneDirection, limit, offset, hres, ?_, ?_⟩
  · intro hP
    have hle : (unwind (whereTree graph oneDirection filterChildren)).length ≤ 1 := by
      rcases hlen with hlen | ⟨hlen, _⟩ <;> omega
    rw [htext]
    unfold builderText
    rw [if_pos hle]
  · intro hP
    have heq : (unwind (whereTree graph oneDirection filterChildren)).length =
        specSelectBranches graph whereVariables := by
      rcases hlen with hlen | ⟨_, hone1⟩
      · exact hlen
      · exact absurd hone1 hP
    refine ⟨heq, ?_⟩
    rw [htext]
    unfold builderText
    rw [if_neg (by omega)]

end SelectBranches

/-! ### `Translate`: the number of SELECT branches -/

set_option maxRecDepth 100000 in
/-- C22 (the code at the failing input): in `MATCH (a)-[r]-(b) WHERE r.type = 'owns' RETURN a,
b` the WHERE clause renders to the non-empty text `r0.type = 'owns'` and its only variable `r`
is bound to the relation 0. No node and no relation has a label, and the only relation is
undirected and meets the preconditions of the single-direction optimization as the
specification words them (one relation, no WHERE variable refers to an endpoint, no endpoint
with a label), so `P = 1` and the claim gives a single SELECT without UNION. The code keeps the
index 0 of `r` in `constrainedNodes`, takes it for the index of the endpoint `a0`, and emits
the union of two parenthesised SELECTs, one per direction. -/
theorem Translate_branches_relation_where :
    Translate.queryMatches specCollaborators
        scenarioRelationWhere.QuerySinglePartQuery.QueryMatches
        NewSQLQueryTranslator.QueryGraph [] [] =
      .ok (graphRelationWhere, [0], [AndOrExpression.mk false [] "r0.type = 'owns'"]) ∧
    QueryExpression.WhereVisitor graphRelationWhere
        (.Equal (.Property "r" "type") (.StringLiteral "owns")) =
      .ok { whereExpression := "r0.type = 'owns'", Variables := ["r"] } ∧
    graphRelationWhere.FindVariable "r" = .ok ⟨.RelationType, 0⟩ ∧
    specSingleDirection graphRelationWhere [⟨.RelationType, 0⟩] ⟨[], 0, 1, .Either⟩ = true ∧
    specSelectBranches graphRelationWhere [⟨.RelationType, 0⟩] = 1 ∧
    Translate specCollaborators NewSQLQueryTranslator scenarioRelationWhere =
      .ok translationRelationWhere ∧
    translationRelationWhere.Query =
      unionText false ["a0.id, a0.value, a0.type", "a1.id, a1.value, a1.type"]
        [ selectText false ["a0.id, a0.value, a0.type", "a1.id, a1.value, a1.type"]
            ["assets a0", "assets a1", "relations r0"]
            "((r0.from_id = a0.id AND r0.to_id = a1.id) AND r0.type = 'owns')" [] 0 0,
          selectText false ["a0.id, a0.value, a0.type", "a1.id, a1.value, a1.type"]
            ["assets a0", "assets a1", "relations r0"]
            "((r0.from_id = a1.id AND r0.to_id = a0.id) AND r0.type = 'owns')" [] 0 0 ]
        [] 0 0 ∧
    occursIn "\nUNION ALL\n" translationRelationWhere.Query :=
  ⟨rfl, rfl, rfl, rfl, rfl, rfl, by decide, by decide⟩


set_option maxRecDepth 100000 in
/-- The branches of `MATCH (a:Person:Employee)-[r]-(b) WHERE a.value = 'x' RETURN a`, whose
WHERE variable `a` is the node 0: the single-direction test of the code and the preconditions
of the specification both fail for `r`, two labels and two directions give `P = 4`, and the
emitted SQL is the union of four parenthesised SELECTs. -/
theorem Translate_branches_of_agreement_example :
    Translate specCollaborators NewSQLQueryTranslator scenarioBranches =
      .ok translationBranches ∧
    specSelectBranches graphBranches [⟨.NodeType, 0⟩] = 4 ∧
    ∃ (results : List (ProjectionVisitorResult × String)) (oneDirection : List Bool)
        (limit offset : Int),
      (unwind (whereTree graphBranches oneDirection
        [AndOrExpression.mk false [] "a0.value = 'x'"])).length = 4 ∧
      translationBranches.Query =
        unionText false (results.map (fun r => r.2))
          ((unwind (whereTree graphBranches oneDirection
              [AndOrExpression.mk false [] "a0.value = 'x'"])).map (fun y =>
            selectText false (results.map (fun r => r.2))
              (nodeTables 0 graphBranches.Nodes ++ relationTables 0 graphBranches.Relations)
              (render y) [] 0 0))
          (groupByColumns results) limit offset := by
  refine ⟨rfl, rfl, ?_⟩
  obtain ⟨results, oneDirection, limit, offset, _, _, hunion⟩ :=
    Translate_branches_of_agreement specCollaborators NewSQLQueryTranslator scenarioBranches
      translationBranches graphBranches [0] [AndOrExpression.mk false [] "a0.value = 'x'"]
      [⟨.NodeType, 0⟩] rfl rfl
      (by intro leaf hleaf; rw [List.mem_singleton] at hleaf; subst hleaf; decide)
      (by
        intro r hr _
        have hr1 : r = ⟨[], 0, 1, .Either⟩ := List.mem_singleton.1 hr
        subst hr1
        rfl)
  obtain ⟨hlen, hq⟩ := hunion (by decide)
  have hP : specSelectBranches graphBranches [⟨.NodeType, 0⟩] = 4 := rfl
  rw [hP] at hlen
  exact ⟨results, oneDirection, limit, offset, hlen, hq⟩

end knowledge
